import Mathlib

/-!
# win-reg-wrapper: a verification development for `registry.h`

The header `registry.h` is a convenience layer over the Windows registry.  The
layer (namespace `reg`) is embedded function by function; the registry itself
is an external collaborator and is modelled at the boundary by an idealised
store:

* a node is a root selector together with the list of its path segments; the
  root node (empty list) of every predefined root always exists;
* the store keeps the list of existing non-root nodes and the list of entries,
  each entry attached to a node and carrying a type tag and its bytes;
* names are compared exactly, there are no access-control lists and no
  resource limits, and nothing mutates the store concurrently;
* a handle records the node it was opened on; the state also records which
  handles are currently open.

Machine integers (`DWORD`) are natural numbers, reduced modulo `2 ^ 32` where
the source computes with them.
-/

set_option linter.unusedVariables false

namespace reg

/-! ## Data model of the native store -/

/-- Modelled from the spec: (native store) the five predefined roots of the registry. -/
inductive Root
  | CLASSES_ROOT
  | CURRENT_USER
  | LOCAL_MACHINE
  | USERS
  | CURRENT_CONFIG
  deriving DecidableEq, Repr

/-- Modelled from the spec: (native store) a node of the store: root selector and path segments (empty for the root node). -/
abbrev Loc := Root × List String

/-- Modelled from the spec: (native store) the native `HKEY`: either one of the predefined root constants or a handle
obtained from `RegOpenKeyEx` / `RegCreateKeyEx`, which records the node it was
opened on and the access mask it was opened with. -/
inductive HKEY
  | predefined (r : Root)
  | opened (r : Root) (path : List String) (rights : Nat)
  deriving DecidableEq, Repr

def HKEY_CLASSES_ROOT : HKEY := HKEY.predefined Root.CLASSES_ROOT
def HKEY_CURRENT_USER : HKEY := HKEY.predefined Root.CURRENT_USER
def HKEY_LOCAL_MACHINE : HKEY := HKEY.predefined Root.LOCAL_MACHINE
def HKEY_USERS : HKEY := HKEY.predefined Root.USERS
def HKEY_CURRENT_CONFIG : HKEY := HKEY.predefined Root.CURRENT_CONFIG

/-- Modelled from the spec: (native store) an entry's payload: declared type tag and stored bytes. -/
structure RegValue where
  type : Nat
  data : List Nat
  deriving DecidableEq, Repr

/-- Modelled from the spec: (native store) the registry: existing non-root nodes (in enumeration order) and entries
(in enumeration order), each entry keyed by its node and its name. -/
structure Registry where
  keys : List Loc
  values : List ((Loc × String) × RegValue)
  deriving DecidableEq, Repr

/-- Modelled from the spec: (native store) the state of the system: the registry and the currently open handles. -/
structure Sys where
  reg : Registry
  handles : List HKEY
  deriving DecidableEq, Repr

/-! ## Windows SDK constants (winnt.h, winerror.h, winreg.h; not part of the repository) -/

/-- Modelled from the spec: the Windows SDK constant `REG_NONE`, declared outside the repository. -/
def REG_NONE : Nat := 0

/-- Modelled from the spec: the Windows SDK constant `REG_SZ`, declared outside the repository. -/
def REG_SZ : Nat := 1

/-- Modelled from the spec: the Windows SDK constant `REG_EXPAND_SZ`, declared outside the repository. -/
def REG_EXPAND_SZ : Nat := 2

/-- Modelled from the spec: the Windows SDK constant `REG_BINARY`, declared outside the repository. -/
def REG_BINARY : Nat := 3

/-- Modelled from the spec: the Windows SDK constant `REG_DWORD`, declared outside the repository. -/
def REG_DWORD : Nat := 4

/-- Modelled from the spec: the Windows SDK constant `REG_DWORD_BIG_ENDIAN`, declared outside the repository. -/
def REG_DWORD_BIG_ENDIAN : Nat := 5

/-- Modelled from the spec: the Windows SDK constant `REG_LINK`, declared outside the repository. -/
def REG_LINK : Nat := 6

/-- Modelled from the spec: the Windows SDK constant `REG_MULTI_SZ`, declared outside the repository. -/
def REG_MULTI_SZ : Nat := 7

/-- Modelled from the spec: the Windows SDK constant `REG_RESOURCE_LIST`, declared outside the repository. -/
def REG_RESOURCE_LIST : Nat := 8

/-- Modelled from the spec: the Windows SDK constant `REG_FULL_RESOURCE_DESCRIPTOR`, declared outside the repository. -/
def REG_FULL_RESOURCE_DESCRIPTOR : Nat := 9

/-- Modelled from the spec: the Windows SDK constant `REG_RESOURCE_REQUIREMENTS_LIST`, declared outside the repository. -/
def REG_RESOURCE_REQUIREMENTS_LIST : Nat := 10

/-- Modelled from the spec: the Windows SDK constant `REG_QWORD`, declared outside the repository. -/
def REG_QWORD : Nat := 11

/-- Modelled from the spec: the Windows SDK constant `ERROR_SUCCESS`, declared outside the repository. -/
def ERROR_SUCCESS : Nat := 0

/-- Modelled from the spec: the Windows SDK constant `ERROR_FILE_NOT_FOUND`, declared outside the repository. -/
def ERROR_FILE_NOT_FOUND : Nat := 2

/-- Modelled from the spec: the Windows SDK constant `ERROR_ACCESS_DENIED`, declared outside the repository. -/
def ERROR_ACCESS_DENIED : Nat := 5

/-- Modelled from the spec: the Windows SDK constant `ERROR_MORE_DATA`, declared outside the repository. -/
def ERROR_MORE_DATA : Nat := 234

/-- Modelled from the spec: the Windows SDK constant `ERROR_NO_MORE_ITEMS`, declared outside the repository. -/
def ERROR_NO_MORE_ITEMS : Nat := 259

/-- Modelled from the spec: the Windows SDK constant `ERROR_UNSUPPORTED_TYPE`, declared outside the repository. -/
def ERROR_UNSUPPORTED_TYPE : Nat := 1630

/-- Modelled from the spec: the Windows SDK constant `KEY_QUERY_VALUE`, declared outside the repository. -/
def KEY_QUERY_VALUE : Nat := 0x0001

/-- Modelled from the spec: the Windows SDK constant `KEY_SET_VALUE`, declared outside the repository. -/
def KEY_SET_VALUE : Nat := 0x0002

/-- Modelled from the spec: the Windows SDK constant `KEY_ENUMERATE_SUB_KEYS`, declared outside the repository. -/
def KEY_ENUMERATE_SUB_KEYS : Nat := 0x0008

/-- Modelled from the spec: the Windows SDK constant `KEY_WOW64_64KEY`, declared outside the repository. -/
def KEY_WOW64_64KEY : Nat := 0x0100

/-- Modelled from the spec: the Windows SDK constant `DELETE`, declared outside the repository. -/
def DELETE : Nat := 0x00010000

/-- Modelled from the spec: the Windows SDK constant `READ_CONTROL`, declared outside the repository. -/
def READ_CONTROL : Nat := 0x00020000

/-- Modelled from the spec: the Windows SDK constant `KEY_READ`, declared outside the repository. -/
def KEY_READ : Nat := 0x00020019

/-- Modelled from the spec: the Windows SDK constant `KEY_WRITE`, declared outside the repository. -/
def KEY_WRITE : Nat := 0x00020006

/-- Modelled from the spec: the Windows SDK constant `RRF_RT_REG_SZ`, declared outside the repository. -/
def RRF_RT_REG_SZ : Nat := 0x00000002

/-- Modelled from the spec: the Windows SDK constant `RRF_RT_REG_DWORD`, declared outside the repository. -/
def RRF_RT_REG_DWORD : Nat := 0x00000010

/-- Modelled from the spec: the Windows SDK constant `RRF_RT_ANY`, declared outside the repository. -/
def RRF_RT_ANY : Nat := 0x0000ffff

/-- Modelled from the spec: the Windows SDK constant `REG_OPTION_NON_VOLATILE`, declared outside the repository. -/
def REG_OPTION_NON_VOLATILE : Nat := 0

/-- Modelled from the spec: the Windows SDK constant `REG_CREATED_NEW_KEY`, declared outside the repository. -/
def REG_CREATED_NEW_KEY : Nat := 1

/-- Modelled from the spec: the Windows SDK constant `REG_OPENED_EXISTING_KEY`, declared outside the repository. -/
def REG_OPENED_EXISTING_KEY : Nat := 2

/-- The modulus of `DWORD` arithmetic. -/
def DWORD_MOD : Nat := 2 ^ 32

/-! ## Strings handed to the native API -/

/-- The NUL character. -/
def NUL : Char := Char.ofNat 0

/-- The path separator (backslash). -/
def SEP : Char := Char.ofNat 92

/-- What a C API reads from `std::string_view::data()`: the characters up to
the first NUL (the views of the layer are backed by NUL-terminated strings). -/
def c_str (s : String) : String := String.mk (s.data.takeWhile (fun c => decide (c ≠ NUL)))

/-- Modelled from the spec: (native store) cut a character sequence at every separator. -/
def splitSegs : List Char → List (List Char)
  | [] => [[]]
  | c :: cs =>
    if c = SEP then [] :: splitSegs cs
    else
      match splitSegs cs with
      | [] => [[c]]
      | seg :: rest => (c :: seg) :: rest

/-- Modelled from the spec: (native store) the path segments named by a sub-key string: the non-empty pieces between
separators.  The empty string names no segment (the node itself). -/
def segments (lpSubKey : String) : List String :=
  ((splitSegs lpSubKey.data).filter (fun l => decide (l ≠ []))).map String.mk

/-- Modelled from the spec: (native store) the node a handle refers to. -/
def HKEY.loc : HKEY → Loc
  | HKEY.predefined r => (r, [])
  | HKEY.opened r path _ => (r, path)

/-- Modelled from the spec: (native store) the node named by a sub-key string relative to a handle. -/
def HKEY.sub (hKey : HKEY) (lpSubKey : String) : Loc :=
  (hKey.loc.1, hKey.loc.2 ++ segments lpSubKey)

/-- Modelled from the spec: (native store) the handle that opening the sub-key `lpSubKey` of `hKey` with the access
mask `samDesired` yields. -/
def HKEY.openedAt (hKey : HKEY) (lpSubKey : String) (samDesired : Nat) : HKEY :=
  HKEY.opened (hKey.sub lpSubKey).1 (hKey.sub lpSubKey).2 samDesired

/-- The bytes of a character sequence. -/
def bytesOf (s : String) : List Nat := s.data.map Char.toNat

/-- The character sequence of a list of bytes. -/
def charsOf (b : List Nat) : List Char := b.map Char.ofNat

/-- The four bytes of a `DWORD` in memory (little endian). -/
def dwordBytes (d : Nat) : List Nat :=
  [d % 256, d / 256 % 256, d / 65536 % 256, d / 16777216 % 256]

/-- The `DWORD` held by (the first four of) the bytes of a variable. -/
def dwordOf (b : List Nat) : Nat :=
  (b.getD 0 0 + 256 * b.getD 1 0 + 65536 * b.getD 2 0 + 16777216 * b.getD 3 0) % DWORD_MOD

/-- A caller's buffer after the native call copied `out` to its start. -/
def overlay (buffer out : List α) : List α := out ++ buffer.drop out.length

/-! ## Pure operations on the registry -/

/-- Modelled from the spec: (native store) does the node exist?  Root nodes always do. -/
def Registry.hasKey (g : Registry) (l : Loc) : Bool := decide (l.2 = [] ∨ l ∈ g.keys)

/-- Modelled from the spec: (native store) the payload stored under key `k` in a list of entries, if there is one. -/
def lookupEntry (k : Loc × String) : List ((Loc × String) × RegValue) → Option RegValue
  | [] => none
  | e :: es => if e.1 = k then some e.2 else lookupEntry k es

/-- Modelled from the spec: (native store) store `v` under key `k`: overwrite the entry in place when present, append it otherwise. -/
def setEntry (k : Loc × String) (v : RegValue) :
    List ((Loc × String) × RegValue) → List ((Loc × String) × RegValue)
  | [] => [(k, v)]
  | e :: es => if e.1 = k then (k, v) :: es else e :: setEntry k v es

/-- Modelled from the spec: (native store) the entry called `name` attached to `l`, if there is one. -/
def Registry.getValue (g : Registry) (l : Loc) (name : String) : Option RegValue :=
  lookupEntry (l, name) g.values

/-- Modelled from the spec: (native store) write the entry called `name` of node `l`. -/
def Registry.setValue (g : Registry) (l : Loc) (name : String) (v : RegValue) : Registry :=
  { g with values := setEntry (l, name) v g.values }

/-- Modelled from the spec: (native store) remove the entry called `name` of node `l`. -/
def Registry.deleteValue (g : Registry) (l : Loc) (name : String) : Registry :=
  { g with values := g.values.filter (fun e => decide (e.1 ≠ (l, name))) }

/-- Modelled from the spec: (native store) is `k` the node `l` or nested below it? -/
def Loc.within (l k : Loc) : Bool := decide (k.1 = l.1 ∧ l.2 <+: k.2)

/-- Modelled from the spec: (native store) is `k` nested strictly below `l`? -/
def Loc.below (l k : Loc) : Bool := decide (k.1 = l.1 ∧ l.2 <+: k.2 ∧ k.2 ≠ l.2)

/-- Modelled from the spec: (native store) create node `l` together with every missing ancestor. -/
def Registry.createKey (g : Registry) (l : Loc) : Registry :=
  { g with keys := g.keys ++
      ((l.2.inits.tail.map (fun p => (l.1, p))).filter (fun k => decide (k ∉ g.keys))) }

/-- Modelled from the spec: (native store) remove node `l` and its entries. -/
def Registry.deleteKey (g : Registry) (l : Loc) : Registry :=
  { keys := g.keys.filter (fun k => decide (k ≠ l)),
    values := g.values.filter (fun e => decide (e.1.1 ≠ l)) }

/-- Modelled from the spec: (native store) remove every node nested strictly below `l`, their entries, and the entries of `l`. -/
def Registry.deleteTree (g : Registry) (l : Loc) : Registry :=
  { keys := g.keys.filter (fun k => !(l.below k)),
    values := g.values.filter (fun e => !(l.within e.1.1)) }

/-- Modelled from the spec: (native store) the names of the direct children of `l`, in enumeration order. -/
def Registry.subkeyNames (g : Registry) (l : Loc) : List String :=
  g.keys.filterMap (fun k => if k.1 = l.1 ∧ k.2.dropLast = l.2 then k.2.getLast? else none)

/-- Modelled from the spec: (native store) the names of the entries of `l`, in enumeration order. -/
def Registry.valueNames (g : Registry) (l : Loc) : List String :=
  g.values.filterMap (fun e => if e.1.1 = l then some e.1.2 else none)

/-- Modelled from the spec: (native store) the length of the longest name of a list (0 for the empty list). -/
def maxLen (names : List String) : Nat := names.foldr (fun n m => max n.length m) 0

/-! ## Errors and the effect of a call -/

/-- The exceptions of the layer.  A `runtime_error` carries the native code it
was built from (its text is produced by the system's message tables); the
other exceptions carry their text, which the base class copies as a C string. -/
inductive Exception
  | runtime_error (error_code : Nat)
  | out_of_range
  | not_implemented
  | key_not_found (what : String)
  | value_not_found (what : String)
  | type_error (what : String)
  deriving DecidableEq, Repr

deriving instance DecidableEq for Except

/-- A call of the layer: from a state to a result or an exception, and the state it leaves. -/
def M (α : Type) : Type := Sys → Except Exception α × Sys

/-- Return normally. -/
def M.pure (a : α) : M α := fun s => (Except.ok a, s)

/-- Sequencing; an exception ends the sequence. -/
def M.bind (m : M α) (f : α → M β) : M β := fun s =>
  match m s with
  | (Except.ok a, s1) => f a s1
  | (Except.error e, s1) => (Except.error e, s1)

/-- Raise an exception. -/
def M.throw (e : Exception) : M α := fun s => (Except.error e, s)

/-- Raise the exception built by a constructor call, or the exception that
building it raised. -/
def M.throwNew (e : Except Exception Exception) : M α :=
  match e with
  | Except.ok ex => M.throw ex
  | Except.error ex => M.throw ex

instance : Monad M where
  pure := M.pure
  bind := M.bind

/-! ## The native store API

Modelled at the boundary (section 6 of the specification and the Windows
documentation); none of these functions is part of the repository. -/

/-- Modelled from the spec: the native `open(root, path, desiredRights)`.
Succeeds exactly when the node exists; the new handle is recorded as open. -/
def RegOpenKeyEx (hKey : HKEY) (lpSubKey : String) (ulOptions samDesired : Nat) :
    M (Nat × Option HKEY) := fun s =>
  if s.reg.hasKey (hKey.sub lpSubKey) then
    (Except.ok (ERROR_SUCCESS, some (hKey.openedAt lpSubKey samDesired)),
      { s with handles := hKey.openedAt lpSubKey samDesired :: s.handles })
  else
    (Except.ok (ERROR_FILE_NOT_FOUND, none), s)

/-- Modelled from the spec: the native close primitive.  The argument is the
content of a handle cell; a cell that no open has filled holds no handle. -/
def RegCloseKey (hKey : Option HKEY) : M Nat := fun s =>
  match hKey with
  | some h => (Except.ok ERROR_SUCCESS, { s with handles := s.handles.erase h })
  | none => (Except.ok ERROR_SUCCESS, s)

/-- Modelled from the spec: (native store) the entry called `name` of node `l` when the node exists. -/
def Registry.entry (g : Registry) (l : Loc) (name : String) : Option RegValue :=
  if g.hasKey l then g.getValue l name else none

/-- Modelled from the spec: the zero-length metadata query (`RegQueryValueEx`
with every out-parameter `NULL`). -/
def RegQueryValueEx (hKey : HKEY) (lpValueName : String) : M Nat := fun s =>
  if (s.reg.entry hKey.loc lpValueName).isSome then (Except.ok ERROR_SUCCESS, s)
  else (Except.ok ERROR_FILE_NOT_FOUND, s)

/-- Modelled from the spec: (native store) the restriction bit (`RRF_RT_REG_*`) of a declared type. -/
def rrfBit (type : Nat) : Nat :=
  if type = REG_NONE then 0x01
  else if type = REG_SZ then 0x02
  else if type = REG_EXPAND_SZ then 0x04
  else if type = REG_BINARY then 0x08
  else if type = REG_DWORD then 0x10
  else if type = REG_MULTI_SZ then 0x20
  else if type = REG_QWORD then 0x40
  else 0

/-- Modelled from the spec: (native store) does the type restriction `dwFlags` admit the declared type? -/
def rrfAllows (dwFlags type : Nat) : Bool :=
  decide (dwFlags = RRF_RT_ANY) || decide (dwFlags &&& rrfBit type ≠ 0)

/-- Modelled from the spec: (native store) the size the store reports for an entry when no buffer is supplied: for a
string entry one unit more than the stored byte count. -/
def reportedSize (v : RegValue) : Nat :=
  if v.type = REG_SZ then v.data.length + 1 else v.data.length

/-- Modelled from the spec: `queryMetadata` / `readTyped` (`RegGetValue`).
`pvData` tells whether a buffer is supplied and `pcbData` is its capacity.
Returns the code, the declared type, the bytes copied to the buffer and the
size written back to `pcbData`. -/
def RegGetValue (hkey : HKEY) (lpSubKey lpValue : String) (dwFlags : Nat)
    (pvData : Bool) (pcbData : Nat) : M (Nat × Nat × List Nat × Nat) := fun s =>
  match s.reg.entry (hkey.sub lpSubKey) lpValue with
  | none => (Except.ok (ERROR_FILE_NOT_FOUND, 0, [], pcbData), s)
  | some v =>
    if rrfAllows dwFlags v.type then
      if pvData then
        if pcbData < v.data.length then
          (Except.ok (ERROR_MORE_DATA, v.type, [], v.data.length), s)
        else (Except.ok (ERROR_SUCCESS, v.type, v.data, v.data.length), s)
      else (Except.ok (ERROR_SUCCESS, v.type, [], reportedSize v), s)
    else (Except.ok (ERROR_UNSUPPORTED_TYPE, v.type, [], pcbData), s)

/-- Modelled from the spec: `writeTyped(handle, name, type, bytes)`.  Stores
the first `cbData` bytes found at `lpData`. -/
def RegSetValueEx (hKey : HKEY) (lpValueName : String) (dwType : Nat)
    (lpData : List Nat) (cbData : Nat) : M Nat := fun s =>
  if s.reg.hasKey hKey.loc then
    (Except.ok ERROR_SUCCESS,
      { s with reg :=
          (s.reg.setValue hKey.loc lpValueName (RegValue.mk dwType (lpData.take cbData))) })
  else (Except.ok ERROR_FILE_NOT_FOUND, s)

/-- Modelled from the spec: `createOrOpen(root, path, persistence, rights)`.
Returns the code, the handle and the disposition the store reports. -/
def RegCreateKeyEx (hKey : HKEY) (lpSubKey : String) (dwOptions samDesired : Nat) :
    M (Nat × Option HKEY × Nat) := fun s =>
  if s.reg.hasKey (hKey.sub lpSubKey) then
    (Except.ok (ERROR_SUCCESS, some (hKey.openedAt lpSubKey samDesired), REG_OPENED_EXISTING_KEY),
      { s with handles := hKey.openedAt lpSubKey samDesired :: s.handles })
  else if s.reg.hasKey hKey.loc then
    (Except.ok (ERROR_SUCCESS, some (hKey.openedAt lpSubKey samDesired), REG_CREATED_NEW_KEY),
      { reg := s.reg.createKey (hKey.sub lpSubKey),
        handles := hKey.openedAt lpSubKey samDesired :: s.handles })
  else (Except.ok (ERROR_FILE_NOT_FOUND, none, 0), s)

/-- Modelled from the spec: `deleteNode(handle)` (`RegDeleteKeyEx`).  A root
node cannot be deleted, nor can a node that still has nodes below it. -/
def RegDeleteKeyEx (hKey : HKEY) (lpSubKey : String) (samDesired : Nat) : M Nat := fun s =>
  if (hKey.sub lpSubKey).2 = [] then (Except.ok ERROR_ACCESS_DENIED, s)
  else if !s.reg.hasKey (hKey.sub lpSubKey) then (Except.ok ERROR_FILE_NOT_FOUND, s)
  else if s.reg.keys.any (fun k => (hKey.sub lpSubKey).below k) then
    (Except.ok ERROR_ACCESS_DENIED, s)
  else (Except.ok ERROR_SUCCESS, { s with reg := s.reg.deleteKey (hKey.sub lpSubKey) })

/-- Modelled from the spec: `deleteSubtree(handle)` (`RegDeleteTree`).  Removes
everything below the node and the node's entries; a node named by a non-empty
sub-key is removed as well. -/
def RegDeleteTree (hKey : HKEY) (lpSubKey : String) : M Nat := fun s =>
  if s.reg.hasKey (hKey.sub lpSubKey) then
    if segments lpSubKey = [] then
      (Except.ok ERROR_SUCCESS, { s with reg := s.reg.deleteTree (hKey.sub lpSubKey) })
    else
      (Except.ok ERROR_SUCCESS,
        { s with reg := (s.reg.deleteTree (hKey.sub lpSubKey)).deleteKey (hKey.sub lpSubKey) })
  else (Except.ok ERROR_FILE_NOT_FOUND, s)

/-- Modelled from the spec: `deleteEntry(handle, name)` (`RegDeleteValue`). -/
def RegDeleteValue (hKey : HKEY) (lpValueName : String) : M Nat := fun s =>
  if (s.reg.entry hKey.loc lpValueName).isSome then
    (Except.ok ERROR_SUCCESS, { s with reg := s.reg.deleteValue hKey.loc lpValueName })
  else (Except.ok ERROR_FILE_NOT_FOUND, s)

/-- Modelled from the spec: (native store) the outcome of one enumeration step over `names` into the buffer `lpName`
of capacity `lpcchName`: code, buffer afterwards, characters written. -/
def enumAt (names : List String) (dwIndex : Nat) (lpName : List Char) (lpcchName : Nat) :
    Nat × List Char × Nat :=
  match names.get? dwIndex with
  | none => (ERROR_NO_MORE_ITEMS, lpName, lpcchName)
  | some n =>
    if n.length < lpcchName then
      (ERROR_SUCCESS, overlay lpName (n.data ++ [NUL]), n.length)
    else (ERROR_MORE_DATA, lpName, lpcchName)

/-- Modelled from the spec: `enumerateChildAt(handle, index, bufferSize)`. -/
def RegEnumKeyEx (hKey : HKEY) (dwIndex : Nat) (lpName : List Char) (lpcchName : Nat) :
    M (Nat × List Char × Nat) := fun s =>
  if s.reg.hasKey hKey.loc then
    (Except.ok (enumAt (s.reg.subkeyNames hKey.loc) dwIndex lpName lpcchName), s)
  else (Except.ok (ERROR_FILE_NOT_FOUND, lpName, lpcchName), s)

/-- Modelled from the spec: `enumerateEntryAt(handle, index, bufferSize)`. -/
def RegEnumValue (hKey : HKEY) (dwIndex : Nat) (lpValueName : List Char)
    (lpcchValueName : Nat) : M (Nat × List Char × Nat) := fun s =>
  if s.reg.hasKey hKey.loc then
    (Except.ok (enumAt (s.reg.valueNames hKey.loc) dwIndex lpValueName lpcchValueName), s)
  else (Except.ok (ERROR_FILE_NOT_FOUND, lpValueName, lpcchValueName), s)

/-- Modelled from the spec: `queryCounts(handle)` (`RegQueryInfoKey`): code,
child count, longest child name, entry count, longest entry name. -/
def RegQueryInfoKey (hKey : HKEY) : M (Nat × Nat × Nat × Nat × Nat) := fun s =>
  if s.reg.hasKey hKey.loc then
    (Except.ok (ERROR_SUCCESS,
      (s.reg.subkeyNames hKey.loc).length, maxLen (s.reg.subkeyNames hKey.loc),
      (s.reg.valueNames hKey.loc).length, maxLen (s.reg.valueNames hKey.loc)), s)
  else (Except.ok (ERROR_FILE_NOT_FOUND, 0, 0, 0, 0), s)

/-! ## The layer: diagnostics (registry.h:64-174) -/

/-- `unordered_map::at`: the mapped value, or `std::out_of_range`. -/
def map_at (found : Option α) : Except Exception α :=
  match found with
  | some a => Except.ok a
  | none => Except.error Exception.out_of_range

/-- The table `str_hkey` (registry.h:64): it has the five predefined roots and nothing else. -/
def str_hkey : HKEY → Option String
  | HKEY.predefined Root.CLASSES_ROOT => some "HKEY_CLASSES_ROOT"
  | HKEY.predefined Root.CURRENT_USER => some "HKEY_CURRENT_USER"
  | HKEY.predefined Root.LOCAL_MACHINE => some "HKEY_LOCAL_MACHINE"
  | HKEY.predefined Root.USERS => some "HKEY_USERS"
  | HKEY.predefined Root.CURRENT_CONFIG => some "HKEY_CURRENT_CONFIG"
  | HKEY.opened _ _ _ => none

/-- The table `str_type` (registry.h:73). -/
def str_type (type : Nat) : Option String :=
  if type = REG_NONE then some "No type"
  else if type = REG_SZ then some "Nul terminated string"
  else if type = REG_EXPAND_SZ then some "Nul terminated string"
  else if type = REG_BINARY then some "Free form binary"
  else if type = REG_DWORD then some "32-bit number"
  else if type = REG_DWORD_BIG_ENDIAN then some "32-bit number"
  else if type = REG_LINK then some "Symbolic Link"
  else if type = REG_MULTI_SZ then some "Multiple Unicode strings"
  else if type = REG_RESOURCE_LIST then some "Resource list in the resource map"
  else if type = REG_FULL_RESOURCE_DESCRIPTOR then
    some "Resource list in the hardware description"
  else if type = REG_RESOURCE_REQUIREMENTS_LIST then some ""
  else if type = REG_QWORD then some "64-bit number"
  else none

/-- The one-character string holding a backslash. -/
def BACKSLASH : String := String.singleton SEP

/-- The one-character string holding a double quote. -/
def QUOTE : String := String.singleton (Char.ofNat 34)

/-- `reg::except::toString` (registry.h:92). -/
def except.toString (machine : HKEY) (key value : String) : Except Exception String :=
  match map_at (str_hkey machine) with
  | Except.error e => Except.error e
  | Except.ok name =>
    Except.ok ((name ++ BACKSLASH)
      ++ (if key ≠ "" then key ++ BACKSLASH else "")
      ++ (if value ≠ "" then value ++ BACKSLASH else ""))

/-- The constructor `key_not_found(machine, key)` (registry.h:125). -/
def except.key_not_found (machine : HKEY) (key : String) : Except Exception Exception :=
  match except.toString machine key "" with
  | Except.error e => Except.error e
  | Except.ok location =>
    Except.ok (Exception.key_not_found
      (c_str ("The key " ++ QUOTE ++ location ++ QUOTE ++ " does not exist")))

/-- The constructor `value_not_found(machine, key, value)` (registry.h:135). -/
def except.value_not_found (machine : HKEY) (key value : String) : Except Exception Exception :=
  match except.toString machine key value with
  | Except.error e => Except.error e
  | Except.ok location =>
    Except.ok (Exception.value_not_found
      (c_str ("The value " ++ QUOTE ++ location ++ QUOTE ++ " does not exist")))

/-- The constructor `value_not_found(handle, value)` (registry.h:142). -/
def except.value_not_found_h (handle : HKEY) (value : String) : Except Exception Exception :=
  Except.ok (Exception.value_not_found
    (c_str ("The handle does not contain value: " ++ QUOTE ++ value ++ QUOTE)))

/-- The constructor `type_error(machine, key, value, expected, provided)` (registry.h:152). -/
def except.type_error (machine : HKEY) (key value expected_type provided_type : String) :
    Except Exception Exception :=
  match except.toString machine key value with
  | Except.error e => Except.error e
  | Except.ok location =>
    Except.ok (Exception.type_error
      (c_str ("Error working with " ++ QUOTE ++ location ++ QUOTE ++ " - expected a "
        ++ expected_type ++ ", but found a " ++ provided_type)))

/-- `reg::assert::success` (registry.h:165). -/
def assert.success (error_code : Nat) : M Unit :=
  if error_code ≠ ERROR_SUCCESS then M.throw (Exception.runtime_error error_code)
  else M.pure ()

/-- `reg::assert::equal` (registry.h:170). -/
def assert.equal (error_code sys_code : Nat) : M Unit :=
  if error_code ≠ sys_code then M.throw (Exception.runtime_error error_code)
  else M.pure ()

/-! ## The layer: handles and existence predicates (registry.h:176-309) -/

/-- The scope of a `self_closing_handle` (registry.h:182, 190): the body runs,
and on every way out of it the deleter closes the handle. -/
def with_self_closing_handle (handle : Option HKEY) (body : M α) : M α := fun s =>
  match body s with
  | (r, s1) => (r, (RegCloseKey handle s1).2)

/-- `reg::open` (registry.h:201).  The cell is filled whenever the native call
succeeded, so the last branch is never taken. -/
def «open» (machine : HKEY) (key : String) (rights : Nat) : M HKEY := do
  let (result, handle) ← RegOpenKeyEx machine (c_str key) 0 rights
  assert.success result
  match handle with
  | some h => pure h
  | none => M.throw (Exception.runtime_error result)

/-- `reg::key_exists` (registry.h:225). -/
def key_exists (machine : HKEY) (key : String) : M Bool := do
  let (result, handle) ← RegOpenKeyEx machine (c_str key) 0 KEY_QUERY_VALUE
  with_self_closing_handle handle (pure (decide (result = ERROR_SUCCESS)))

/-- `reg::value_exists(machine, key, value)` (registry.h:242). -/
def value_exists (machine : HKEY) (key value : String) : M Bool := do
  let (result, handle) ← RegOpenKeyEx machine (c_str key) 0 KEY_QUERY_VALUE
  with_self_closing_handle handle (do
    if result = ERROR_SUCCESS then
      match handle with
      | some h =>
        let result ← RegQueryValueEx h (c_str value)
        pure (decide (result = ERROR_SUCCESS))
      | none => pure false
    else
      pure false)

/-- `reg::value_exists(handle, value)` (registry.h:270). -/
def value_exists_h (handle : HKEY) (value : String) : M Bool := do
  let result ← RegQueryValueEx handle (c_str value)
  pure (decide (result = ERROR_SUCCESS))

/-- `reg::_check_key` (registry.h:281). -/
def _check_key (machine : HKEY) (key : String) : M Unit := do
  let ok ← key_exists machine key
  if !ok then M.throwNew (except.key_not_found machine key)

/-- `reg::_check_value(machine, key, value)` (registry.h:292). -/
def _check_value (machine : HKEY) (key value : String) : M Unit := do
  let ok ← value_exists machine key value
  if !ok then M.throwNew (except.value_not_found machine key value)

/-- `reg::_check_value(handle, value)` (registry.h:303). -/
def _check_value_h (handle : HKEY) (value : String) : M Unit := do
  let ok ← value_exists_h handle value
  if !ok then M.throwNew (except.value_not_found_h handle value)

/-! ## The layer: peek and type guard (registry.h:311-388) -/

/-- `reg::peekvalue(machine, key, value)` (registry.h:321). -/
def peekvalue (machine : HKEY) (key value : String) : M (Nat × Nat) := do
  _check_key machine key
  _check_value machine key value
  let (result, type, _, size) ←
    RegGetValue machine (c_str key) (c_str value) RRF_RT_ANY false (DWORD_MOD - 1)
  assert.success result
  if type = REG_SZ then
    pure (type, (size + (DWORD_MOD - 1)) % DWORD_MOD)
  else
    pure (type, size)

/-- `reg::peekvalue(handle, value)` (registry.h:357). -/
def peekvalue_h (handle : HKEY) (value : String) : M (Nat × Nat) := do
  _check_value_h handle value
  let (result, type, _, size) ← RegGetValue handle "" (c_str value) RRF_RT_ANY false (DWORD_MOD - 1)
  assert.success result
  pure (type, size)

/-- `reg::_check_type` (registry.h:379). -/
def _check_type (machine : HKEY) (key value : String) (type : Nat) : M Unit := do
  _check_key machine key
  _check_value machine key value
  let (mytype, _) ← peekvalue machine key value
  if mytype ≠ type then
    M.throwNew
      (match map_at (str_type type), map_at (str_type mytype) with
        | Except.ok expected, Except.ok provided =>
          except.type_error machine key value expected provided
        | Except.error e, _ => Except.error e
        | _, Except.error e => Except.error e)

/-! ## The layer: query (registry.h:459-693) -/

/-- `reg::query::_get_data<DWORD>` (registry.h:475). -/
def query._get_data_DWORD (machine : HKEY) (key value : String) : M Nat := do
  let handle ← «open» machine key KEY_QUERY_VALUE
  with_self_closing_handle (some handle) (do
    let (code, _, copied, _) ←
      RegGetValue machine (c_str key) (c_str value) RRF_RT_REG_DWORD true 4
    assert.success code
    pure (dwordOf (overlay (dwordBytes 0) copied)))

/-- `reg::query::_get_data<std::string>` (registry.h:496). -/
def query._get_data_string (machine : HKEY) (key value : String) : M String := do
  let handle ← «open» machine key KEY_QUERY_VALUE
  with_self_closing_handle (some handle) (do
    let (_, size) ← peekvalue machine key value
    let (code, _, copied, _) ←
      RegGetValue machine (c_str key) (c_str value) RRF_RT_REG_SZ true (size % DWORD_MOD)
    assert.success code
    pure (String.mk (overlay (List.replicate size NUL) (charsOf copied))))

/-- `reg::query::number` (registry.h:524). -/
def query.number (machine : HKEY) (key value : String) : M Nat := do
  _check_type machine key value REG_DWORD
  let result ← query._get_data_DWORD machine key value
  pure result

/-- `reg::query::string` (registry.h:542). -/
def query.string (machine : HKEY) (key value : String) : M String := do
  _check_type machine key value REG_SZ
  let result ← query._get_data_string machine key value
  pure result

/-- `reg::query::key_info(handle)` (registry.h:562). -/
def query.key_info_h (handle : HKEY) : M (Nat × Nat × Nat × Nat) := do
  let (code, subkeys, maxkeynamelen, subvalues, maxvaluenamelen) ← RegQueryInfoKey handle
  assert.success code
  pure (subkeys, (maxkeynamelen + 1) % DWORD_MOD, subvalues, (maxvaluenamelen + 1) % DWORD_MOD)

/-- `reg::query::key_info(machine, key)` (registry.h:602). -/
def query.key_info (machine : HKEY) (key : String) : M (Nat × Nat × Nat × Nat) := do
  _check_key machine key
  let handle ← «open» machine key KEY_QUERY_VALUE
  with_self_closing_handle (some handle) (query.key_info_h handle)

/-- The `do ... while` loop of `reg::query::keys(handle)` (registry.h:623-633),
from index `i` on, with the buffer and the names collected so far; it returns
the last code and the names.  The source loop has no bound of its own: it ends
at the first code other than success.  The first argument is the number of
iterations granted; `keys_h` grants one more than the number of children. -/
def query.keys_loop (handle : HKEY) (maxkeynamelen : Nat) :
    Nat → Nat → List Char → List String → M (Nat × List String)
  | 0, _, _, enum_keys => pure (ERROR_SUCCESS, enum_keys)
  | budget + 1, i, buffer, enum_keys => do
    let (code, buffer1, characters_read) ← RegEnumKeyEx handle i buffer maxkeynamelen
    if code = ERROR_NO_MORE_ITEMS then
      pure (code, enum_keys)
    else if code = ERROR_SUCCESS then
      query.keys_loop handle maxkeynamelen budget (i + 1) buffer1
        (enum_keys ++ [String.mk (buffer1.take characters_read)])
    else
      pure (code, enum_keys ++ [String.mk (buffer1.take characters_read)])

/-- `reg::query::keys(handle)` (registry.h:613). -/
def query.keys_h (handle : HKEY) : M (List String) := do
  let (subkeys, maxkeynamelen, _, _) ← query.key_info_h handle
  let (code, enum_keys) ←
    query.keys_loop handle maxkeynamelen (subkeys + 1) 0 (List.replicate maxkeynamelen NUL) []
  assert.equal code ERROR_NO_MORE_ITEMS
  pure enum_keys

/-- `reg::query::keys(machine, key)` (registry.h:644). -/
def query.keys (machine : HKEY) (key : String) : M (List String) := do
  _check_key machine key
  let handle ← «open» machine key (KEY_QUERY_VALUE ||| KEY_ENUMERATE_SUB_KEYS)
  with_self_closing_handle (some handle) (query.keys_h handle)

/-- The `do ... while` loop of `reg::query::value_names(handle)`
(registry.h:665-675); see `query.keys_loop`. -/
def query.value_names_loop (handle : HKEY) (maxvaluenamelen : Nat) :
    Nat → Nat → List Char → List String → M (Nat × List String)
  | 0, _, _, enum_values => pure (ERROR_SUCCESS, enum_values)
  | budget + 1, i, buffer, enum_values => do
    let (code, buffer1, characters_read) ← RegEnumValue handle i buffer maxvaluenamelen
    if code = ERROR_NO_MORE_ITEMS then
      pure (code, enum_values)
    else if code = ERROR_SUCCESS then
      query.value_names_loop handle maxvaluenamelen budget (i + 1) buffer1
        (enum_values ++ [String.mk (buffer1.take characters_read)])
    else
      pure (code, enum_values ++ [String.mk (buffer1.take characters_read)])

/-- `reg::query::value_names(handle)` (registry.h:655). -/
def query.value_names_h (handle : HKEY) : M (List String) := do
  let (_, _, subvalues, maxvaluenamelen) ← query.key_info_h handle
  let (code, enum_values) ←
    query.value_names_loop handle maxvaluenamelen (subvalues + 1) 0
      (List.replicate maxvaluenamelen NUL) []
  assert.equal code ERROR_NO_MORE_ITEMS
  pure enum_values

/-- `reg::query::value_names(machine, key)` (registry.h:686). -/
def query.value_names (machine : HKEY) (key : String) : M (List String) := do
  _check_key machine key
  let handle ← «open» machine key KEY_QUERY_VALUE
  with_self_closing_handle (some handle) (query.value_names_h handle)

/-! ## The layer: update (registry.h:695-784) -/

/-- The data argument of the typed writers: the two instantiations `DWORD` and
`std::string_view` of the template parameter `T`. -/
inductive Data
  | DWORD (data : Nat)
  | string_view (data : String)
  deriving DecidableEq, Repr

/-- `reg::update::_set_data(handle, value, data)` (registry.h:703 for `DWORD`,
registry.h:728 for `std::string_view`).  The string writer hands over
`data.size() + 1` bytes starting at `data.data()`: the characters of the view
and the byte after them, which is the terminator of the backing string. -/
def update._set_data_h (handle : HKEY) (value : String) : Data → M Unit
  | Data.DWORD data => do
    let code ← RegSetValueEx handle (c_str value) REG_DWORD (dwordBytes data) 4
    assert.success code
  | Data.string_view data => do
    let code ← RegSetValueEx handle (c_str value) REG_SZ (bytesOf data ++ [0])
      ((data.length + 1) % DWORD_MOD)
    assert.success code

/-- `reg::update::_set_data(machine, key, value, data)` (registry.h:717, 744). -/
def update._set_data (machine : HKEY) (key value : String) (data : Data) : M Unit := do
  let handle ← «open» machine key KEY_SET_VALUE
  with_self_closing_handle (some handle) (update._set_data_h handle value data)

/-- `reg::update::number` (registry.h:761). -/
def update.number (machine : HKEY) (key value : String) (data : Nat) : M Unit := do
  _check_type machine key value REG_DWORD
  update._set_data machine key value (Data.DWORD data)

/-- `reg::update::string` (registry.h:778). -/
def update.string (machine : HKEY) (key value : String) (data : String) : M Unit := do
  _check_type machine key value REG_SZ
  update._set_data machine key value (Data.string_view data)

/-! ## The layer: create (registry.h:786-949) -/

/-- `enum class Disposition` (registry.h:788), by its underlying value. -/
abbrev create.Disposition := Nat

def create.Disposition.UNKNOWN : create.Disposition := 0
def create.Disposition.CREATED_KEY : create.Disposition := REG_CREATED_NEW_KEY
def create.Disposition.EXISTS_KEY : create.Disposition := REG_OPENED_EXISTING_KEY
def create.Disposition.CREATED_VALUE : create.Disposition := REG_OPENED_EXISTING_KEY + 1
def create.Disposition.EXISTS_VALUE : create.Disposition := REG_OPENED_EXISTING_KEY + 2

/-- `reg::create::_create_key` (registry.h:803).  The cell is filled whenever
the native call succeeded, so the last branch is never taken. -/
def create._create_key (machine : HKEY) (key : String) : M (HKEY × create.Disposition) := do
  if (← key_exists machine key) then
    let handle ← «open» machine key (KEY_READ ||| KEY_WRITE)
    pure (handle, REG_OPENED_EXISTING_KEY)
  else
    let (result, handle, disposition) ←
      RegCreateKeyEx machine (c_str key) REG_OPTION_NON_VOLATILE (KEY_READ ||| KEY_WRITE)
    assert.success result
    match handle with
    | some h => pure (h, disposition)
    | none => M.throw (Exception.runtime_error result)

/-- `reg::create::_create_value<T>(handle, value, data)` (registry.h:849). -/
def create._create_value_h (handle : HKEY) (value : String) (data : Data) :
    M create.Disposition := do
  let disposition :=
    if (← value_exists_h handle value) then REG_OPENED_EXISTING_KEY else REG_CREATED_NEW_KEY
  update._set_data_h handle value data
  pure disposition

/-- `reg::create::_create_value<T>(machine, key, value, data)` (registry.h:871). -/
def create._create_value (machine : HKEY) (key value : String) (data : Data) :
    M (HKEY × create.Disposition) := do
  let handle ← «open» machine key (KEY_READ ||| KEY_WRITE)
  let disposition ← create._create_value_h handle value data
  pure (handle, disposition)

/-- `reg::create::item<T>` (registry.h:891). -/
def create.item (machine : HKEY) (key value : String) (data : Data) :
    M (HKEY × create.Disposition) := do
  if (← key_exists machine key) then
    let handle ← «open» machine key KEY_WRITE
    if (← value_exists machine key value) then
      pure (handle, create.Disposition.EXISTS_VALUE)
    else
      let _ ← create._create_value_h handle value data
      pure (handle, create.Disposition.CREATED_VALUE)
  else
    let handle_and_disposition ← create._create_key machine key
    let _ ← create._create_value_h handle_and_disposition.1 value data
    pure handle_and_disposition

/-- `reg::create::key` (registry.h:920). -/
def create.key (machine : HKEY) (key : String) : M (HKEY × create.Disposition) :=
  create._create_key machine key

/-- `reg::create::number` (registry.h:933). -/
def create.number (machine : HKEY) (key value : String) (data : Nat) :
    M (HKEY × create.Disposition) :=
  create.item machine key value (Data.DWORD data)

/-- `reg::create::string` (registry.h:946). -/
def create.string (machine : HKEY) (key value : String) (data : String) :
    M (HKEY × create.Disposition) :=
  create.item machine key value (Data.string_view data)

/-! ## The layer: remove (registry.h:952-1123) -/

/-- `reg::remove::_remove_key(handle)` (registry.h:959). -/
def remove._remove_key_h (handle : HKEY) : M Unit := do
  let code ← RegDeleteKeyEx handle "" KEY_WOW64_64KEY
  assert.success code

/-- `reg::remove::_remove_key(machine, key)` (registry.h:971). -/
def remove._remove_key (machine : HKEY) (key : String) : M Unit := do
  let handle ← «open» machine key DELETE
  with_self_closing_handle (some handle) (remove._remove_key_h handle)

/-- `reg::remove::_remove_children(handle)` (registry.h:979). -/
def remove._remove_children_h (handle : HKEY) : M Unit := do
  let code ← RegDeleteTree handle ""
  assert.success code

/-- `reg::remove::_remove_children(machine, key)` (registry.h:989). -/
def remove._remove_children (machine : HKEY) (key : String) : M Unit := do
  let handle ← «open» machine key
    (DELETE ||| KEY_ENUMERATE_SUB_KEYS ||| KEY_QUERY_VALUE ||| KEY_SET_VALUE)
  with_self_closing_handle (some handle) (remove._remove_children_h handle)

/-- `reg::remove::_remove_value(handle, value)` (registry.h:1006). -/
def remove._remove_value_h (handle : HKEY) (value : String) : M Unit := do
  let code ← RegDeleteValue handle (c_str value)
  assert.success code

/-- `reg::remove::_remove_value(machine, key, value)` (registry.h:1018). -/
def remove._remove_value (machine : HKEY) (key value : String) : M Unit := do
  let handle ← «open» machine key KEY_SET_VALUE
  with_self_closing_handle (some handle) (remove._remove_value_h handle value)

/-- `reg::remove::key` (registry.h:1031). -/
def remove.key (machine : HKEY) (key : String) : M Bool := do
  if (← key_exists machine key) then
    remove._remove_key machine key
    pure true
  else
    pure false

/-- The range-for loop of `reg::remove::subkeys` (registry.h:1055-1059). -/
def remove.subkeys_loop (handle : HKEY) : List String → M Unit
  | [] => pure ()
  | key_name :: rest => do
    remove._remove_children handle key_name
    remove._remove_key handle key_name
    remove.subkeys_loop handle rest

/-- `reg::remove::subkeys` (registry.h:1048). -/
def remove.subkeys (machine : HKEY) (key : String) : M Bool := do
  if (← key_exists machine key) then
    let handle ← «open» machine key (KEY_QUERY_VALUE ||| KEY_ENUMERATE_SUB_KEYS)
    with_self_closing_handle (some handle) (do
      let keys ← query.keys_h handle
      remove.subkeys_loop handle keys
      pure (!keys.isEmpty))
  else
    pure false

/-- The range-for loop of `reg::remove::values` (registry.h:1079-1080). -/
def remove.values_loop (handle : HKEY) : List String → M Unit
  | [] => pure ()
  | name :: rest => do
    remove._remove_value_h handle name
    remove.values_loop handle rest

/-- `reg::remove::values` (registry.h:1072). -/
def remove.values (machine : HKEY) (key : String) : M Bool := do
  if (← key_exists machine key) then
    let handle ← «open» machine key (KEY_SET_VALUE ||| KEY_QUERY_VALUE)
    with_self_closing_handle (some handle) (do
      let value_names ← query.value_names_h handle
      remove.values_loop handle value_names
      pure (!value_names.isEmpty))
  else
    pure false

/-- `reg::remove::cluster` (registry.h:1093). -/
def remove.cluster (machine : HKEY) (key : String) : M Bool := do
  if (← key_exists machine key) then
    remove._remove_children machine key
    let _ ← remove.key machine key
    pure true
  else
    pure false

/-- `reg::remove::value` (registry.h:1112). -/
def remove.value (machine : HKEY) (key value : String) : M Bool := do
  if (← key_exists machine key) then
    if (← value_exists machine key value) then
      remove._remove_value machine key value
      pure true
    else
      pure false
  else
    pure false

/-! ## Sequences of calls -/

/-- The calls of the layer on a predefined root, with their arguments. -/
inductive Op
  | key_exists (r : Root) (key : String)
  | value_exists (r : Root) (key value : String)
  | peekvalue (r : Root) (key value : String)
  | query_number (r : Root) (key value : String)
  | query_string (r : Root) (key value : String)
  | query_key_info (r : Root) (key : String)
  | query_keys (r : Root) (key : String)
  | query_value_names (r : Root) (key : String)
  | update_number (r : Root) (key value : String) (data : Nat)
  | update_string (r : Root) (key value data : String)
  | create_key (r : Root) (key : String)
  | create_number (r : Root) (key value : String) (data : Nat)
  | create_string (r : Root) (key value data : String)
  | remove_key (r : Root) (key : String)
  | remove_subkeys (r : Root) (key : String)
  | remove_values (r : Root) (key : String)
  | remove_cluster (r : Root) (key : String)
  | remove_value (r : Root) (key value : String)
  deriving DecidableEq, Repr

/-- The state a call leaves behind, whether it returned or raised. -/
def Op.run : Op → Sys → Sys
  | Op.key_exists r key, s => (reg.key_exists (HKEY.predefined r) key s).2
  | Op.value_exists r key value, s => (reg.value_exists (HKEY.predefined r) key value s).2
  | Op.peekvalue r key value, s => (reg.peekvalue (HKEY.predefined r) key value s).2
  | Op.query_number r key value, s => (query.number (HKEY.predefined r) key value s).2
  | Op.query_string r key value, s => (query.string (HKEY.predefined r) key value s).2
  | Op.query_key_info r key, s => (query.key_info (HKEY.predefined r) key s).2
  | Op.query_keys r key, s => (query.keys (HKEY.predefined r) key s).2
  | Op.query_value_names r key, s => (query.value_names (HKEY.predefined r) key s).2
  | Op.update_number r key value data, s =>
    (update.number (HKEY.predefined r) key value data s).2
  | Op.update_string r key value data, s =>
    (update.string (HKEY.predefined r) key value data s).2
  | Op.create_key r key, s => (create.key (HKEY.predefined r) key s).2
  | Op.create_number r key value data, s =>
    (create.number (HKEY.predefined r) key value data s).2
  | Op.create_string r key value data, s =>
    (create.string (HKEY.predefined r) key value data s).2
  | Op.remove_key r key, s => (remove.key (HKEY.predefined r) key s).2
  | Op.remove_subkeys r key, s => (remove.subkeys (HKEY.predefined r) key s).2
  | Op.remove_values r key, s => (remove.values (HKEY.predefined r) key s).2
  | Op.remove_cluster r key, s => (remove.cluster (HKEY.predefined r) key s).2
  | Op.remove_value r key value, s => (remove.value (HKEY.predefined r) key value s).2

/-- The state after a sequence of calls, made one after the other. -/
def runAll : List Op → Sys → Sys
  | [], s => s
  | op :: ops, s => runAll ops (op.run s)

/-- Does the call leave the node `l` and its ancestors alone?  Only three calls
remove nodes: `remove::key` removes its target, `remove::cluster` its target
and what is below, `remove::subkeys` what is strictly below its target. -/
def Op.spares (l : Loc) : Op → Bool
  | Op.remove_key r key => !(((HKEY.predefined r).sub (c_str key)).within l)
  | Op.remove_cluster r key => !(((HKEY.predefined r).sub (c_str key)).within l)
  | Op.remove_subkeys r key => !(((HKEY.predefined r).sub (c_str key)).below l)
  | _ => true

/-- A proper segment name: used as a sub-key string it names exactly itself
(it is not empty and holds neither a separator nor a NUL). -/
def properName (n : String) : Bool := decide (segments (c_str n) = [n])

/-- Every segment of every node of the registry is a proper name. -/
def Registry.wellFormed (g : Registry) : Bool := g.keys.all (fun k => k.2.all properName)

/-- The call `m` preserves the property `I` of the registry, on every way out. -/
def Keeps (I : Registry → Prop) (m : M α) : Prop := ∀ s : Sys, I s.reg → I (m s).2.reg

/-- The node `l` exists in a well-formed registry. -/
def Inv (l : Loc) (g : Registry) : Prop := g.wellFormed = true ∧ g.hasKey l = true

/-! ## Derived notions used in the statements -/

/-- The size `peekvalue` returns for an entry: the reported size, less one
(in 32 bits) for a string. -/
def peekSize (v : RegValue) : Nat :=
  if v.type = REG_SZ then (reportedSize v + (DWORD_MOD - 1)) % DWORD_MOD else reportedSize v

/-- The payload a typed writer hands to the store. -/
def Data.stored : Data → RegValue
  | Data.DWORD data => RegValue.mk REG_DWORD ((dwordBytes data).take 4)
  | Data.string_view data =>
    RegValue.mk REG_SZ ((bytesOf data ++ [0]).take ((data.length + 1) % DWORD_MOD))

/-! ## Example stores -/

/-- The store with no node besides the roots, no entry and no open handle. -/
def emptyStore : Sys := { reg := { keys := [], values := [] }, handles := [] }

/-- A store with the node `HKEY_CURRENT_USER\TestKey\Level1`, an integer entry
`MyNumber` and a string entry `MyString` on `TestKey`, and an entry on the root. -/
def sampleStore : Sys :=
  { reg :=
      { keys := [(Root.CURRENT_USER, ["TestKey"]), (Root.CURRENT_USER, ["TestKey", "Level1"])],
        values :=
          [(((Root.CURRENT_USER, ["TestKey"]), "MyNumber"), RegValue.mk REG_DWORD [123, 0, 0, 0]),
           (((Root.CURRENT_USER, ["TestKey"]), "MyString"), RegValue.mk REG_SZ [49, 50, 51, 0]),
           (((Root.CURRENT_USER, []), "RootValue"), RegValue.mk REG_DWORD [1, 0, 0, 0])] },
    handles := [] }

/-- The path of eleven segments used by the tests. -/
def deep_key : String :=
  "DeepKey\\Level1\\Level2\\Level3\\Level4\\Level5\\Level6\\Level7\\Level8\\Level9\\Level10"

/-- A sequence of calls none of which removes `TestKey\Level1` or one of its
ancestors: entries come and go, a child is created and removed again with
`remove::subkeys`, other subtrees are removed. -/
def sampleOps : List Op :=
  [Op.create_number Root.CURRENT_USER "TestKey\\Level1" "X" 42,
   Op.update_number Root.CURRENT_USER "TestKey\\Level1" "X" 0,
   Op.query_number Root.CURRENT_USER "TestKey\\Level1" "X",
   Op.remove_value Root.CURRENT_USER "TestKey\\Level1" "X",
   Op.create_key Root.CURRENT_USER "TestKey\\Level1\\Child\\Deeper",
   Op.create_string Root.CURRENT_USER "Other\\Node" "S" "text",
   Op.remove_subkeys Root.CURRENT_USER "TestKey\\Level1",
   Op.remove_values Root.CURRENT_USER "TestKey",
   Op.remove_cluster Root.CURRENT_USER "Other",
   Op.remove_key Root.CURRENT_USER "TestKey\\Missing",
   Op.query_keys Root.CURRENT_USER "TestKey"]

/-- A store in which the node `HKEY_CURRENT_USER\Info` has three direct
children and five direct entries; the child `Key0` has a chain of two nodes
below it and an entry of its own. -/
def infoStore : Sys :=
  { reg :=
      { keys :=
          [(Root.CURRENT_USER, ["Info"]),
           (Root.CURRENT_USER, ["Info", "Key0"]),
           (Root.CURRENT_USER, ["Info", "Key0", "Deep"]),
           (Root.CURRENT_USER, ["Info", "Key0", "Deep", "Deeper"]),
           (Root.CURRENT_USER, ["Info", "Key1"]),
           (Root.CURRENT_USER, ["Info", "Key2"])],
        values :=
          [(((Root.CURRENT_USER, ["Info"]), "Value0"), RegValue.mk REG_DWORD [0, 0, 0, 0]),
           (((Root.CURRENT_USER, ["Info"]), "Value1"), RegValue.mk REG_DWORD [1, 0, 0, 0]),
           (((Root.CURRENT_USER, ["Info", "Key0"]), "Nested"), RegValue.mk REG_DWORD [9, 0, 0, 0]),
           (((Root.CURRENT_USER, ["Info"]), "Value2"), RegValue.mk REG_DWORD [2, 0, 0, 0]),
           (((Root.CURRENT_USER, ["Info"]), "Value3"), RegValue.mk REG_SZ [51, 0]),
           (((Root.CURRENT_USER, ["Info"]), ""), RegValue.mk REG_SZ [100, 0])] },
    handles := [] }

/-! ## Reference notions the statements compare the code with -/

/-- The components of a description that are present: the display name of the
root, then the path if it is not empty, then the entry name if it is not
empty. -/
def except.components (root key value : String) : List String :=
  [root] ++ (if key ≠ "" then [key] else []) ++ (if value ≠ "" then [value] else [])

/-- Strings joined with a single backslash between consecutive ones. -/
def except.joined : List String → String
  | [] => ""
  | [a] => a
  | a :: b :: rest => a ++ BACKSLASH ++ except.joined (b :: rest)

/-- The finer removals one after the other: `remove::subkeys`, then
`remove::values`, then `remove::key`, on the same node. -/
def remove.by_parts (machine : HKEY) (key : String) : M Bool := do
  let _ ← remove.subkeys machine key
  let _ ← remove.values machine key
  remove.key machine key

/-- The registry without the children of `l` that it lists and without
everything within them: what `remove::subkeys` leaves. -/
def Registry.withoutChildren (g : Registry) (l : Loc) : Registry :=
  { keys := g.keys.filter (fun k =>
      !((g.subkeyNames l).any (fun n => Loc.within (l.1, l.2 ++ [n]) k))),
    values := g.values.filter (fun e =>
      !((g.subkeyNames l).any (fun n => Loc.within (l.1, l.2 ++ [n]) e.1.1))) }

/-- The registry without the entries of `l`: what `remove::values` leaves. -/
def Registry.withoutValues (g : Registry) (l : Loc) : Registry :=
  { keys := g.keys, values := g.values.filter (fun e => decide (e.1.1 ≠ l)) }

/-- Every node of the registry has its ancestors in the registry and every
entry is attached to a node of the registry. -/
def Registry.closed (g : Registry) : Bool :=
  g.keys.all (fun k => k.2.inits.all (fun p => decide (p = [] ∨ (k.1, p) ∈ g.keys))) &&
    g.values.all (fun e => g.hasKey e.1.1)

/-- The call leaves the open handles as it found them, on every way out. -/
def Scoped (m : M α) : Prop := ∀ s : Sys, (m s).2.handles = s.handles

/-- The call leaves the open handles as it found them when it raises; when it
returns, the handle it returns is open in addition, and nothing else. -/
def HandsOver (m : M (HKEY × create.Disposition)) : Prop :=
  ∀ s : Sys,
    match (m s).1 with
    | Except.ok hd => (m s).2.handles = hd.1 :: s.handles
    | Except.error _ => (m s).2.handles = s.handles

/-! ## The layer against an arbitrary answer of the native API

The store model above answers every native call in one way.  The functions
below are the bodies of `key_exists`, `value_exists`, `peekvalue`,
`_set_data`, `_create_value` and `item` with the native call they make passed
as a parameter, so that their behaviour on any native code can be stated. -/

/-- `reg::key_exists` (registry.h:225) with the native open as a parameter;
`key_exists` is this function at `RegOpenKeyEx`. -/
def key_exists_with (native_open : HKEY → String → Nat → Nat → M (Nat × Option HKEY))
    (machine : HKEY) (key : String) : M Bool := do
  let (result, handle) ← native_open machine (c_str key) 0 KEY_QUERY_VALUE
  with_self_closing_handle handle (pure (decide (result = ERROR_SUCCESS)))

/-- `reg::value_exists(machine, key, value)` (registry.h:242) with the native
open and the native metadata query as parameters; `value_exists` is this
function at `RegOpenKeyEx` and `RegQueryValueEx`. -/
def value_exists_with (native_open : HKEY → String → Nat → Nat → M (Nat × Option HKEY))
    (native_query : HKEY → String → M Nat)
    (machine : HKEY) (key value : String) : M Bool := do
  let (result, handle) ← native_open machine (c_str key) 0 KEY_QUERY_VALUE
  with_self_closing_handle handle (do
    if result = ERROR_SUCCESS then
      match handle with
      | some h =>
        let result ← native_query h (c_str value)
        pure (decide (result = ERROR_SUCCESS))
      | none => pure false
    else
      pure false)

/-- `reg::peekvalue(machine, key, value)` (registry.h:321) with the native
metadata query as a parameter; `peekvalue` is this function at `RegGetValue`. -/
def peekvalue_with
    (native_get : HKEY → String → String → Nat → Bool → Nat → M (Nat × Nat × List Nat × Nat))
    (machine : HKEY) (key value : String) : M (Nat × Nat) := do
  _check_key machine key
  _check_value machine key value
  let (result, type, _, size) ←
    native_get machine (c_str key) (c_str value) RRF_RT_ANY false (DWORD_MOD - 1)
  assert.success result
  if type = REG_SZ then
    pure (type, (size + (DWORD_MOD - 1)) % DWORD_MOD)
  else
    pure (type, size)

/-- `reg::update::_set_data(handle, value, data)` (registry.h:703, 728) with
the native write as a parameter; `update._set_data_h` is this function at
`RegSetValueEx`. -/
def update._set_data_h_with (native_set : HKEY → String → Nat → List Nat → Nat → M Nat)
    (handle : HKEY) (value : String) : Data → M Unit
  | Data.DWORD data => do
    let code ← native_set handle (c_str value) REG_DWORD (dwordBytes data) 4
    assert.success code
  | Data.string_view data => do
    let code ← native_set handle (c_str value) REG_SZ (bytesOf data ++ [0])
      ((data.length + 1) % DWORD_MOD)
    assert.success code

/-- `reg::create::_create_value<T>(handle, value, data)` (registry.h:849) with
the native write as a parameter. -/
def create._create_value_h_with (native_set : HKEY → String → Nat → List Nat → Nat → M Nat)
    (handle : HKEY) (value : String) (data : Data) : M create.Disposition := do
  let disposition :=
    if (← value_exists_h handle value) then REG_OPENED_EXISTING_KEY else REG_CREATED_NEW_KEY
  update._set_data_h_with native_set handle value data
  pure disposition

/-- `reg::create::item<T>` (registry.h:891) with the native write as a
parameter; `create.item` is this function at `RegSetValueEx`. -/
def create.item_with (native_set : HKEY → String → Nat → List Nat → Nat → M Nat)
    (machine : HKEY) (key value : String) (data : Data) :
    M (HKEY × create.Disposition) := do
  if (← key_exists machine key) then
    let handle ← «open» machine key KEY_WRITE
    if (← value_exists machine key value) then
      pure (handle, create.Disposition.EXISTS_VALUE)
    else
      let _ ← create._create_value_h_with native_set handle value data
      pure (handle, create.Disposition.CREATED_VALUE)
  else
    let handle_and_disposition ← create._create_key machine key
    let _ ← create._create_value_h_with native_set handle_and_disposition.1 value data
    pure handle_and_disposition

/-! ## Example answers of the native API -/

/-- A native open that is refused for lack of rights. -/
def deniedOpen : HKEY → String → Nat → Nat → M (Nat × Option HKEY) :=
  fun _ _ _ _ s => (Except.ok (ERROR_ACCESS_DENIED, none), s)

/-- A native metadata query that is refused for lack of rights. -/
def deniedQuery : HKEY → String → M Nat :=
  fun _ _ s => (Except.ok ERROR_ACCESS_DENIED, s)

/-- A native write that is refused for lack of rights. -/
def deniedWrite : HKEY → String → Nat → List Nat → Nat → M Nat :=
  fun _ _ _ _ _ s => (Except.ok ERROR_ACCESS_DENIED, s)

/-- A native metadata query that reports a string entry of size `size`. -/
def reportsString (size : Nat) :
    HKEY → String → String → Nat → Bool → Nat → M (Nat × Nat × List Nat × Nat) :=
  fun _ _ _ _ _ _ s => (Except.ok (ERROR_SUCCESS, REG_SZ, [], size), s)

/-! ## Further example stores -/

/-- A store whose node `HKEY_CURRENT_USER\TestKey` has an entry `Odd` with the
type tag 12, which is none of the declared types, next to a string entry. -/
def exoticStore : Sys :=
  { reg :=
      { keys := [(Root.CURRENT_USER, ["TestKey"])],
        values :=
          [(((Root.CURRENT_USER, ["TestKey"]), "Odd"), RegValue.mk 12 [1, 2]),
           (((Root.CURRENT_USER, ["TestKey"]), "Text"), RegValue.mk REG_SZ [97, 0])] },
    handles := [] }

/-! ## Removal and enumeration against an arbitrary answer of the native API -/

/-- `reg::open` (registry.h:201) with the native open as a parameter; `«open»`
is this function at `RegOpenKeyEx`. -/
def open_with (native_open : HKEY → String → Nat → Nat → M (Nat × Option HKEY))
    (machine : HKEY) (key : String) (rights : Nat) : M HKEY := do
  let (result, handle) ← native_open machine (c_str key) 0 rights
  assert.success result
  match handle with
  | some h => pure h
  | none => M.throw (Exception.runtime_error result)

/-- `reg::remove::_remove_key(handle)` (registry.h:959) with the native delete
as a parameter. -/
def remove._remove_key_h_with (native_delete : HKEY → String → Nat → M Nat)
    (handle : HKEY) : M Unit := do
  let code ← native_delete handle "" KEY_WOW64_64KEY
  assert.success code

/-- `reg::remove::_remove_key(machine, key)` (registry.h:971) with the native
open and the native delete as parameters. -/
def remove._remove_key_with (native_open : HKEY → String → Nat → Nat → M (Nat × Option HKEY))
    (native_delete : HKEY → String → Nat → M Nat) (machine : HKEY) (key : String) :
    M Unit := do
  let handle ← open_with native_open machine key DELETE
  with_self_closing_handle (some handle) (remove._remove_key_h_with native_delete handle)

/-- `reg::remove::_remove_children(handle)` (registry.h:979) with the native
recursive delete as a parameter. -/
def remove._remove_children_h_with (native_tree : HKEY → String → M Nat)
    (handle : HKEY) : M Unit := do
  let code ← native_tree handle ""
  assert.success code

/-- `reg::remove::_remove_children(machine, key)` (registry.h:989) with the
native open and the native recursive delete as parameters. -/
def remove._remove_children_with
    (native_open : HKEY → String → Nat → Nat → M (Nat × Option HKEY))
    (native_tree : HKEY → String → M Nat) (machine : HKEY) (key : String) : M Unit := do
  let handle ← open_with native_open machine key
    (DELETE ||| KEY_ENUMERATE_SUB_KEYS ||| KEY_QUERY_VALUE ||| KEY_SET_VALUE)
  with_self_closing_handle (some handle) (remove._remove_children_h_with native_tree handle)

/-- `reg::remove::key` (registry.h:1031) with the native open and the native
delete as parameters. -/
def remove.key_with (native_open : HKEY → String → Nat → Nat → M (Nat × Option HKEY))
    (native_delete : HKEY → String → Nat → M Nat) (machine : HKEY) (key : String) :
    M Bool := do
  if (← key_exists_with native_open machine key) then
    remove._remove_key_with native_open native_delete machine key
    pure true
  else
    pure false

/-- `reg::remove::cluster` (registry.h:1093) with the native open, the native
recursive delete and the native delete as parameters; `remove.cluster` is this
function at `RegOpenKeyEx`, `RegDeleteTree` and `RegDeleteKeyEx`. -/
def remove.cluster_with (native_open : HKEY → String → Nat → Nat → M (Nat × Option HKEY))
    (native_tree : HKEY → String → M Nat) (native_delete : HKEY → String → Nat → M Nat)
    (machine : HKEY) (key : String) : M Bool := do
  if (← key_exists_with native_open machine key) then
    remove._remove_children_with native_open native_tree machine key
    let _ ← remove.key_with native_open native_delete machine key
    pure true
  else
    pure false

/-- `reg::query::key_info(handle)` (registry.h:562) with the native count
query as a parameter; `query.key_info_h` is this function at
`RegQueryInfoKey`. -/
def query.key_info_h_with (native_info : HKEY → M (Nat × Nat × Nat × Nat × Nat))
    (handle : HKEY) : M (Nat × Nat × Nat × Nat) := do
  let (code, subkeys, maxkeynamelen, subvalues, maxvaluenamelen) ← native_info handle
  assert.success code
  pure (subkeys, (maxkeynamelen + 1) % DWORD_MOD, subvalues, (maxvaluenamelen + 1) % DWORD_MOD)

/-- The loop of `reg::query::keys(handle)` and of
`reg::query::value_names(handle)` (registry.h:623-633, 665-675) with the
native enumeration as a parameter; `query.keys_loop` is this function at
`RegEnumKeyEx` and `query.value_names_loop` at `RegEnumValue`. -/
def query.names_loop_with
    (native_enum : HKEY → Nat → List Char → Nat → M (Nat × List Char × Nat))
    (handle : HKEY) (maxnamelen : Nat) :
    Nat → Nat → List Char → List String → M (Nat × List String)
  | 0, _, _, enum_names => pure (ERROR_SUCCESS, enum_names)
  | budget + 1, i, buffer, enum_names => do
    let (code, buffer1, characters_read) ← native_enum handle i buffer maxnamelen
    if code = ERROR_NO_MORE_ITEMS then
      pure (code, enum_names)
    else if code = ERROR_SUCCESS then
      query.names_loop_with native_enum handle maxnamelen budget (i + 1) buffer1
        (enum_names ++ [String.mk (buffer1.take characters_read)])
    else
      pure (code, enum_names ++ [String.mk (buffer1.take characters_read)])

/-- `reg::query::keys(handle)` (registry.h:613) with the native count query
and the native enumeration as parameters; `query.keys_h` is this function at
`RegQueryInfoKey` and `RegEnumKeyEx`. -/
def query.keys_h_with (native_info : HKEY → M (Nat × Nat × Nat × Nat × Nat))
    (native_enum : HKEY → Nat → List Char → Nat → M (Nat × List Char × Nat))
    (handle : HKEY) : M (List String) := do
  let (subkeys, maxkeynamelen, _, _) ← query.key_info_h_with native_info handle
  let (code, enum_keys) ←
    query.names_loop_with native_enum handle maxkeynamelen (subkeys + 1) 0
      (List.replicate maxkeynamelen NUL) []
  assert.equal code ERROR_NO_MORE_ITEMS
  pure enum_keys

/-- `reg::query::keys(machine, key)` (registry.h:644) with the native count
query and the native enumeration as parameters. -/
def query.keys_with (native_info : HKEY → M (Nat × Nat × Nat × Nat × Nat))
    (native_enum : HKEY → Nat → List Char → Nat → M (Nat × List Char × Nat))
    (machine : HKEY) (key : String) : M (List String) := do
  _check_key machine key
  let handle ← «open» machine key (KEY_QUERY_VALUE ||| KEY_ENUMERATE_SUB_KEYS)
  with_self_closing_handle (some handle) (query.keys_h_with native_info native_enum handle)

/-- `reg::query::value_names(handle)` (registry.h:655) with the native count
query and the native enumeration as parameters; `query.value_names_h` is this
function at `RegQueryInfoKey` and `RegEnumValue`. -/
def query.value_names_h_with (native_info : HKEY → M (Nat × Nat × Nat × Nat × Nat))
    (native_enum : HKEY → Nat → List Char → Nat → M (Nat × List Char × Nat))
    (handle : HKEY) : M (List String) := do
  let (_, _, subvalues, maxvaluenamelen) ← query.key_info_h_with native_info handle
  let (code, enum_values) ←
    query.names_loop_with native_enum handle maxvaluenamelen (subvalues + 1) 0
      (List.replicate maxvaluenamelen NUL) []
  assert.equal code ERROR_NO_MORE_ITEMS
  pure enum_values

/-- `reg::query::value_names(machine, key)` (registry.h:686) with the native
count query and the native enumeration as parameters. -/
def query.value_names_with (native_info : HKEY → M (Nat × Nat × Nat × Nat × Nat))
    (native_enum : HKEY → Nat → List Char → Nat → M (Nat × List Char × Nat))
    (machine : HKEY) (key : String) : M (List String) := do
  _check_key machine key
  let handle ← «open» machine key KEY_QUERY_VALUE
  with_self_closing_handle (some handle)
    (query.value_names_h_with native_info native_enum handle)

/-- What an enumeration of `handle` yields in the state `t` when asked with a
buffer of `cap` characters: at every index `i` below `j` the native
enumeration answers success and leaves in the buffer the name `names i`, at
the index `j` it answers the code `c`, whatever the buffer held before, and it
leaves the state as it is. -/
def answersUntil (native_enum : HKEY → Nat → List Char → Nat → M (Nat × List Char × Nat))
    (handle : HKEY) (cap : Nat) (t : Sys) (names : Nat → String) (j c : Nat) : Prop :=
  (∀ (i : Nat) (b : List Char), i < j →
    ∃ b1 rd, native_enum handle i b cap t = (Except.ok (ERROR_SUCCESS, b1, rd), t) ∧
      String.mk (b1.take rd) = names i) ∧
  (∀ b : List Char, ∃ b1 rd, native_enum handle j b cap t = (Except.ok (c, b1, rd), t))

/-! ## Further example answers of the native API -/

/-- A native enumeration that answers `code` at the index `index` and is the
enumeration `native_enum` at the other indices. -/
def failsAt (native_enum : HKEY → Nat → List Char → Nat → M (Nat × List Char × Nat))
    (index code : Nat) : HKEY → Nat → List Char → Nat → M (Nat × List Char × Nat) :=
  fun hKey dwIndex lpName lpcchName s =>
    if dwIndex = index then (Except.ok (code, lpName, lpcchName), s)
    else native_enum hKey dwIndex lpName lpcchName s

/-- A native count query that is refused for lack of rights. -/
def deniedInfo : HKEY → M (Nat × Nat × Nat × Nat × Nat) :=
  fun _ s => (Except.ok (ERROR_ACCESS_DENIED, 0, 0, 0, 0), s)

/-! ## Running a call -/

@[simp]
theorem run_pure (a : α) (s : Sys) : (pure a : M α) s = (Except.ok a, s) := rfl

@[simp]
theorem run_M_pure (a : α) (s : Sys) : M.pure a s = (Except.ok a, s) := rfl

@[simp]
theorem run_M_throw (e : Exception) (s : Sys) : (M.throw e : M α) s = (Except.error e, s) := rfl

@[simp]
theorem run_M_bind (m : M α) (f : α → M β) (s : Sys) :
    M.bind m f s = match m s with
      | (Except.ok a, s1) => f a s1
      | (Except.error e, s1) => (Except.error e, s1) := rfl

@[simp]
theorem run_bind (m : M α) (f : α → M β) (s : Sys) :
    (m >>= f) s = match m s with
      | (Except.ok a, s1) => f a s1
      | (Except.error e, s1) => (Except.error e, s1) := rfl

@[simp]
theorem loc_openedAt (hKey : HKEY) (lpSubKey : String) (samDesired : Nat) :
    (hKey.openedAt lpSubKey samDesired).loc = hKey.sub lpSubKey := rfl

theorem key_exists_run (machine : HKEY) (key : String) (s : Sys) :
    key_exists machine key s = (Except.ok (s.reg.hasKey (machine.sub (c_str key))), s) := by
  unfold key_exists
  cases h : s.reg.hasKey (machine.sub (c_str key)) <;>
    simp [run_bind, M.pure, M.bind, M.throw, RegOpenKeyEx, with_self_closing_handle, RegCloseKey, run_pure, h,
      ERROR_SUCCESS, ERROR_FILE_NOT_FOUND]

theorem open_run_ok (machine : HKEY) (key : String) (rights : Nat) (s : Sys)
    (h : s.reg.hasKey (machine.sub (c_str key)) = true) :
    «open» machine key rights s =
      (Except.ok (machine.openedAt (c_str key) rights),
        { s with handles := machine.openedAt (c_str key) rights :: s.handles }) := by
  unfold «open»
  simp [run_bind, M.pure, M.bind, M.throw, RegOpenKeyEx, assert.success, run_pure, h, ERROR_SUCCESS, M.pure]

theorem open_run_error (machine : HKEY) (key : String) (rights : Nat) (s : Sys)
    (h : s.reg.hasKey (machine.sub (c_str key)) = false) :
    «open» machine key rights s = (Except.error (Exception.runtime_error ERROR_FILE_NOT_FOUND), s) := by
  unfold «open»
  simp [run_bind, M.pure, M.bind, M.throw, RegOpenKeyEx, assert.success, run_pure, h, ERROR_SUCCESS, M.throw,
    ERROR_FILE_NOT_FOUND]

theorem value_exists_run (machine : HKEY) (key value : String) (s : Sys) :
    value_exists machine key value s =
      (Except.ok (s.reg.entry (machine.sub (c_str key)) (c_str value)).isSome, s) := by
  unfold value_exists
  cases h : s.reg.hasKey (machine.sub (c_str key)) <;>
    simp [run_bind, M.pure, M.bind, M.throw, RegOpenKeyEx, with_self_closing_handle, RegCloseKey, run_pure, h,
      ERROR_SUCCESS, ERROR_FILE_NOT_FOUND, RegQueryValueEx, Registry.entry, loc_openedAt]
  cases h2 : (s.reg.getValue (machine.sub (c_str key)) (c_str value)) <;> simp [h2, run_pure, M.pure]

/-! ## Facts about the registry operations -/

theorem lookupEntry_setEntry_same (k : Loc × String) (v : RegValue) :
    ∀ es : List ((Loc × String) × RegValue), lookupEntry k (setEntry k v es) = some v
  | [] => by simp [setEntry, lookupEntry]
  | e :: es => by
    by_cases he : e.1 = k
    · simp [setEntry, lookupEntry, he]
    · simp [setEntry, lookupEntry, he, lookupEntry_setEntry_same k v es]

theorem lookupEntry_setEntry_other (k k2 : Loc × String) (v : RegValue) (hne : k2 ≠ k) :
    ∀ es : List ((Loc × String) × RegValue),
      lookupEntry k2 (setEntry k v es) = lookupEntry k2 es
  | [] => by simp [setEntry, lookupEntry, hne.symm]
  | e :: es => by
    by_cases he : e.1 = k
    · have : e.1 ≠ k2 := by rw [he]; exact hne.symm
      simp [setEntry, lookupEntry, he, this, hne.symm]
    · by_cases hk : e.1 = k2
      · simp [setEntry, lookupEntry, he, hk]
        simp [hk.symm, he, lookupEntry]
      · simp [setEntry, lookupEntry, he, hk, lookupEntry_setEntry_other k k2 v hne es]

theorem hasKey_setValue (g : Registry) (l k : Loc) (n : String) (v : RegValue) :
    (g.setValue l n v).hasKey k = g.hasKey k := rfl

theorem entry_setValue_same (g : Registry) (l : Loc) (n : String) (v : RegValue)
    (h : g.hasKey l = true) : (g.setValue l n v).entry l n = some v := by
  simp only [Registry.entry, hasKey_setValue, h, Registry.getValue]
  simp [Registry.setValue, lookupEntry_setEntry_same]

theorem entry_setValue_other (g : Registry) (l k : Loc) (n m : String) (v : RegValue)
    (hne : (k, m) ≠ (l, n)) : (g.setValue l n v).entry k m = g.entry k m := by
  simp only [Registry.entry, hasKey_setValue, Registry.getValue]
  simp only [Registry.setValue, lookupEntry_setEntry_other (l, n) (k, m) v hne]

theorem entry_hasKey (g : Registry) (l : Loc) (n : String) (v : RegValue)
    (h : g.entry l n = some v) : g.hasKey l = true := by
  unfold Registry.entry at h
  by_cases hk : g.hasKey l = true
  · exact hk
  · simp [hk] at h

/-! ## Running the guards, the readers and the writers -/

theorem with_handle_run (h : HKEY) (body : M α) (s : Sys) :
    with_self_closing_handle (some h) body s =
      ((body s).1, { (body s).2 with handles := (body s).2.handles.erase h }) := by
  simp only [with_self_closing_handle, RegCloseKey]

theorem check_key_ok (machine : HKEY) (key : String) (s : Sys)
    (h : s.reg.hasKey (machine.sub (c_str key)) = true) :
    _check_key machine key s = (Except.ok (), s) := by
  simp [_check_key, run_bind, key_exists_run, h, run_pure, M.pure]

theorem check_value_ok (machine : HKEY) (key value : String) (s : Sys) (v : RegValue)
    (h : s.reg.entry (machine.sub (c_str key)) (c_str value) = some v) :
    _check_value machine key value s = (Except.ok (), s) := by
  simp [_check_value, run_bind, value_exists_run, h, run_pure, M.pure]

theorem peekvalue_ok (machine : HKEY) (key value : String) (s : Sys) (v : RegValue)
    (h : s.reg.entry (machine.sub (c_str key)) (c_str value) = some v) :
    peekvalue machine key value s = (Except.ok (v.type, peekSize v), s) := by
  have hk := entry_hasKey _ _ _ _ h
  unfold peekvalue
  simp only [run_bind, check_key_ok machine key s hk, check_value_ok machine key value s v h]
  by_cases ht : v.type = REG_SZ <;>
    simp [RegGetValue, h, rrfAllows, RRF_RT_ANY, assert.success, ERROR_SUCCESS, run_bind,
      run_pure, M.pure, M.bind, peekSize, ht]

theorem check_type_ok (machine : HKEY) (key value : String) (type : Nat) (s : Sys)
    (v : RegValue) (h : s.reg.entry (machine.sub (c_str key)) (c_str value) = some v)
    (ht : v.type = type) :
    _check_type machine key value type s = (Except.ok (), s) := by
  have hk := entry_hasKey _ _ _ _ h
  unfold _check_type
  simp [run_bind, check_key_ok machine key s hk, check_value_ok machine key value s v h,
    peekvalue_ok machine key value s v h, ht, run_pure, M.pure]

theorem set_data_h_run (handle : HKEY) (value : String) (data : Data) (s : Sys)
    (h : s.reg.hasKey handle.loc = true) :
    update._set_data_h handle value data s =
      (Except.ok (), { s with reg := s.reg.setValue handle.loc (c_str value) data.stored }) := by
  cases data <;>
    simp [update._set_data_h, run_bind, RegSetValueEx, h, assert.success, ERROR_SUCCESS,
      M.pure, Data.stored]

theorem set_data_run (machine : HKEY) (key value : String) (data : Data) (s : Sys)
    (h : s.reg.hasKey (machine.sub (c_str key)) = true) :
    update._set_data machine key value data s =
      (Except.ok (),
        { s with reg := s.reg.setValue (machine.sub (c_str key)) (c_str value) data.stored }) := by
  unfold update._set_data
  simp only [run_bind, open_run_ok machine key _ s h, with_handle_run]
  rw [set_data_h_run _ _ _ _ (by simpa [loc_openedAt] using h)]
  simp [loc_openedAt]

theorem get_data_DWORD_run (machine : HKEY) (key value : String) (s : Sys) (v : RegValue)
    (h : s.reg.entry (machine.sub (c_str key)) (c_str value) = some v)
    (ht : v.type = REG_DWORD) (hl : v.data.length ≤ 4) :
    query._get_data_DWORD machine key value s =
      (Except.ok (dwordOf (overlay (dwordBytes 0) v.data)), s) := by
  have hk := entry_hasKey _ _ _ _ h
  unfold query._get_data_DWORD
  simp only [run_bind, open_run_ok machine key _ s hk, with_handle_run]
  have hl2 : ¬ (4 < v.data.length) := by omega
  simp [RegGetValue, h, rrfAllows, ht, rrfBit, RRF_RT_REG_DWORD, REG_DWORD, REG_NONE, REG_SZ,
    REG_EXPAND_SZ, REG_BINARY, RRF_RT_ANY, hl2, assert.success, ERROR_SUCCESS]

theorem dwordOf_dwordBytes (d : Nat) (h : d < 2 ^ 32) :
    dwordOf (overlay (dwordBytes 0) ((dwordBytes d).take 4)) = d := by
  simp [dwordOf, dwordBytes, overlay, DWORD_MOD]
  omega

/-! ## Facts about creating and deleting nodes -/

theorem mem_inits_tail (p l : List String) : p ∈ l.inits.tail ↔ p <+: l ∧ p ≠ [] := by
  cases l with
  | nil => simp [List.inits]
  | cons a l =>
    rw [List.inits_cons, List.tail_cons]
    constructor
    · intro h
      obtain ⟨t, ht, rfl⟩ := List.mem_map.1 h
      exact ⟨(List.cons_prefix_cons).2 ⟨rfl, (List.mem_inits _ _).1 ht⟩, by simp⟩
    · rintro ⟨h, hne⟩
      cases p with
      | nil => exact absurd rfl hne
      | cons b t =>
        obtain ⟨rfl, ht⟩ := (List.cons_prefix_cons).1 h
        exact List.mem_map.2 ⟨t, (List.mem_inits _ _).2 ht, rfl⟩

theorem mem_keys_createKey (g : Registry) (l k : Loc) :
    k ∈ (g.createKey l).keys ↔ k ∈ g.keys ∨ (k.1 = l.1 ∧ k.2 <+: l.2 ∧ k.2 ≠ []) := by
  simp only [Registry.createKey, List.mem_append, List.mem_filter, List.mem_map,
    decide_eq_true_eq, mem_inits_tail]
  constructor
  · rintro (h | ⟨⟨p, ⟨hp, hne⟩, rfl⟩, _⟩)
    · exact Or.inl h
    · exact Or.inr ⟨rfl, hp, hne⟩
  · rintro (h | ⟨h1, h2, h3⟩)
    · exact Or.inl h
    · by_cases hk : k ∈ g.keys
      · exact Or.inl hk
      · exact Or.inr ⟨⟨k.2, ⟨h2, h3⟩, by rw [← h1]⟩, hk⟩

theorem hasKey_createKey (g : Registry) (l k : Loc) :
    (g.createKey l).hasKey k = true ↔ g.hasKey k = true ∨ (k.1 = l.1 ∧ k.2 <+: l.2) := by
  simp only [Registry.hasKey, decide_eq_true_eq, mem_keys_createKey]
  constructor
  · rintro (h | h | ⟨h1, h2, _⟩)
    · exact Or.inl (Or.inl h)
    · exact Or.inl (Or.inr h)
    · exact Or.inr ⟨h1, h2⟩
  · rintro ((h | h) | ⟨h1, h2⟩)
    · exact Or.inl h
    · exact Or.inr (Or.inl h)
    · by_cases hk : k.2 = []
      · exact Or.inl hk
      · exact Or.inr (Or.inr ⟨h1, h2, hk⟩)

theorem hasKey_createKey_of_hasKey (g : Registry) (l k : Loc) (h : g.hasKey k = true) :
    (g.createKey l).hasKey k = true := (hasKey_createKey g l k).2 (Or.inl h)

theorem hasKey_createKey_self (g : Registry) (l : Loc) : (g.createKey l).hasKey l = true :=
  (hasKey_createKey g l l).2 (Or.inr ⟨rfl, List.prefix_refl _⟩)

theorem entry_createKey_setValue (g : Registry) (l : Loc) (n : String) (v : RegValue) :
    ((g.createKey l).setValue l n v).entry l n = some v :=
  entry_setValue_same _ _ _ _ (hasKey_createKey_self g l)

/-! ## Running the creators -/

theorem value_exists_h_run (handle : HKEY) (value : String) (s : Sys) :
    value_exists_h handle value s =
      (Except.ok (s.reg.entry handle.loc (c_str value)).isSome, s) := by
  unfold value_exists_h
  cases h : (s.reg.entry handle.loc (c_str value)) <;>
    simp [RegQueryValueEx, h, ERROR_SUCCESS, ERROR_FILE_NOT_FOUND]

theorem create_value_h_run (handle : HKEY) (value : String) (data : Data) (s : Sys)
    (h : s.reg.hasKey handle.loc = true) :
    ∃ d, create._create_value_h handle value data s =
      (Except.ok d, { s with reg := s.reg.setValue handle.loc (c_str value) data.stored }) := by
  unfold create._create_value_h
  simp [value_exists_h_run, set_data_h_run handle value data s h]

theorem create_key_run_exists (machine : HKEY) (key : String) (s : Sys)
    (h : s.reg.hasKey (machine.sub (c_str key)) = true) :
    create._create_key machine key s =
      (Except.ok (machine.openedAt (c_str key) (KEY_READ ||| KEY_WRITE), create.Disposition.EXISTS_KEY),
        { s with handles := machine.openedAt (c_str key) (KEY_READ ||| KEY_WRITE) :: s.handles }) := by
  unfold create._create_key
  simp [key_exists_run, h, open_run_ok machine key _ s h, create.Disposition.EXISTS_KEY]

theorem create_key_run_absent (machine : HKEY) (key : String) (s : Sys)
    (h : s.reg.hasKey (machine.sub (c_str key)) = false)
    (hb : s.reg.hasKey machine.loc = true) :
    create._create_key machine key s =
      (Except.ok (machine.openedAt (c_str key) (KEY_READ ||| KEY_WRITE), create.Disposition.CREATED_KEY),
        { reg := s.reg.createKey (machine.sub (c_str key)),
          handles := machine.openedAt (c_str key) (KEY_READ ||| KEY_WRITE) :: s.handles }) := by
  unfold create._create_key
  simp [key_exists_run, h, hb, RegCreateKeyEx, assert.success, ERROR_SUCCESS,
    create.Disposition.CREATED_KEY]

theorem item_run_exists (machine : HKEY) (key value : String) (data : Data) (s : Sys)
    (v : RegValue) (h : s.reg.entry (machine.sub (c_str key)) (c_str value) = some v) :
    create.item machine key value data s =
      (Except.ok (machine.openedAt (c_str key) KEY_WRITE,
          create.Disposition.EXISTS_VALUE),
        { s with handles := machine.openedAt (c_str key) KEY_WRITE :: s.handles }) := by
  have hk := entry_hasKey _ _ _ _ h
  unfold create.item
  simp [key_exists_run, hk, open_run_ok machine key _ s hk, value_exists_run, h]

theorem item_run_new_value (machine : HKEY) (key value : String) (data : Data) (s : Sys)
    (hk : s.reg.hasKey (machine.sub (c_str key)) = true)
    (h : s.reg.entry (machine.sub (c_str key)) (c_str value) = none) :
    create.item machine key value data s =
      (Except.ok (machine.openedAt (c_str key) KEY_WRITE,
          create.Disposition.CREATED_VALUE),
        { reg := s.reg.setValue (machine.sub (c_str key)) (c_str value) data.stored,
          handles := machine.openedAt (c_str key) KEY_WRITE :: s.handles }) := by
  unfold create.item
  simp only [run_bind, key_exists_run, hk, if_true, open_run_ok machine key _ s hk,
    value_exists_run, Registry.entry]
  simp only [Registry.entry, hk, if_true] at h
  simp only [h, Option.isSome_none, Bool.false_eq_true, if_false]
  obtain ⟨d, hd⟩ := create_value_h_run
    (machine.openedAt (c_str key) KEY_WRITE) value data
    { s with handles := machine.openedAt (c_str key) KEY_WRITE :: s.handles } (by simpa [loc_openedAt] using hk)
  simp [hd, loc_openedAt]

theorem item_run_new_key (machine : HKEY) (key value : String) (data : Data) (s : Sys)
    (hk : s.reg.hasKey (machine.sub (c_str key)) = false)
    (hb : s.reg.hasKey machine.loc = true) :
    create.item machine key value data s =
      (Except.ok (machine.openedAt (c_str key) (KEY_READ ||| KEY_WRITE), create.Disposition.CREATED_KEY),
        { reg := ((s.reg.createKey (machine.sub (c_str key))).setValue
            (machine.sub (c_str key)) (c_str value) data.stored),
          handles := machine.openedAt (c_str key) (KEY_READ ||| KEY_WRITE) :: s.handles }) := by
  unfold create.item
  simp only [run_bind, key_exists_run, hk, Bool.false_eq_true, if_false,
    create_key_run_absent machine key s hk hb]
  obtain ⟨d, hd⟩ := create_value_h_run
    (machine.openedAt (c_str key) (KEY_READ ||| KEY_WRITE)) value data
    { reg := s.reg.createKey (machine.sub (c_str key)),
      handles := machine.openedAt (c_str key) (KEY_READ ||| KEY_WRITE) :: s.handles }
    (by simpa [loc_openedAt] using hasKey_createKey_self s.reg (machine.sub (c_str key)))
  simp [hd, loc_openedAt]

theorem hasKey_predefined (g : Registry) (r : Root) : g.hasKey (HKEY.predefined r).loc = true := by
  simp [Registry.hasKey, HKEY.loc]

/-! ## Strings -/

theorem stored_string (data : String) (h : data.length + 1 < 2 ^ 32) :
    (Data.string_view data).stored = RegValue.mk REG_SZ (bytesOf data ++ [0]) := by
  have hl : (bytesOf data ++ [0]).length = data.length + 1 := by
    simp [bytesOf]
  have hm : (data.length + 1) % DWORD_MOD = data.length + 1 := Nat.mod_eq_of_lt h
  simp only [Data.stored, hm]
  rw [← hl, List.take_length]

theorem peekSize_string (data : String) (h : data.length + 1 < 2 ^ 32) :
    peekSize (RegValue.mk REG_SZ (bytesOf data ++ [0])) = data.length + 1 := by
  have hl : (bytesOf data ++ [0]).length = data.length + 1 := by
    simp [bytesOf]
  have h2 : data.length + 1 < 4294967296 := by norm_num at h; exact h
  have hm : (data.length + 1 + 1 + (DWORD_MOD - 1)) % DWORD_MOD = data.length + 1 := by
    have : DWORD_MOD = 4294967296 := by norm_num [DWORD_MOD]
    rw [this]
    omega
  simp only [peekSize, reportedSize, if_true, hl, hm]

theorem charsOf_bytesOf (data : String) : charsOf (bytesOf data ++ [0]) = data.data ++ [NUL] := by
  simp [charsOf, bytesOf, NUL, Function.comp_def]

theorem get_data_string_run (machine : HKEY) (key value : String) (s : Sys) (v : RegValue)
    (h : s.reg.entry (machine.sub (c_str key)) (c_str value) = some v)
    (ht : v.type = REG_SZ) (hl : v.data.length < 2 ^ 32) :
    query._get_data_string machine key value s = (Except.ok (String.mk (charsOf v.data)), s) := by
  have hk := entry_hasKey _ _ _ _ h
  have hl2 : v.data.length < 4294967296 := by norm_num at hl; exact hl
  have hD : DWORD_MOD = 4294967296 := by norm_num [DWORD_MOD]
  have hp : peekSize v = v.data.length := by
    simp only [peekSize, reportedSize, ht, if_true, hD]
    omega
  unfold query._get_data_string
  simp only [run_bind, open_run_ok machine key _ s hk, with_handle_run]
  rw [peekvalue_ok machine key value _ v (by simpa using h)]
  simp [RegGetValue, h, rrfAllows, ht, rrfBit, RRF_RT_REG_SZ, REG_SZ, REG_NONE, RRF_RT_ANY,
    assert.success, ERROR_SUCCESS, hp, hD, Nat.mod_eq_of_lt hl2, overlay, charsOf]

/-- After `update::string` wrote `data`, `query::string` returns the characters
of `data` followed by the terminator. -/
theorem query_string_after_update (machine : HKEY) (key value data : String) (s : Sys)
    (old : RegValue) (hlen : data.length + 1 < 2 ^ 32)
    (he : s.reg.entry (machine.sub (c_str key)) (c_str value) = some old)
    (ht : old.type = REG_SZ) :
    ∃ s1, update.string machine key value data s = (Except.ok (), s1) ∧
      query.string machine key value s1 = (Except.ok (String.mk (data.data ++ [NUL])), s1) := by
  have hk := entry_hasKey _ _ _ _ he
  refine ⟨{ s with reg := (s.reg.setValue (machine.sub (c_str key)) (c_str value)
      (Data.string_view data).stored) }, ?_, ?_⟩
  · unfold update.string
    simp [check_type_ok machine key value REG_SZ s old he ht, set_data_run machine key value _ s hk]
  · have he1 := entry_setValue_same s.reg (machine.sub (c_str key)) (c_str value)
      (Data.string_view data).stored hk
    rw [stored_string data hlen] at he1 ⊢
    unfold query.string
    simp only [run_bind, run_pure]
    rw [check_type_ok machine key value REG_SZ _ _ he1 rfl]
    simp only
    rw [get_data_string_run machine key value _ _ he1 rfl
      (by have hn : (2 : Nat) ^ 32 = 4294967296 := by norm_num
          simp only [List.length_append, bytesOf, List.length_map, List.length_singleton,
            String.length_data, hn] at hlen ⊢
          exact hlen)]
    simp [charsOf_bytesOf]

/-! ## Running the removers -/

theorem segments_empty : segments "" = [] := by decide

theorem sub_empty (hKey : HKEY) : hKey.sub "" = hKey.loc := by
  simp [HKEY.sub, segments_empty]

theorem Loc.below_iff (l k : Loc) :
    l.below k = true ↔ k.1 = l.1 ∧ l.2 <+: k.2 ∧ k.2 ≠ l.2 := by
  simp [Loc.below]

theorem Loc.within_iff (l k : Loc) : l.within k = true ↔ k.1 = l.1 ∧ l.2 <+: k.2 := by
  simp [Loc.within]

theorem Loc.within_iff_below_or_eq (l k : Loc) :
    l.within k = true ↔ l.below k = true ∨ k = l := by
  rw [Loc.within_iff, Loc.below_iff]
  constructor
  · rintro ⟨h1, h2⟩
    by_cases h : k.2 = l.2
    · exact Or.inr (Prod.ext h1 h)
    · exact Or.inl ⟨h1, h2, h⟩
  · rintro (⟨h1, h2, _⟩ | rfl)
    · exact ⟨h1, h2⟩
    · exact ⟨rfl, List.prefix_refl _⟩

theorem not_below_root (l k : Loc) (hk : k.2 = []) : l.below k = false := by
  rw [Bool.eq_false_iff, Ne, Loc.below_iff]
  rintro ⟨_, h2, h3⟩
  rw [hk] at h2 h3
  exact h3 (List.prefix_nil.1 h2).symm

theorem hasKey_deleteTree (g : Registry) (l k : Loc) :
    (g.deleteTree l).hasKey k = true ↔ g.hasKey k = true ∧ l.below k = false := by
  simp only [Registry.hasKey, Registry.deleteTree, decide_eq_true_eq, List.mem_filter,
    Bool.not_eq_true']
  constructor
  · rintro (h | ⟨h1, h2⟩)
    · exact ⟨Or.inl h, not_below_root l k h⟩
    · exact ⟨Or.inr h1, h2⟩
  · rintro ⟨h | h, h2⟩
    · exact Or.inl h
    · exact Or.inr ⟨h, h2⟩

theorem no_key_below_deleteTree (g : Registry) (l : Loc) :
    (g.deleteTree l).keys.any (fun k => l.below k) = false := by
  simp only [Registry.deleteTree, List.any_eq_false, List.mem_filter, Bool.not_eq_true']
  rintro k ⟨_, h⟩
  simp [h]

theorem hasKey_deleteKey (g : Registry) (l k : Loc) (hl : l.2 ≠ []) :
    (g.deleteKey l).hasKey k = true ↔ g.hasKey k = true ∧ k ≠ l := by
  simp only [Registry.hasKey, Registry.deleteKey, decide_eq_true_eq, List.mem_filter]
  constructor
  · rintro (h | ⟨h1, h2⟩)
    · exact ⟨Or.inl h, fun e => hl (by rw [← e]; exact h)⟩
    · exact ⟨Or.inr h1, h2⟩
  · rintro ⟨h | h, h2⟩
    · exact Or.inl h
    · exact Or.inr ⟨h, h2⟩

theorem lookupEntry_filter (k : Loc × String) (p : (Loc × String) × RegValue → Bool) :
    ∀ es : List ((Loc × String) × RegValue), (∀ e ∈ es, e.1 = k → p e = true) →
      lookupEntry k (es.filter p) = lookupEntry k es
  | [], _ => rfl
  | e :: es, h => by
    have ih := lookupEntry_filter k p es (fun e he => h e (List.mem_cons_of_mem _ he))
    by_cases he : e.1 = k
    · have hp := h e (List.mem_cons_self _ _) he
      simp [List.filter, hp, lookupEntry, he]
    · cases hp : p e <;> simp [List.filter, hp, lookupEntry, he, ih]

theorem remove_children_run (machine : HKEY) (key : String) (s : Sys)
    (h : s.reg.hasKey (machine.sub (c_str key)) = true) :
    remove._remove_children machine key s =
      (Except.ok (), { s with reg := s.reg.deleteTree (machine.sub (c_str key)) }) := by
  unfold remove._remove_children
  simp only [run_bind, open_run_ok machine key _ s h, with_handle_run]
  simp [remove._remove_children_h, RegDeleteTree, sub_empty, h, segments_empty, assert.success,
    ERROR_SUCCESS]

theorem remove_key_run_root (machine : HKEY) (key : String) (s : Sys)
    (hl : (machine.sub (c_str key)).2 = []) :
    remove.key machine key s =
      (Except.error (Exception.runtime_error ERROR_ACCESS_DENIED), s) := by
  have h : s.reg.hasKey (machine.sub (c_str key)) = true := by simp [Registry.hasKey, hl]
  unfold remove.key
  simp only [run_bind, key_exists_run, h, if_true]
  unfold remove._remove_key
  simp only [run_bind, open_run_ok machine key _ s h, with_handle_run]
  simp [remove._remove_key_h, RegDeleteKeyEx, sub_empty, hl, assert.success, ERROR_SUCCESS,
    ERROR_ACCESS_DENIED]

theorem remove_key_run_leaf (machine : HKEY) (key : String) (s : Sys)
    (h : s.reg.hasKey (machine.sub (c_str key)) = true)
    (hl : (machine.sub (c_str key)).2 ≠ [])
    (hc : s.reg.keys.any (fun k => (machine.sub (c_str key)).below k) = false) :
    remove.key machine key s =
      (Except.ok true, { s with reg := s.reg.deleteKey (machine.sub (c_str key)) }) := by
  unfold remove.key
  simp only [run_bind, key_exists_run, h, if_true]
  unfold remove._remove_key
  simp only [run_bind, open_run_ok machine key _ s h, with_handle_run]
  simp [remove._remove_key_h, RegDeleteKeyEx, sub_empty, hl, h, hc, assert.success,
    ERROR_SUCCESS]

theorem cluster_run_absent (machine : HKEY) (key : String) (s : Sys)
    (h : s.reg.hasKey (machine.sub (c_str key)) = false) :
    remove.cluster machine key s = (Except.ok false, s) := by
  unfold remove.cluster
  simp [key_exists_run, h]

theorem cluster_run_root (machine : HKEY) (key : String) (s : Sys)
    (hl : (machine.sub (c_str key)).2 = []) :
    remove.cluster machine key s =
      (Except.error (Exception.runtime_error ERROR_ACCESS_DENIED),
        { s with reg := s.reg.deleteTree (machine.sub (c_str key)) }) := by
  have h : s.reg.hasKey (machine.sub (c_str key)) = true := by simp [Registry.hasKey, hl]
  unfold remove.cluster
  simp only [run_bind, key_exists_run, h, if_true, remove_children_run machine key s h]
  rw [remove_key_run_root machine key _ hl]

theorem cluster_run_node (machine : HKEY) (key : String) (s : Sys)
    (h : s.reg.hasKey (machine.sub (c_str key)) = true)
    (hl : (machine.sub (c_str key)).2 ≠ []) :
    remove.cluster machine key s =
      (Except.ok true,
        { s with reg :=
            ((s.reg.deleteTree (machine.sub (c_str key))).deleteKey (machine.sub (c_str key))) })
    := by
  unfold remove.cluster
  simp only [run_bind, key_exists_run, h, if_true, remove_children_run machine key s h]
  rw [remove_key_run_leaf machine key _ ?_ hl (no_key_below_deleteTree _ _)]
  · simp
  · refine (hasKey_deleteTree _ _ _).2 ⟨h, ?_⟩
    rw [Bool.eq_false_iff, Ne, Loc.below_iff]
    exact fun hb => hb.2.2 rfl

/-! ## Round trips (C1, C2, C3) -/

/-- C1: integer round trip.  Whenever the entry `value` of node `key` exists
with the 32-bit integer type, `update::number` with any 32-bit value `v`
returns, and `query::number` on the store it leaves returns `v`. -/
theorem number_round_trip (machine : HKEY) (key value : String) (v : Nat) (s : Sys)
    (old : RegValue) (hv : v < 2 ^ 32)
    (he : s.reg.entry (machine.sub (c_str key)) (c_str value) = some old)
    (ht : old.type = REG_DWORD) :
    ∃ s1, update.number machine key value v s = (Except.ok (), s1) ∧
      query.number machine key value s1 = (Except.ok v, s1) := by
  have hk := entry_hasKey _ _ _ _ he
  refine ⟨{ s with reg := (s.reg.setValue (machine.sub (c_str key)) (c_str value)
      (Data.DWORD v).stored) }, ?_, ?_⟩
  · unfold update.number
    simp [check_type_ok machine key value REG_DWORD s old he ht, set_data_run machine key value _ s hk]
  · have he1 := entry_setValue_same s.reg (machine.sub (c_str key)) (c_str value)
      (Data.DWORD v).stored hk
    unfold query.number
    simp only [run_bind, run_pure]
    rw [check_type_ok machine key value REG_DWORD _ _ he1 rfl]
    simp only
    rw [get_data_DWORD_run machine key value _ _ he1 rfl (by simp [Data.stored, dwordBytes])]
    simp [Data.stored, dwordOf_dwordBytes v hv]

/-- Witness for C1: the maximum 32-bit value written to `TestKey\MyNumber`. -/
theorem number_round_trip_witness :
    ∃ s1, update.number HKEY_CURRENT_USER "TestKey" "MyNumber" 4294967295 sampleStore
        = (Except.ok (), s1) ∧
      query.number HKEY_CURRENT_USER "TestKey" "MyNumber" s1 = (Except.ok 4294967295, s1) :=
  number_round_trip HKEY_CURRENT_USER "TestKey" "MyNumber" 4294967295 sampleStore
    (RegValue.mk REG_DWORD [123, 0, 0, 0]) (by decide) (by decide) (by decide)

/-- C2 (the code at the failing input): after `update::string` wrote `"abc"`,
`query::string` returns the four characters `a`, `b`, `c`, NUL: the terminator
is part of the result and the length is 4, not 3. -/
theorem string_round_trip_keeps_terminator :
    (query.string HKEY_CURRENT_USER "TestKey" "MyString"
        (update.string HKEY_CURRENT_USER "TestKey" "MyString" "abc" sampleStore).2).1
      = Except.ok (String.mk [Char.ofNat 97, Char.ofNat 98, Char.ofNat 99, NUL]) ∧
    (String.mk [Char.ofNat 97, Char.ofNat 98, Char.ofNat 99, NUL]).length = 4 ∧
    (String.mk [Char.ofNat 97, Char.ofNat 98, Char.ofNat 99, NUL]) ≠ "abc" := by
  decide

/-- C3: after `update::string` or `create::string` stored `data` under
`(machine, key, value)`, `peekvalue` returns the string type tag and the size
`length(data) + 1`.  The three cases are: the entry exists with the string type
(update), the node exists without the entry (create), the node does not exist
(create). -/
theorem peekvalue_after_string_write (machine : HKEY) (key value data : String) (s : Sys)
    (hlen : data.length + 1 < 2 ^ 32) :
    (∀ old : RegValue, s.reg.entry (machine.sub (c_str key)) (c_str value) = some old →
      old.type = REG_SZ →
      ∃ s1, update.string machine key value data s = (Except.ok (), s1) ∧
        peekvalue machine key value s1 = (Except.ok (REG_SZ, data.length + 1), s1)) ∧
    (s.reg.hasKey (machine.sub (c_str key)) = true →
      s.reg.entry (machine.sub (c_str key)) (c_str value) = none →
      ∃ h d s1, create.string machine key value data s = (Except.ok (h, d), s1) ∧
        peekvalue machine key value s1 = (Except.ok (REG_SZ, data.length + 1), s1)) ∧
    (s.reg.hasKey (machine.sub (c_str key)) = false → s.reg.hasKey machine.loc = true →
      ∃ h d s1, create.string machine key value data s = (Except.ok (h, d), s1) ∧
        peekvalue machine key value s1 = (Except.ok (REG_SZ, data.length + 1), s1)) := by
  have hpeek : ∀ s1 : Sys,
      s1.reg.entry (machine.sub (c_str key)) (c_str value) = some (Data.string_view data).stored →
      peekvalue machine key value s1 = (Except.ok (REG_SZ, data.length + 1), s1) := by
    intro s1 h1
    rw [peekvalue_ok machine key value s1 _ h1, stored_string data hlen,
      peekSize_string data hlen]
  refine ⟨?_, ?_, ?_⟩
  · intro old he ht
    have hk := entry_hasKey _ _ _ _ he
    refine ⟨{ s with reg := (s.reg.setValue (machine.sub (c_str key)) (c_str value)
      (Data.string_view data).stored) }, ?_, hpeek _ (entry_setValue_same s.reg _ _ _ hk)⟩
    unfold update.string
    simp [check_type_ok machine key value REG_SZ s old he ht, set_data_run machine key value _ s hk]
  · intro hk he
    exact ⟨_, _, _, item_run_new_value machine key value _ s hk he,
      hpeek _ (entry_setValue_same s.reg _ _ _ hk)⟩
  · intro hk hb
    exact ⟨_, _, _, item_run_new_key machine key value _ s hk hb,
      hpeek _ (entry_createKey_setValue s.reg _ _ _)⟩

/-- Witness for C3: an update of `TestKey\MyString`, a creation of
`TestKey\Fresh`, and a creation under the absent node `DeepKey\Level1`. -/
theorem peekvalue_after_string_write_witness :
    (∃ s1, update.string HKEY_CURRENT_USER "TestKey" "MyString" "abc123" sampleStore
        = (Except.ok (), s1) ∧
      peekvalue HKEY_CURRENT_USER "TestKey" "MyString" s1
        = (Except.ok (REG_SZ, "abc123".length + 1), s1)) ∧
    (∃ h d s1, create.string HKEY_CURRENT_USER "TestKey" "Fresh" "a" sampleStore
        = (Except.ok (h, d), s1) ∧
      peekvalue HKEY_CURRENT_USER "TestKey" "Fresh" s1
        = (Except.ok (REG_SZ, "a".length + 1), s1)) ∧
    (∃ h d s1, create.string HKEY_CURRENT_USER "DeepKey\\Level1" "MyString" "" sampleStore
        = (Except.ok (h, d), s1) ∧
      peekvalue HKEY_CURRENT_USER "DeepKey\\Level1" "MyString" s1
        = (Except.ok (REG_SZ, "".length + 1), s1)) :=
  ⟨(peekvalue_after_string_write HKEY_CURRENT_USER "TestKey" "MyString" "abc123" sampleStore
      (by decide)).1 (RegValue.mk REG_SZ [49, 50, 51, 0]) (by decide) (by decide),
    (peekvalue_after_string_write HKEY_CURRENT_USER "TestKey" "Fresh" "a" sampleStore
      (by decide)).2.1 (by decide) (by decide),
    (peekvalue_after_string_write HKEY_CURRENT_USER "DeepKey\\Level1" "MyString" "" sampleStore
      (by decide)).2.2 (by decide) (by decide)⟩

/-! ## Creation (C4, C5, C6, C7) -/

/-- C4: ensure present, do not overwrite.  When the entry `value` of node `key`
already exists (any type, any data), `create::number` and `create::string`
with any data return `EXISTS_VALUE` and leave the registry as it was; in
particular the entry still holds its old type and data. -/
theorem create_keeps_existing_entry (machine : HKEY) (key value : String) (s : Sys)
    (old : RegValue) (he : s.reg.entry (machine.sub (c_str key)) (c_str value) = some old) :
    (∀ d : Nat, ∃ h s1, create.number machine key value d s
        = (Except.ok (h, create.Disposition.EXISTS_VALUE), s1) ∧ s1.reg = s.reg ∧
        s1.reg.entry (machine.sub (c_str key)) (c_str value) = some old) ∧
    (∀ d : String, ∃ h s1, create.string machine key value d s
        = (Except.ok (h, create.Disposition.EXISTS_VALUE), s1) ∧ s1.reg = s.reg ∧
        s1.reg.entry (machine.sub (c_str key)) (c_str value) = some old) :=
  ⟨fun d => ⟨_, _, item_run_exists machine key value (Data.DWORD d) s old he, rfl, he⟩,
    fun d => ⟨_, _, item_run_exists machine key value (Data.string_view d) s old he, rfl, he⟩⟩

/-- Witness for C4: the integer entry `TestKey\MyNumber` of the sample store,
with a different number and with a string. -/
theorem create_keeps_existing_entry_witness :
    (∃ h s1, create.number HKEY_CURRENT_USER "TestKey" "MyNumber" 43 sampleStore
        = (Except.ok (h, create.Disposition.EXISTS_VALUE), s1) ∧ s1.reg = sampleStore.reg ∧
        s1.reg.entry (HKEY_CURRENT_USER.sub (c_str "TestKey")) (c_str "MyNumber")
          = some (RegValue.mk REG_DWORD [123, 0, 0, 0])) ∧
    (∃ h s1, create.string HKEY_CURRENT_USER "TestKey" "MyNumber" "text" sampleStore
        = (Except.ok (h, create.Disposition.EXISTS_VALUE), s1) ∧ s1.reg = sampleStore.reg ∧
        s1.reg.entry (HKEY_CURRENT_USER.sub (c_str "TestKey")) (c_str "MyNumber")
          = some (RegValue.mk REG_DWORD [123, 0, 0, 0])) :=
  ⟨(create_keeps_existing_entry HKEY_CURRENT_USER "TestKey" "MyNumber" sampleStore
      (RegValue.mk REG_DWORD [123, 0, 0, 0]) (by decide)).1 43,
    (create_keeps_existing_entry HKEY_CURRENT_USER "TestKey" "MyNumber" sampleStore
      (RegValue.mk REG_DWORD [123, 0, 0, 0]) (by decide)).2 "text"⟩

/-- C5 (counterexample): on the empty store, `create::number` under the absent
node `Other\Level1` returns `CREATED_KEY`, and so does `create::string`; neither
returns `CREATED_VALUE`. -/
theorem create_under_absent_node_not_created_value :
    (create.number HKEY_CURRENT_USER "Other\\Level1" "X" 43 emptyStore).1
      = Except.ok (HKEY_CURRENT_USER.openedAt "Other\\Level1" (KEY_READ ||| KEY_WRITE),
          create.Disposition.CREATED_KEY) ∧
    (create.string HKEY_CURRENT_USER "Other\\Level1" "X" "abc" emptyStore).1
      = Except.ok (HKEY_CURRENT_USER.openedAt "Other\\Level1" (KEY_READ ||| KEY_WRITE),
          create.Disposition.CREATED_KEY) ∧
    create.Disposition.CREATED_KEY ≠ create.Disposition.CREATED_VALUE := by
  decide

/-- C5 (amended): when the node does not exist (and its base does),
`create::number` and `create::string` create the node, write the entry under
it, and return the node-level disposition `CREATED_KEY`. -/
theorem create_under_absent_node (machine : HKEY) (key value : String) (s : Sys)
    (hk : s.reg.hasKey (machine.sub (c_str key)) = false)
    (hb : s.reg.hasKey machine.loc = true) :
    (∀ d : Nat, ∃ h s1, create.number machine key value d s
        = (Except.ok (h, create.Disposition.CREATED_KEY), s1) ∧
        s1.reg.hasKey (machine.sub (c_str key)) = true ∧
        s1.reg.entry (machine.sub (c_str key)) (c_str value) = some (Data.DWORD d).stored) ∧
    (∀ d : String, ∃ h s1, create.string machine key value d s
        = (Except.ok (h, create.Disposition.CREATED_KEY), s1) ∧
        s1.reg.hasKey (machine.sub (c_str key)) = true ∧
        s1.reg.entry (machine.sub (c_str key)) (c_str value)
          = some (Data.string_view d).stored) :=
  ⟨fun d => ⟨_, _, item_run_new_key machine key value (Data.DWORD d) s hk hb,
      by rw [hasKey_setValue]; exact hasKey_createKey_self _ _,
      entry_createKey_setValue _ _ _ _⟩,
    fun d => ⟨_, _, item_run_new_key machine key value (Data.string_view d) s hk hb,
      by rw [hasKey_setValue]; exact hasKey_createKey_self _ _,
      entry_createKey_setValue _ _ _ _⟩⟩

/-- Witness for C5 (amended): the absent node `Other\Level1` of the empty store. -/
theorem create_under_absent_node_witness :
    (∃ h s1, create.number HKEY_CURRENT_USER "Other\\Level1" "X" 43 emptyStore
        = (Except.ok (h, create.Disposition.CREATED_KEY), s1) ∧
        s1.reg.hasKey (HKEY_CURRENT_USER.sub (c_str "Other\\Level1")) = true ∧
        s1.reg.entry (HKEY_CURRENT_USER.sub (c_str "Other\\Level1")) (c_str "X")
          = some (Data.DWORD 43).stored) ∧
    (∃ h s1, create.string HKEY_CURRENT_USER "Other\\Level1" "X" "abc" emptyStore
        = (Except.ok (h, create.Disposition.CREATED_KEY), s1) ∧
        s1.reg.hasKey (HKEY_CURRENT_USER.sub (c_str "Other\\Level1")) = true ∧
        s1.reg.entry (HKEY_CURRENT_USER.sub (c_str "Other\\Level1")) (c_str "X")
          = some (Data.string_view "abc").stored) :=
  ⟨(create_under_absent_node HKEY_CURRENT_USER "Other\\Level1" "X" emptyStore
      (by decide) (by decide)).1 43,
    (create_under_absent_node HKEY_CURRENT_USER "Other\\Level1" "X" emptyStore
      (by decide) (by decide)).2 "abc"⟩

theorem query_number_of_stored (machine : HKEY) (key value : String) (d : Nat) (s : Sys)
    (hd : d < 2 ^ 32)
    (he : s.reg.entry (machine.sub (c_str key)) (c_str value) = some (Data.DWORD d).stored) :
    query.number machine key value s = (Except.ok d, s) := by
  unfold query.number
  simp only [run_bind, run_pure]
  rw [check_type_ok machine key value REG_DWORD _ _ he rfl]
  simp only
  rw [get_data_DWORD_run machine key value _ _ he rfl (by simp [Data.stored, dwordBytes])]
  simp [Data.stored, dwordOf_dwordBytes d hd]

/-- C6: when the node exists (the empty path names the root node, which always
does) and has no entry called `value`, `create::number` returns
`CREATED_VALUE`, after which `value_exists` is true and `query::number` returns
the data; `create::string` returns `CREATED_VALUE` too and leaves a string-typed
entry on that very node, creating no node. -/
theorem create_under_existing_node (machine : HKEY) (key value : String) (s : Sys)
    (hk : s.reg.hasKey (machine.sub (c_str key)) = true)
    (he : s.reg.entry (machine.sub (c_str key)) (c_str value) = none) :
    (∀ d : Nat, d < 2 ^ 32 → ∃ h s1, create.number machine key value d s
        = (Except.ok (h, create.Disposition.CREATED_VALUE), s1) ∧
        value_exists machine key value s1 = (Except.ok true, s1) ∧
        query.number machine key value s1 = (Except.ok d, s1)) ∧
    (∀ d : String, ∃ h s1 v, create.string machine key value d s
        = (Except.ok (h, create.Disposition.CREATED_VALUE), s1) ∧
        s1.reg.keys = s.reg.keys ∧
        s1.reg.entry (machine.sub (c_str key)) (c_str value) = some v ∧ v.type = REG_SZ) := by
  constructor
  · intro d hd
    have he1 := entry_setValue_same s.reg (machine.sub (c_str key)) (c_str value)
      (Data.DWORD d).stored hk
    refine ⟨_, _, item_run_new_value machine key value (Data.DWORD d) s hk he, ?_, ?_⟩
    · rw [value_exists_run]
      simp [he1]
    · exact query_number_of_stored machine key value d _ hd he1
  · intro d
    exact ⟨_, _, _, item_run_new_value machine key value (Data.string_view d) s hk he, rfl,
      entry_setValue_same s.reg _ _ _ hk, rfl⟩

/-- Witness for C6: the entry `MyNumber` created directly on the root node
(empty path) of the sample store, with the largest 32-bit value and with a string. -/
theorem create_under_existing_node_witness :
    (∃ h s1, create.number HKEY_CURRENT_USER "" "MyNumber" 4294967295 sampleStore
        = (Except.ok (h, create.Disposition.CREATED_VALUE), s1) ∧
        value_exists HKEY_CURRENT_USER "" "MyNumber" s1 = (Except.ok true, s1) ∧
        query.number HKEY_CURRENT_USER "" "MyNumber" s1 = (Except.ok 4294967295, s1)) ∧
    (∃ h s1 v, create.string HKEY_CURRENT_USER "" "MyNumber" "abc" sampleStore
        = (Except.ok (h, create.Disposition.CREATED_VALUE), s1) ∧
        s1.reg.keys = sampleStore.reg.keys ∧
        s1.reg.entry (HKEY_CURRENT_USER.sub (c_str "")) (c_str "MyNumber") = some v ∧
        v.type = REG_SZ) :=
  ⟨(create_under_existing_node HKEY_CURRENT_USER "" "MyNumber" sampleStore
      (by decide) (by decide)).1 4294967295 (by decide),
    (create_under_existing_node HKEY_CURRENT_USER "" "MyNumber" sampleStore
      (by decide) (by decide)).2 "abc"⟩

/-- C7: `create::key` is idempotent.  On an absent node (whose base exists) the
first call returns `CREATED_KEY`, a second call returns `EXISTS_KEY` and leaves
the registry as the first call left it; and on any existing node `create::key`
returns `EXISTS_KEY` with the registry unchanged, so it never fails because the
node already exists. -/
theorem create_key_idempotent (machine : HKEY) (key : String) (s : Sys) :
    (s.reg.hasKey (machine.sub (c_str key)) = false → s.reg.hasKey machine.loc = true →
      ∃ h1 s1, create.key machine key s = (Except.ok (h1, create.Disposition.CREATED_KEY), s1) ∧
        ∃ h2 s2, create.key machine key s1
          = (Except.ok (h2, create.Disposition.EXISTS_KEY), s2) ∧ s2.reg = s1.reg) ∧
    (s.reg.hasKey (machine.sub (c_str key)) = true →
      ∃ h s1, create.key machine key s = (Except.ok (h, create.Disposition.EXISTS_KEY), s1) ∧
        s1.reg = s.reg) := by
  constructor
  · intro hk hb
    refine ⟨_, _, create_key_run_absent machine key s hk hb, _, _,
      create_key_run_exists machine key _ ?_, rfl⟩
    exact hasKey_createKey_self _ _
  · intro hk
    exact ⟨_, _, create_key_run_exists machine key s hk, rfl⟩

/-- Witness for C7: the nested path `TestKey1\Subkey` on the empty store, and
the existing node `TestKey` of the sample store. -/
theorem create_key_idempotent_witness :
    (∃ h1 s1, create.key HKEY_CURRENT_USER "TestKey1\\Subkey" emptyStore
        = (Except.ok (h1, create.Disposition.CREATED_KEY), s1) ∧
      ∃ h2 s2, create.key HKEY_CURRENT_USER "TestKey1\\Subkey" s1
        = (Except.ok (h2, create.Disposition.EXISTS_KEY), s2) ∧ s2.reg = s1.reg) ∧
    (∃ h s1, create.key HKEY_CURRENT_USER "TestKey" sampleStore
        = (Except.ok (h, create.Disposition.EXISTS_KEY), s1) ∧ s1.reg = sampleStore.reg) :=
  ⟨(create_key_idempotent HKEY_CURRENT_USER "TestKey1\\Subkey" emptyStore).1
      (by decide) (by decide),
    (create_key_idempotent HKEY_CURRENT_USER "TestKey" sampleStore).2 (by decide)⟩

/-! ## Recursive removal (C9, C10) -/

theorem entry_deleteTree_outside (g : Registry) (l k : Loc) (n : String)
    (hk : l.within k = false) : (g.deleteTree l).entry k n = g.entry k n := by
  have hb : l.below k = false := by
    rw [Bool.eq_false_iff, Ne] at hk ⊢
    exact fun h => hk ((Loc.within_iff_below_or_eq l k).2 (Or.inl h))
  have hh : (g.deleteTree l).hasKey k = g.hasKey k := by
    rw [Bool.eq_iff_iff, hasKey_deleteTree]
    simp [hb]
  simp only [Registry.entry, hh, Registry.getValue]
  congr 1
  exact lookupEntry_filter (k, n) _ g.values (fun e _ he => by simp [he, hk])

theorem entry_deleteKey_outside (g : Registry) (l k : Loc) (n : String) (hl : l.2 ≠ [])
    (hk : k ≠ l) : (g.deleteKey l).entry k n = g.entry k n := by
  have hh : (g.deleteKey l).hasKey k = g.hasKey k := by
    rw [Bool.eq_iff_iff, hasKey_deleteKey g l k hl]
    simp [hk]
  simp only [Registry.entry, hh, Registry.getValue]
  congr 1
  exact lookupEntry_filter (k, n) _ g.values (fun e _ he => by simp [he, hk])

theorem lookupEntry_filter_none (k : Loc × String) (p : (Loc × String) × RegValue → Bool)
    (hp : ∀ e : (Loc × String) × RegValue, e.1 = k → p e = false) :
    ∀ es : List ((Loc × String) × RegValue), lookupEntry k (es.filter p) = none
  | [] => rfl
  | e :: es => by
    have ih := lookupEntry_filter_none k p hp es
    by_cases he : e.1 = k
    · simp [List.filter, hp e he, ih]
    · cases hq : p e <;> simp [List.filter, hq, lookupEntry, he, ih]

theorem entry_deleteTree_self (g : Registry) (l : Loc) (n : String) :
    (g.deleteTree l).entry l n = none := by
  have hw : l.within l = true := (Loc.within_iff l l).2 ⟨rfl, List.prefix_refl _⟩
  simp only [Registry.entry, Registry.getValue, Registry.deleteTree]
  rw [lookupEntry_filter_none (l, n) _ (fun e he => by simp [he, hw])]
  simp

/-- C9 (counterexample): the root node `HKEY_CURRENT_USER` (empty path) exists
in the sample store, yet `remove::cluster` does not return true on it: it
raises the runtime error of the refused deletion. -/
theorem cluster_on_root_does_not_return :
    sampleStore.reg.hasKey (HKEY_CURRENT_USER.sub (c_str "")) = true ∧
    (remove.cluster HKEY_CURRENT_USER "" sampleStore).1
      = Except.error (Exception.runtime_error ERROR_ACCESS_DENIED) := by
  decide

/-- C9 (amended): `remove::cluster` returns false and leaves the state as it
was when the node does not exist.  When the node exists and is not a root
node, it returns true; afterwards `key_exists` is false for the node and for
every node nested below it, and every node outside that subtree exists exactly
if it did before and has the entries it had before. -/
theorem cluster_removes_subtree (machine : HKEY) (key : String) (s : Sys) :
    (s.reg.hasKey (machine.sub (c_str key)) = false →
      remove.cluster machine key s = (Except.ok false, s)) ∧
    (s.reg.hasKey (machine.sub (c_str key)) = true → (machine.sub (c_str key)).2 ≠ [] →
      ∃ s1, remove.cluster machine key s = (Except.ok true, s1) ∧
        (∀ (m2 : HKEY) (key2 : String),
          (machine.sub (c_str key)).within (m2.sub (c_str key2)) = true →
          key_exists m2 key2 s1 = (Except.ok false, s1)) ∧
        (∀ k : Loc, (machine.sub (c_str key)).within k = false →
          s1.reg.hasKey k = s.reg.hasKey k ∧ ∀ n, s1.reg.entry k n = s.reg.entry k n)) := by
  refine ⟨cluster_run_absent machine key s, fun h hl => ⟨_, cluster_run_node machine key s h hl,
    ?_, ?_⟩⟩
  · intro m2 key2 hw
    rw [key_exists_run]
    congr 2
    rw [Bool.eq_false_iff, Ne, hasKey_deleteKey _ _ _ hl, hasKey_deleteTree]
    rintro ⟨⟨_, hb⟩, hne⟩
    rcases (Loc.within_iff_below_or_eq _ _).1 hw with h1 | h1
    · rw [h1] at hb
      exact Bool.noConfusion hb
    · exact hne h1
  · intro k hk
    have hne : k ≠ machine.sub (c_str key) := by
      rintro rfl
      rw [Bool.eq_false_iff, Ne, Loc.within_iff] at hk
      exact hk ⟨rfl, List.prefix_refl _⟩
    have hb : (machine.sub (c_str key)).below k = false := by
      rw [Bool.eq_false_iff, Ne] at hk ⊢
      exact fun h => hk ((Loc.within_iff_below_or_eq _ k).2 (Or.inl h))
    refine ⟨?_, fun n => ?_⟩
    · rw [Bool.eq_iff_iff, hasKey_deleteKey _ _ _ hl, hasKey_deleteTree]
      simp [hb, hne]
    · show ((s.reg.deleteTree _).deleteKey _).entry k n = _
      rw [entry_deleteKey_outside _ _ _ _ hl hne, entry_deleteTree_outside _ _ _ _ hk]

/-- Witness for C9 (amended): the absent node `Missing`; and the node `TestKey`
of the sample store, which has a child and two entries: afterwards
`key_exists` is false for its child `TestKey\Level1`, and the root node keeps
its entry `RootValue`. -/
theorem cluster_removes_subtree_witness :
    remove.cluster HKEY_CURRENT_USER "Missing" sampleStore = (Except.ok false, sampleStore) ∧
    ∃ s1, remove.cluster HKEY_CURRENT_USER "TestKey" sampleStore = (Except.ok true, s1) ∧
      key_exists HKEY_CURRENT_USER "TestKey\\Level1" s1 = (Except.ok false, s1) ∧
      s1.reg.hasKey (Root.CURRENT_USER, []) = sampleStore.reg.hasKey (Root.CURRENT_USER, []) ∧
      s1.reg.entry (Root.CURRENT_USER, []) "RootValue"
        = sampleStore.reg.entry (Root.CURRENT_USER, []) "RootValue" :=
  ⟨(cluster_removes_subtree HKEY_CURRENT_USER "Missing" sampleStore).1 (by decide),
    match (cluster_removes_subtree HKEY_CURRENT_USER "TestKey" sampleStore).2
      (by decide) (by decide) with
    | ⟨s1, h1, h2, h3⟩ =>
      ⟨s1, h1, h2 HKEY_CURRENT_USER "TestKey\\Level1" (by decide),
        (h3 (Root.CURRENT_USER, []) (by decide)).1,
        (h3 (Root.CURRENT_USER, []) (by decide)).2 "RootValue"⟩⟩

/-- On the store itself, which refuses no open and refuses a deletion only for
the shape of the tree, `remove::cluster` fails only on a root node, in the
deletion of the node itself; the removal of the subtree has already happened
and is not undone.  The state left is the state before the call with every
node below the node and every entry of the node and of those nodes removed:
the node still exists, and the nodes outside its subtree and their entries
are as before. -/
theorem cluster_failure_on_store (machine : HKEY) (key : String) (s s1 : Sys)
    (e : Exception) (h : remove.cluster machine key s = (Except.error e, s1)) :
    (machine.sub (c_str key)).2 = [] ∧
    e = Exception.runtime_error ERROR_ACCESS_DENIED ∧
    s1 = { s with reg := s.reg.deleteTree (machine.sub (c_str key)) } ∧
    s1.reg.hasKey (machine.sub (c_str key)) = true ∧
    (∀ k : Loc, (machine.sub (c_str key)).below k = true → s1.reg.hasKey k = false) ∧
    (∀ n : String, s1.reg.entry (machine.sub (c_str key)) n = none) ∧
    (∀ k : Loc, (machine.sub (c_str key)).within k = false →
      s1.reg.hasKey k = s.reg.hasKey k ∧ ∀ n, s1.reg.entry k n = s.reg.entry k n) := by
  by_cases hk : s.reg.hasKey (machine.sub (c_str key)) = true
  · by_cases hl : (machine.sub (c_str key)).2 = []
    · rw [cluster_run_root machine key s hl] at h
      obtain ⟨he, hs⟩ := Prod.mk.inj h
      have he2 : e = Exception.runtime_error ERROR_ACCESS_DENIED := (Except.error.inj he).symm
      subst hs
      refine ⟨hl, he2, rfl, by simp [Registry.hasKey, hl], ?_, ?_, ?_⟩
      · intro k hb
        rw [Bool.eq_false_iff, Ne, hasKey_deleteTree]
        rintro ⟨_, h2⟩
        rw [hb] at h2
        exact Bool.noConfusion h2
      · intro n
        exact entry_deleteTree_self _ _ _
      · intro k hw
        have hb : (machine.sub (c_str key)).below k = false := by
          rw [Bool.eq_false_iff, Ne] at hw ⊢
          exact fun h => hw ((Loc.within_iff_below_or_eq _ k).2 (Or.inl h))
        refine ⟨?_, fun n => entry_deleteTree_outside _ _ _ _ hw⟩
        rw [Bool.eq_iff_iff, hasKey_deleteTree]
        simp [hb]
    · rw [cluster_run_node machine key s hk hl] at h
      exact absurd (Prod.mk.inj h).1 (by simp)
  · rw [cluster_run_absent machine key s (by simpa using hk)] at h
    exact absurd (Prod.mk.inj h).1 (by simp)

/-- The failing call on the root node of the sample store; afterwards `TestKey` (below the root) and the entry `RootValue` are
gone, and the root node of `HKEY_LOCAL_MACHINE` is as before. -/
theorem cluster_failure_on_store_example :
    (HKEY_CURRENT_USER.sub (c_str "")).2 = [] ∧
    (remove.cluster HKEY_CURRENT_USER "" sampleStore).2
      = { sampleStore with
          reg := sampleStore.reg.deleteTree (HKEY_CURRENT_USER.sub (c_str "")) } ∧
    (remove.cluster HKEY_CURRENT_USER "" sampleStore).2.reg.hasKey
      (HKEY_CURRENT_USER.sub (c_str "")) = true ∧
    (remove.cluster HKEY_CURRENT_USER "" sampleStore).2.reg.hasKey
      (Root.CURRENT_USER, ["TestKey"]) = false ∧
    (remove.cluster HKEY_CURRENT_USER "" sampleStore).2.reg.entry
      (HKEY_CURRENT_USER.sub (c_str "")) "RootValue" = none ∧
    (remove.cluster HKEY_CURRENT_USER "" sampleStore).2.reg.hasKey (Root.LOCAL_MACHINE, [])
      = sampleStore.reg.hasKey (Root.LOCAL_MACHINE, []) :=
  match cluster_failure_on_store HKEY_CURRENT_USER "" sampleStore
    (remove.cluster HKEY_CURRENT_USER "" sampleStore).2
    (Exception.runtime_error ERROR_ACCESS_DENIED) (by decide) with
  | ⟨h1, _, h3, h4, h5, h6, h7⟩ =>
    ⟨h1, h3, h4, h5 (Root.CURRENT_USER, ["TestKey"]) (by decide), h6 "RootValue",
      (h7 (Root.LOCAL_MACHINE, []) (by decide)).1⟩

/-! ## Invariants of the registry across calls -/

theorem keeps_pure (I : Registry → Prop) (a : α) : Keeps I (pure a : M α) :=
  fun _ h => h

theorem keeps_M_pure (I : Registry → Prop) (a : α) : Keeps I (M.pure a) :=
  fun _ h => h

theorem keeps_throw (I : Registry → Prop) (e : Exception) : Keeps I (M.throw e : M α) :=
  fun _ h => h

theorem keeps_throwNew (I : Registry → Prop) (e : Except Exception Exception) :
    Keeps I (M.throwNew e : M α) := by
  cases e <;> exact fun _ h => h

theorem keeps_bind (I : Registry → Prop) (m : M α) (f : α → M β)
    (hm : Keeps I m) (hf : ∀ a, Keeps I (f a)) : Keeps I (m >>= f) := by
  intro s hs
  have h1 := hm s hs
  rw [run_bind]
  cases hms : m s with
  | mk res s1 =>
    rw [hms] at h1
    cases res with
    | error e => exact h1
    | ok a => exact hf a s1 h1

theorem keeps_ite (I : Registry → Prop) (c : Prop) [Decidable c] (a b : M α)
    (ha : Keeps I a) (hb : Keeps I b) : Keeps I (if c then a else b) := by
  split
  · exact ha
  · exact hb

theorem keeps_with_handle (I : Registry → Prop) (handle : Option HKEY) (body : M α)
    (hb : Keeps I body) : Keeps I (with_self_closing_handle handle body) := by
  intro s hs
  have h1 := hb s hs
  cases handle <;> simpa [with_self_closing_handle, RegCloseKey] using h1

theorem keeps_of_reg_eq (I : Registry → Prop) (m : M α) (h : ∀ s, (m s).2.reg = s.reg) :
    Keeps I m := fun s hs => by rw [h s]; exact hs

theorem keeps_assert_success (I : Registry → Prop) (code : Nat) : Keeps I (assert.success code) := by
  unfold assert.success
  split
  · exact keeps_throw I _
  · exact keeps_M_pure I _

theorem keeps_assert_equal (I : Registry → Prop) (code sys_code : Nat) :
    Keeps I (assert.equal code sys_code) := by
  unfold assert.equal
  split
  · exact keeps_throw I _
  · exact keeps_M_pure I _

theorem keeps_RegOpenKeyEx (I : Registry → Prop) (hKey : HKEY) (lpSubKey : String) (a b : Nat) :
    Keeps I (RegOpenKeyEx hKey lpSubKey a b) :=
  keeps_of_reg_eq I _ (fun s => by unfold RegOpenKeyEx; split <;> rfl)

theorem keeps_open (I : Registry → Prop) (machine : HKEY) (key : String) (rights : Nat) :
    Keeps I («open» machine key rights) := by
  unfold «open»
  refine keeps_bind I _ _ (keeps_RegOpenKeyEx I _ _ _ _) (fun x => ?_)
  obtain ⟨result, handle⟩ := x
  refine keeps_bind I _ _ (keeps_assert_success I _) (fun _ => ?_)
  cases handle
  · exact keeps_throw I _
  · exact keeps_pure I _

theorem keeps_key_exists (I : Registry → Prop) (machine : HKEY) (key : String) :
    Keeps I (key_exists machine key) :=
  keeps_of_reg_eq I _ (fun s => by rw [key_exists_run])

theorem keeps_value_exists (I : Registry → Prop) (machine : HKEY) (key value : String) :
    Keeps I (value_exists machine key value) :=
  keeps_of_reg_eq I _ (fun s => by rw [value_exists_run])

theorem keeps_value_exists_h (I : Registry → Prop) (handle : HKEY) (value : String) :
    Keeps I (value_exists_h handle value) :=
  keeps_of_reg_eq I _ (fun s => by rw [value_exists_h_run])

theorem keeps_check_key (I : Registry → Prop) (machine : HKEY) (key : String) :
    Keeps I (_check_key machine key) := by
  unfold _check_key
  refine keeps_bind I _ _ (keeps_key_exists I _ _) (fun ok => ?_)
  split
  · exact keeps_throwNew I _
  · exact keeps_pure I _

theorem keeps_check_value (I : Registry → Prop) (machine : HKEY) (key value : String) :
    Keeps I (_check_value machine key value) := by
  unfold _check_value
  refine keeps_bind I _ _ (keeps_value_exists I _ _ _) (fun ok => ?_)
  split
  · exact keeps_throwNew I _
  · exact keeps_pure I _

theorem keeps_RegGetValue (I : Registry → Prop) (hkey : HKEY) (lpSubKey lpValue : String)
    (dwFlags : Nat) (pvData : Bool) (pcbData : Nat) :
    Keeps I (RegGetValue hkey lpSubKey lpValue dwFlags pvData pcbData) :=
  keeps_of_reg_eq I _ (fun s => by
    unfold RegGetValue
    split
    · rfl
    · split
      · split
        · split <;> rfl
        · rfl
      · rfl)

theorem keeps_peekvalue (I : Registry → Prop) (machine : HKEY) (key value : String) :
    Keeps I (peekvalue machine key value) := by
  unfold peekvalue
  refine keeps_bind I _ _ (keeps_check_key I _ _) (fun _ => ?_)
  refine keeps_bind I _ _ (keeps_check_value I _ _ _) (fun _ => ?_)
  refine keeps_bind I _ _ (keeps_RegGetValue I _ _ _ _ _ _) (fun x => ?_)
  obtain ⟨result, type, _, size⟩ := x
  refine keeps_bind I _ _ (keeps_assert_success I _) (fun _ => ?_)
  split <;> exact keeps_pure I _

theorem keeps_check_type (I : Registry → Prop) (machine : HKEY) (key value : String)
    (type : Nat) : Keeps I (_check_type machine key value type) := by
  unfold _check_type
  refine keeps_bind I _ _ (keeps_check_key I _ _) (fun _ => ?_)
  refine keeps_bind I _ _ (keeps_check_value I _ _ _) (fun _ => ?_)
  refine keeps_bind I _ _ (keeps_peekvalue I _ _ _) (fun x => ?_)
  obtain ⟨mytype, _⟩ := x
  exact keeps_ite I _ _ _ (keeps_throwNew I _) (keeps_pure I _)

/-! ### Readers -/

theorem keeps_get_data_DWORD (I : Registry → Prop) (machine : HKEY) (key value : String) :
    Keeps I (query._get_data_DWORD machine key value) := by
  unfold query._get_data_DWORD
  refine keeps_bind I _ _ (keeps_open I _ _ _) (fun handle => ?_)
  refine keeps_with_handle I _ _ ?_
  refine keeps_bind I _ _ (keeps_RegGetValue I _ _ _ _ _ _) (fun x => ?_)
  obtain ⟨code, _, copied, _⟩ := x
  exact keeps_bind I _ _ (keeps_assert_success I _) (fun _ => keeps_pure I _)

theorem keeps_get_data_string (I : Registry → Prop) (machine : HKEY) (key value : String) :
    Keeps I (query._get_data_string machine key value) := by
  unfold query._get_data_string
  refine keeps_bind I _ _ (keeps_open I _ _ _) (fun handle => ?_)
  refine keeps_with_handle I _ _ ?_
  refine keeps_bind I _ _ (keeps_peekvalue I _ _ _) (fun x => ?_)
  obtain ⟨_, size⟩ := x
  refine keeps_bind I _ _ (keeps_RegGetValue I _ _ _ _ _ _) (fun y => ?_)
  obtain ⟨code, _, copied, _⟩ := y
  exact keeps_bind I _ _ (keeps_assert_success I _) (fun _ => keeps_pure I _)

theorem keeps_query_number (I : Registry → Prop) (machine : HKEY) (key value : String) :
    Keeps I (query.number machine key value) := by
  unfold query.number
  refine keeps_bind I _ _ (keeps_check_type I _ _ _ _) (fun _ => ?_)
  exact keeps_bind I _ _ (keeps_get_data_DWORD I _ _ _) (fun _ => keeps_pure I _)

theorem keeps_query_string (I : Registry → Prop) (machine : HKEY) (key value : String) :
    Keeps I (query.string machine key value) := by
  unfold query.string
  refine keeps_bind I _ _ (keeps_check_type I _ _ _ _) (fun _ => ?_)
  exact keeps_bind I _ _ (keeps_get_data_string I _ _ _) (fun _ => keeps_pure I _)

theorem keeps_RegQueryInfoKey (I : Registry → Prop) (hKey : HKEY) :
    Keeps I (RegQueryInfoKey hKey) :=
  keeps_of_reg_eq I _ (fun s => by unfold RegQueryInfoKey; split <;> rfl)

theorem keeps_RegEnumKeyEx (I : Registry → Prop) (hKey : HKEY) (i : Nat) (b : List Char)
    (c : Nat) : Keeps I (RegEnumKeyEx hKey i b c) :=
  keeps_of_reg_eq I _ (fun s => by unfold RegEnumKeyEx; split <;> rfl)

theorem keeps_RegEnumValue (I : Registry → Prop) (hKey : HKEY) (i : Nat) (b : List Char)
    (c : Nat) : Keeps I (RegEnumValue hKey i b c) :=
  keeps_of_reg_eq I _ (fun s => by unfold RegEnumValue; split <;> rfl)

theorem keeps_key_info_h (I : Registry → Prop) (handle : HKEY) :
    Keeps I (query.key_info_h handle) := by
  unfold query.key_info_h
  refine keeps_bind I _ _ (keeps_RegQueryInfoKey I _) (fun x => ?_)
  obtain ⟨code, subkeys, maxkeynamelen, subvalues, maxvaluenamelen⟩ := x
  exact keeps_bind I _ _ (keeps_assert_success I _) (fun _ => keeps_pure I _)

theorem keeps_key_info (I : Registry → Prop) (machine : HKEY) (key : String) :
    Keeps I (query.key_info machine key) := by
  unfold query.key_info
  refine keeps_bind I _ _ (keeps_check_key I _ _) (fun _ => ?_)
  refine keeps_bind I _ _ (keeps_open I _ _ _) (fun handle => ?_)
  exact keeps_with_handle I _ _ (keeps_key_info_h I _)

theorem keeps_keys_loop (I : Registry → Prop) (handle : HKEY) (maxkeynamelen : Nat) :
    ∀ (budget i : Nat) (buffer : List Char) (enum_keys : List String),
      Keeps I (query.keys_loop handle maxkeynamelen budget i buffer enum_keys)
  | 0, _, _, _ => by
    unfold query.keys_loop
    exact keeps_pure I _
  | budget + 1, i, buffer, enum_keys => by
    unfold query.keys_loop
    refine keeps_bind I _ _ (keeps_RegEnumKeyEx I _ _ _ _) (fun x => ?_)
    obtain ⟨code, buffer1, characters_read⟩ := x
    refine keeps_ite I _ _ _ (keeps_pure I _) ?_
    exact keeps_ite I _ _ _ (keeps_keys_loop I handle maxkeynamelen budget _ _ _)
      (keeps_pure I _)

theorem keeps_keys_h (I : Registry → Prop) (handle : HKEY) : Keeps I (query.keys_h handle) := by
  unfold query.keys_h
  refine keeps_bind I _ _ (keeps_key_info_h I _) (fun x => ?_)
  obtain ⟨subkeys, maxkeynamelen, _, _⟩ := x
  refine keeps_bind I _ _ (keeps_keys_loop I _ _ _ _ _ _) (fun y => ?_)
  obtain ⟨code, enum_keys⟩ := y
  exact keeps_bind I _ _ (keeps_assert_equal I _ _) (fun _ => keeps_pure I _)

theorem keeps_keys (I : Registry → Prop) (machine : HKEY) (key : String) :
    Keeps I (query.keys machine key) := by
  unfold query.keys
  refine keeps_bind I _ _ (keeps_check_key I _ _) (fun _ => ?_)
  refine keeps_bind I _ _ (keeps_open I _ _ _) (fun handle => ?_)
  exact keeps_with_handle I _ _ (keeps_keys_h I _)

theorem keeps_value_names_loop (I : Registry → Prop) (handle : HKEY) (maxvaluenamelen : Nat) :
    ∀ (budget i : Nat) (buffer : List Char) (enum_values : List String),
      Keeps I (query.value_names_loop handle maxvaluenamelen budget i buffer enum_values)
  | 0, _, _, _ => by
    unfold query.value_names_loop
    exact keeps_pure I _
  | budget + 1, i, buffer, enum_values => by
    unfold query.value_names_loop
    refine keeps_bind I _ _ (keeps_RegEnumValue I _ _ _ _) (fun x => ?_)
    obtain ⟨code, buffer1, characters_read⟩ := x
    refine keeps_ite I _ _ _ (keeps_pure I _) ?_
    exact keeps_ite I _ _ _ (keeps_value_names_loop I handle maxvaluenamelen budget _ _ _)
      (keeps_pure I _)

theorem keeps_value_names_h (I : Registry → Prop) (handle : HKEY) :
    Keeps I (query.value_names_h handle) := by
  unfold query.value_names_h
  refine keeps_bind I _ _ (keeps_key_info_h I _) (fun x => ?_)
  obtain ⟨_, _, subvalues, maxvaluenamelen⟩ := x
  refine keeps_bind I _ _ (keeps_value_names_loop I _ _ _ _ _ _) (fun y => ?_)
  obtain ⟨code, enum_values⟩ := y
  exact keeps_bind I _ _ (keeps_assert_equal I _ _) (fun _ => keeps_pure I _)

theorem keeps_value_names (I : Registry → Prop) (machine : HKEY) (key : String) :
    Keeps I (query.value_names machine key) := by
  unfold query.value_names
  refine keeps_bind I _ _ (keeps_check_key I _ _) (fun _ => ?_)
  refine keeps_bind I _ _ (keeps_open I _ _ _) (fun handle => ?_)
  exact keeps_with_handle I _ _ (keeps_value_names_h I _)

/-! ## Proper names -/

theorem splitSegs_chars : ∀ (cs piece : List Char), piece ∈ splitSegs cs →
    ∀ c ∈ piece, c ∈ cs ∧ c ≠ SEP
  | [], piece, h => by
    simp only [splitSegs, List.mem_singleton] at h
    subst h
    intro c hc
    exact absurd hc (List.not_mem_nil c)
  | a :: cs, piece, h => by
    unfold splitSegs at h
    by_cases ha : a = SEP
    · rw [if_pos ha] at h
      rcases List.mem_cons.1 h with h | h
      · subst h
        intro c hc
        exact absurd hc (List.not_mem_nil c)
      · intro c hc
        have := splitSegs_chars cs piece h c hc
        exact ⟨List.mem_cons_of_mem _ this.1, this.2⟩
    · rw [if_neg ha] at h
      cases hs : splitSegs cs with
      | nil =>
        rw [hs] at h
        simp only [List.mem_singleton] at h
        subst h
        intro c hc
        simp only [List.mem_singleton] at hc
        subst hc
        exact ⟨List.mem_cons_self _ _, ha⟩
      | cons seg rest =>
        rw [hs] at h
        rcases List.mem_cons.1 h with h | h
        · subst h
          intro c hc
          rcases List.mem_cons.1 hc with hc | hc
          · subst hc
            exact ⟨List.mem_cons_self _ _, ha⟩
          · have := splitSegs_chars cs seg (by rw [hs]; exact List.mem_cons_self _ _) c hc
            exact ⟨List.mem_cons_of_mem _ this.1, this.2⟩
        · intro c hc
          have := splitSegs_chars cs piece (by rw [hs]; exact List.mem_cons_of_mem _ h) c hc
          exact ⟨List.mem_cons_of_mem _ this.1, this.2⟩

theorem splitSegs_no_sep : ∀ cs : List Char, (∀ c ∈ cs, c ≠ SEP) → splitSegs cs = [cs]
  | [], _ => rfl
  | a :: cs, h => by
    have ha : a ≠ SEP := h a (List.mem_cons_self _ _)
    have ih := splitSegs_no_sep cs (fun c hc => h c (List.mem_cons_of_mem _ hc))
    unfold splitSegs
    rw [if_neg ha, ih]

theorem c_str_chars (x : String) : ∀ c ∈ (c_str x).data, c ≠ NUL := by
  intro c hc
  have := List.mem_takeWhile_imp hc
  simpa using this

theorem proper_of_chars (piece : List Char) (hne : piece ≠ [])
    (hsep : ∀ c ∈ piece, c ≠ SEP) (hnul : ∀ c ∈ piece, c ≠ NUL) :
    segments (c_str (String.mk piece)) = [String.mk piece] := by
  have h1 : c_str (String.mk piece) = String.mk piece := by
    unfold c_str
    congr 1
    exact List.takeWhile_eq_self_iff.2 (fun c hc => by simpa using hnul c hc)
  rw [h1]
  unfold segments
  simp [splitSegs_no_sep piece hsep, hne]

theorem segments_proper (x n : String) (hn : n ∈ segments (c_str x)) :
    segments (c_str n) = [n] := by
  unfold segments at hn
  obtain ⟨piece, hp, rfl⟩ := List.mem_map.1 hn
  obtain ⟨hmem, hne⟩ := List.mem_filter.1 hp
  have hne2 : piece ≠ [] := by simpa using hne
  have hch := splitSegs_chars _ piece hmem
  exact proper_of_chars piece hne2 (fun c hc => (hch c hc).2)
    (fun c hc => c_str_chars x c (hch c hc).1)

/-! ### Writers -/

theorem inv_of_keys_eq (l : Loc) (g g2 : Registry) (h : g2.keys = g.keys) (hi : Inv l g) :
    Inv l g2 := by
  unfold Inv Registry.wellFormed Registry.hasKey at *
  rw [h]
  exact hi

theorem keeps_RegSetValueEx (l : Loc) (hKey : HKEY) (n : String) (t : Nat) (d : List Nat)
    (c : Nat) : Keeps (Inv l) (RegSetValueEx hKey n t d c) := by
  intro s hs
  unfold RegSetValueEx
  split
  · exact inv_of_keys_eq l s.reg _ rfl hs
  · exact hs

theorem keeps_RegDeleteValue (l : Loc) (hKey : HKEY) (n : String) :
    Keeps (Inv l) (RegDeleteValue hKey n) := by
  intro s hs
  unfold RegDeleteValue
  split
  · exact inv_of_keys_eq l s.reg _ rfl hs
  · exact hs

theorem keeps_set_data_h (l : Loc) (handle : HKEY) (value : String) (data : Data) :
    Keeps (Inv l) (update._set_data_h handle value data) := by
  cases data <;>
    exact keeps_bind _ _ _ (keeps_RegSetValueEx l _ _ _ _ _)
      (fun _ => keeps_assert_success _ _)

theorem keeps_set_data (l : Loc) (machine : HKEY) (key value : String) (data : Data) :
    Keeps (Inv l) (update._set_data machine key value data) := by
  unfold update._set_data
  refine keeps_bind _ _ _ (keeps_open _ _ _ _) (fun handle => ?_)
  exact keeps_with_handle _ _ _ (keeps_set_data_h l _ _ _)

theorem keeps_update_number (l : Loc) (machine : HKEY) (key value : String) (data : Nat) :
    Keeps (Inv l) (update.number machine key value data) := by
  unfold update.number
  exact keeps_bind _ _ _ (keeps_check_type _ _ _ _ _) (fun _ => keeps_set_data l _ _ _ _)

theorem keeps_update_string (l : Loc) (machine : HKEY) (key value data : String) :
    Keeps (Inv l) (update.string machine key value data) := by
  unfold update.string
  exact keeps_bind _ _ _ (keeps_check_type _ _ _ _ _) (fun _ => keeps_set_data l _ _ _ _)

theorem keeps_create_value_h (l : Loc) (handle : HKEY) (value : String) (data : Data) :
    Keeps (Inv l) (create._create_value_h handle value data) := by
  unfold create._create_value_h
  refine keeps_bind _ _ _ (keeps_value_exists_h _ _ _) (fun _ => ?_)
  exact keeps_bind _ _ _ (keeps_set_data_h l _ _ _) (fun _ => keeps_pure _ _)

theorem keeps_remove_value_h (l : Loc) (handle : HKEY) (value : String) :
    Keeps (Inv l) (remove._remove_value_h handle value) := by
  unfold remove._remove_value_h
  exact keeps_bind _ _ _ (keeps_RegDeleteValue l _ _) (fun _ => keeps_assert_success _ _)

theorem keeps_remove_value_inner (l : Loc) (machine : HKEY) (key value : String) :
    Keeps (Inv l) (remove._remove_value machine key value) := by
  unfold remove._remove_value
  refine keeps_bind _ _ _ (keeps_open _ _ _ _) (fun handle => ?_)
  exact keeps_with_handle _ _ _ (keeps_remove_value_h l _ _)

theorem keeps_remove_value (l : Loc) (machine : HKEY) (key value : String) :
    Keeps (Inv l) (remove.value machine key value) := by
  unfold remove.value
  refine keeps_bind _ _ _ (keeps_key_exists _ _ _) (fun _ => ?_)
  refine keeps_ite _ _ _ _ ?_ (keeps_pure _ _)
  refine keeps_bind _ _ _ (keeps_value_exists _ _ _ _) (fun _ => ?_)
  refine keeps_ite _ _ _ _ ?_ (keeps_pure _ _)
  exact keeps_bind _ _ _ (keeps_remove_value_inner l _ _ _) (fun _ => keeps_pure _ _)

theorem keeps_values_loop (l : Loc) (handle : HKEY) :
    ∀ names : List String, Keeps (Inv l) (remove.values_loop handle names)
  | [] => by
    unfold remove.values_loop
    exact keeps_pure _ _
  | name :: rest => by
    unfold remove.values_loop
    exact keeps_bind _ _ _ (keeps_remove_value_h l _ _) (fun _ => keeps_values_loop l handle rest)

theorem keeps_remove_values (l : Loc) (machine : HKEY) (key : String) :
    Keeps (Inv l) (remove.values machine key) := by
  unfold remove.values
  refine keeps_bind _ _ _ (keeps_key_exists _ _ _) (fun _ => ?_)
  refine keeps_ite _ _ _ _ ?_ (keeps_pure _ _)
  refine keeps_bind _ _ _ (keeps_open _ _ _ _) (fun handle => ?_)
  refine keeps_with_handle _ _ _ ?_
  refine keeps_bind _ _ _ (keeps_value_names_h _ _) (fun names => ?_)
  exact keeps_bind _ _ _ (keeps_values_loop l _ _) (fun _ => keeps_pure _ _)

/-! ### Creation -/

theorem wellFormed_iff (g : Registry) :
    g.wellFormed = true ↔ ∀ k ∈ g.keys, ∀ n ∈ k.2, segments (c_str n) = [n] := by
  simp [Registry.wellFormed, properName]

theorem inv_createKey (l t : Loc) (g : Registry) (ht : ∀ n ∈ t.2, segments (c_str n) = [n])
    (hi : Inv l g) : Inv l (g.createKey t) := by
  refine ⟨(wellFormed_iff _).2 ?_, hasKey_createKey_of_hasKey g t l hi.2⟩
  intro k hk n hn
  rcases (mem_keys_createKey g t k).1 hk with h | ⟨_, h2, _⟩
  · exact (wellFormed_iff g).1 hi.1 k h n hn
  · exact ht n (h2.subset hn)

theorem keeps_create_key (l : Loc) (r : Root) (key : String) :
    Keeps (Inv l) (create._create_key (HKEY.predefined r) key) := by
  unfold create._create_key
  refine keeps_bind _ _ _ (keeps_key_exists _ _ _) (fun _ => ?_)
  refine keeps_ite _ _ _ _ ?_ ?_
  · exact keeps_bind _ _ _ (keeps_open _ _ _ _) (fun _ => keeps_pure _ _)
  · refine keeps_bind _ _ _ ?_ (fun x => ?_)
    · intro s hs
      unfold RegCreateKeyEx
      split
      · exact hs
      · split
        · refine inv_createKey l _ s.reg ?_ hs
          intro n hn
          exact segments_proper key n (by simpa [HKEY.sub, HKEY.loc] using hn)
        · exact hs
    · obtain ⟨result, handle, disposition⟩ := x
      refine keeps_bind _ _ _ (keeps_assert_success _ _) (fun _ => ?_)
      cases handle
      · exact keeps_throw _ _
      · exact keeps_pure _ _

theorem keeps_item (l : Loc) (r : Root) (key value : String) (data : Data) :
    Keeps (Inv l) (create.item (HKEY.predefined r) key value data) := by
  unfold create.item
  refine keeps_bind _ _ _ (keeps_key_exists _ _ _) (fun _ => ?_)
  refine keeps_ite _ _ _ _ ?_ ?_
  · refine keeps_bind _ _ _ (keeps_open _ _ _ _) (fun handle => ?_)
    refine keeps_bind _ _ _ (keeps_value_exists _ _ _ _) (fun _ => ?_)
    refine keeps_ite _ _ _ _ (keeps_pure _ _) ?_
    exact keeps_bind _ _ _ (keeps_create_value_h l _ _ _) (fun _ => keeps_pure _ _)
  · refine keeps_bind _ _ _ (keeps_create_key l r key) (fun hd => ?_)
    exact keeps_bind _ _ _ (keeps_create_value_h l _ _ _) (fun _ => keeps_pure _ _)

/-! ### Removal -/

theorem inv_deleteKey (l t : Loc) (g : Registry) (ht : t ≠ l) (hi : Inv l g) :
    Inv l (g.deleteKey t) := by
  refine ⟨(wellFormed_iff _).2 ?_, ?_⟩
  · intro k hk n hn
    exact (wellFormed_iff g).1 hi.1 k (List.mem_of_mem_filter hk) n hn
  · have h2 := hi.2
    simp only [Registry.hasKey, Registry.deleteKey, decide_eq_true_eq, List.mem_filter] at h2 ⊢
    rcases h2 with h | h
    · exact Or.inl h
    · exact Or.inr ⟨h, fun e => ht e.symm⟩

theorem inv_deleteTree (l t : Loc) (g : Registry) (hb : t.below l = false) (hi : Inv l g) :
    Inv l (g.deleteTree t) := by
  refine ⟨(wellFormed_iff _).2 ?_, (hasKey_deleteTree g t l).2 ⟨hi.2, hb⟩⟩
  intro k hk n hn
  exact (wellFormed_iff g).1 hi.1 k (List.mem_of_mem_filter hk) n hn

theorem keeps_RegDeleteKeyEx (l : Loc) (hKey : HKEY) (lpSubKey : String) (a : Nat)
    (h : hKey.sub lpSubKey ≠ l) : Keeps (Inv l) (RegDeleteKeyEx hKey lpSubKey a) := by
  intro s hs
  unfold RegDeleteKeyEx
  split
  · exact hs
  · split
    · exact hs
    · split
      · exact hs
      · exact inv_deleteKey l _ s.reg h hs

theorem keeps_RegDeleteTree (l : Loc) (hKey : HKEY) (h : hKey.loc.below l = false) :
    Keeps (Inv l) (RegDeleteTree hKey "") := by
  intro s hs
  unfold RegDeleteTree
  rw [sub_empty]
  split
  · rw [if_pos segments_empty]
    exact inv_deleteTree l _ s.reg h hs
  · exact hs

theorem keeps_open_bind (I : Registry → Prop) (machine : HKEY) (key : String) (rights : Nat)
    (f : HKEY → M β) (hf : Keeps I (f (machine.openedAt (c_str key) rights))) :
    Keeps I («open» machine key rights >>= f) := by
  intro s hs
  rw [run_bind]
  cases hk : s.reg.hasKey (machine.sub (c_str key))
  · rw [open_run_error machine key rights s hk]
    exact hs
  · rw [open_run_ok machine key rights s hk]
    exact hf _ hs

theorem keeps_remove_key_inner (l : Loc) (machine : HKEY) (key : String)
    (h : machine.sub (c_str key) ≠ l) : Keeps (Inv l) (remove._remove_key machine key) := by
  unfold remove._remove_key
  refine keeps_open_bind _ _ _ _ _ (keeps_with_handle _ _ _ ?_)
  unfold remove._remove_key_h
  refine keeps_bind _ _ _ (keeps_RegDeleteKeyEx l _ _ _ ?_) (fun _ => keeps_assert_success _ _)
  rw [sub_empty, loc_openedAt]
  exact h

theorem keeps_remove_children (l : Loc) (machine : HKEY) (key : String)
    (h : (machine.sub (c_str key)).below l = false) :
    Keeps (Inv l) (remove._remove_children machine key) := by
  unfold remove._remove_children
  refine keeps_open_bind _ _ _ _ _ (keeps_with_handle _ _ _ ?_)
  unfold remove._remove_children_h
  exact keeps_bind _ _ _ (keeps_RegDeleteTree l _ (by rw [loc_openedAt]; exact h))
    (fun _ => keeps_assert_success _ _)

theorem not_below_of_not_within (t l : Loc) (h : t.within l = false) : t.below l = false := by
  rw [Bool.eq_false_iff, Ne] at h ⊢
  exact fun hb => h ((Loc.within_iff_below_or_eq t l).2 (Or.inl hb))

theorem ne_of_not_within (t l : Loc) (h : t.within l = false) : t ≠ l := by
  rintro rfl
  rw [Bool.eq_false_iff, Ne, Loc.within_iff] at h
  exact h ⟨rfl, List.prefix_refl _⟩

theorem keeps_remove_key (l : Loc) (machine : HKEY) (key : String)
    (h : machine.sub (c_str key) ≠ l) : Keeps (Inv l) (remove.key machine key) := by
  unfold remove.key
  refine keeps_bind _ _ _ (keeps_key_exists _ _ _) (fun _ => ?_)
  refine keeps_ite _ _ _ _ ?_ (keeps_pure _ _)
  exact keeps_bind _ _ _ (keeps_remove_key_inner l _ _ h) (fun _ => keeps_pure _ _)

theorem keeps_cluster (l : Loc) (machine : HKEY) (key : String)
    (h : (machine.sub (c_str key)).within l = false) :
    Keeps (Inv l) (remove.cluster machine key) := by
  unfold remove.cluster
  refine keeps_bind _ _ _ (keeps_key_exists _ _ _) (fun _ => ?_)
  refine keeps_ite _ _ _ _ ?_ (keeps_pure _ _)
  refine keeps_bind _ _ _ (keeps_remove_children l _ _ (not_below_of_not_within _ _ h))
    (fun _ => ?_)
  exact keeps_bind _ _ _ (keeps_remove_key l _ _ (ne_of_not_within _ _ h))
    (fun _ => keeps_pure _ _)

/-! ### Removal of the children -/

theorem enumAt_success (names : List String) (i : Nat) (buffer : List Char) (cap : Nat)
    (buffer1 : List Char) (read : Nat)
    (h : enumAt names i buffer cap = (ERROR_SUCCESS, buffer1, read)) :
    String.mk (buffer1.take read) ∈ names := by
  unfold enumAt at h
  cases hg : names.get? i with
  | none =>
    rw [hg] at h
    simp [ERROR_NO_MORE_ITEMS, ERROR_SUCCESS] at h
  | some n =>
    rw [hg] at h
    by_cases hlen : n.length < cap
    · simp only [hlen, if_true, Prod.mk.injEq, true_and] at h
      obtain ⟨hb, hr⟩ := h
      subst hb hr
      have : (overlay buffer (n.data ++ [NUL])).take n.length = n.data := by
        unfold overlay
        rw [List.append_assoc, ← String.length_data]
        exact List.take_left _ _
      rw [this]
      exact List.get?_mem hg
    · simp [hlen, ERROR_MORE_DATA, ERROR_SUCCESS] at h

theorem keys_loop_names (handle : HKEY) (cap : Nat) (s : Sys) :
    ∀ (budget i : Nat) (buffer : List Char) (acc : List String),
      ∃ code names, query.keys_loop handle cap budget i buffer acc s
          = (Except.ok (code, names), s) ∧
        (code = ERROR_NO_MORE_ITEMS →
          ∀ n ∈ names, n ∈ acc ∨ n ∈ s.reg.subkeyNames handle.loc)
  | 0, _, _, acc => by
    unfold query.keys_loop
    exact ⟨_, _, rfl, fun _ n hn => Or.inl hn⟩
  | budget + 1, i, buffer, acc => by
    unfold query.keys_loop
    rw [run_bind]
    unfold RegEnumKeyEx
    by_cases hk : s.reg.hasKey handle.loc = true
    · simp only [hk, if_true]
      rcases he : enumAt (s.reg.subkeyNames handle.loc) i buffer cap with ⟨code, buffer1, read⟩
      by_cases h1 : code = ERROR_NO_MORE_ITEMS
      · simp only [h1, if_true, run_pure]
        exact ⟨_, _, rfl, fun _ n hn => Or.inl hn⟩
      · by_cases h2 : code = ERROR_SUCCESS
        · subst h2
          simp only [h1, if_false, if_true]
          obtain ⟨c2, names, hrun, hnames⟩ := keys_loop_names handle cap s budget (i + 1) buffer1
            (acc ++ [String.mk (buffer1.take read)])
          refine ⟨c2, names, hrun, fun hc n hn => ?_⟩
          rcases hnames hc n hn with h | h
          · rcases List.mem_append.1 h with h | h
            · exact Or.inl h
            · rw [List.mem_singleton.1 h]
              exact Or.inr (enumAt_success _ _ _ _ _ _ he)
          · exact Or.inr h
        · simp only [h1, h2, if_false, run_pure]
          exact ⟨_, _, rfl, fun hc => absurd hc h1⟩
    · have hk2 : s.reg.hasKey handle.loc = false := by simpa using hk
      refine ⟨ERROR_FILE_NOT_FOUND, acc ++ [String.mk (buffer.take cap)], ?_,
        fun hc => absurd hc (by decide)⟩
      simp [hk2, ERROR_FILE_NOT_FOUND, ERROR_NO_MORE_ITEMS, ERROR_SUCCESS]

theorem key_info_h_run (handle : HKEY) (s : Sys) :
    (query.key_info_h handle s).2 = s := by
  unfold query.key_info_h RegQueryInfoKey
  by_cases hk : s.reg.hasKey handle.loc = true <;>
    simp [hk, assert.success, ERROR_SUCCESS, ERROR_FILE_NOT_FOUND]

theorem keys_h_names (handle : HKEY) (s : Sys) :
    (query.keys_h handle s).2 = s ∧
    ∀ names, (query.keys_h handle s).1 = Except.ok names →
      ∀ n ∈ names, n ∈ s.reg.subkeyNames handle.loc := by
  unfold query.keys_h
  rw [run_bind]
  have hs := key_info_h_run handle s
  rcases hki : query.key_info_h handle s with ⟨res, s1⟩
  rw [hki] at hs
  simp only at hs
  subst hs
  cases res with
  | error e => exact ⟨rfl, fun names h => by simp at h⟩
  | ok info =>
    obtain ⟨subkeys, maxkeynamelen, _, _⟩ := info
    simp only [run_bind]
    obtain ⟨code, names, hrun, hnames⟩ := keys_loop_names handle maxkeynamelen s1 (subkeys + 1) 0
      (List.replicate maxkeynamelen NUL) []
    rw [hrun]
    simp only [assert.equal]
    by_cases hc : code = ERROR_NO_MORE_ITEMS
    · simp only [hc, ne_eq, not_true_eq_false, if_false, run_M_pure, run_pure, true_and]
      intro names2 h2 n hn
      have : names2 = names := by
        simpa using h2.symm
      subst this
      rcases hnames hc n hn with h | h
      · exact absurd h (List.not_mem_nil n)
      · exact h
    · simp only [ne_eq, hc, not_false_eq_true, if_true, run_M_throw, true_and]
      intro names2 h2
      simp at h2

theorem subkeyNames_proper (g : Registry) (t : Loc) (hw : g.wellFormed = true) (n : String)
    (hn : n ∈ g.subkeyNames t) : segments (c_str n) = [n] := by
  unfold Registry.subkeyNames at hn
  obtain ⟨k, hk, hkn⟩ := List.mem_filterMap.1 hn
  split at hkn
  · exact (wellFormed_iff g).1 hw k hk n (List.mem_of_getLast?_eq_some hkn)
  · simp at hkn

theorem child_not_below (t l : Loc) (n : String) (h : t.below l = false) :
    Loc.below (t.1, t.2 ++ [n]) l = false ∧ ((t.1, t.2 ++ [n]) : Loc) ≠ l := by
  rw [Bool.eq_false_iff, Ne, Loc.below_iff] at h
  constructor
  · rw [Bool.eq_false_iff, Ne, Loc.below_iff]
    rintro ⟨h1, h2, _⟩
    refine h ⟨h1, (List.prefix_append _ _).trans h2, ?_⟩
    intro he
    have := h2.length_le
    simp [he] at this
  · rintro rfl
    exact h ⟨rfl, List.prefix_append _ _, by simp⟩

theorem keeps_subkeys_loop (l : Loc) (handle : HKEY) (hb : handle.loc.below l = false) :
    ∀ names : List String, (∀ n ∈ names, segments (c_str n) = [n]) →
      Keeps (Inv l) (remove.subkeys_loop handle names)
  | [], _ => by
    unfold remove.subkeys_loop
    exact keeps_pure _ _
  | name :: rest, h => by
    have hsub : handle.sub (c_str name) = (handle.loc.1, handle.loc.2 ++ [name]) := by
      simp [HKEY.sub, h name (List.mem_cons_self _ _)]
    have hc := child_not_below handle.loc l name hb
    unfold remove.subkeys_loop
    refine keeps_bind _ _ _ (keeps_remove_children l _ _ (by rw [hsub]; exact hc.1))
      (fun _ => ?_)
    refine keeps_bind _ _ _ (keeps_remove_key_inner l _ _ (by rw [hsub]; exact hc.2))
      (fun _ => ?_)
    exact keeps_subkeys_loop l handle hb rest (fun n hn => h n (List.mem_cons_of_mem _ hn))

theorem keeps_subkeys (l : Loc) (machine : HKEY) (key : String)
    (hb : (machine.sub (c_str key)).below l = false) :
    Keeps (Inv l) (remove.subkeys machine key) := by
  unfold remove.subkeys
  refine keeps_bind _ _ _ (keeps_key_exists _ _ _) (fun _ => ?_)
  refine keeps_ite _ _ _ _ ?_ (keeps_pure _ _)
  refine keeps_open_bind _ _ _ _ _ (keeps_with_handle _ _ _ ?_)
  intro s hs
  rw [run_bind]
  obtain ⟨hst, hnames⟩ := keys_h_names
    (machine.openedAt (c_str key) (KEY_QUERY_VALUE ||| KEY_ENUMERATE_SUB_KEYS)) s
  rcases hk : query.keys_h
    (machine.openedAt (c_str key) (KEY_QUERY_VALUE ||| KEY_ENUMERATE_SUB_KEYS)) s with ⟨res, s1⟩
  rw [hk] at hst hnames
  simp only at hst
  subst hst
  cases res with
  | error e => exact hs
  | ok names =>
    refine keeps_bind _ _ _ (keeps_subkeys_loop l _ (by rw [loc_openedAt]; exact hb) names ?_)
      (fun _ => keeps_pure _ _) s1 hs
    intro n hn
    exact subkeyNames_proper s1.reg _ hs.1 n (hnames names rfl n hn)

/-! ## Existence of nodes over time (C8) -/

theorem op_keeps (l : Loc) (op : Op) (s : Sys) (hsp : op.spares l = true) (hs : Inv l s.reg) :
    Inv l (op.run s).reg := by
  cases op with
  | key_exists r key => exact keeps_key_exists _ _ _ s hs
  | value_exists r key value => exact keeps_value_exists _ _ _ _ s hs
  | peekvalue r key value => exact keeps_peekvalue _ _ _ _ s hs
  | query_number r key value => exact keeps_query_number _ _ _ _ s hs
  | query_string r key value => exact keeps_query_string _ _ _ _ s hs
  | query_key_info r key => exact keeps_key_info _ _ _ s hs
  | query_keys r key => exact keeps_keys _ _ _ s hs
  | query_value_names r key => exact keeps_value_names _ _ _ s hs
  | update_number r key value data => exact keeps_update_number l _ _ _ _ s hs
  | update_string r key value data => exact keeps_update_string l _ _ _ _ s hs
  | create_key r key => exact keeps_create_key l r key s hs
  | create_number r key value data => exact keeps_item l r key value _ s hs
  | create_string r key value data => exact keeps_item l r key value _ s hs
  | remove_key r key =>
    exact keeps_remove_key l _ _ (ne_of_not_within _ _ (by simpa [Op.spares] using hsp)) s hs
  | remove_subkeys r key =>
    exact keeps_subkeys l _ _ (by simpa [Op.spares] using hsp) s hs
  | remove_values r key => exact keeps_remove_values l _ _ s hs
  | remove_cluster r key =>
    exact keeps_cluster l _ _ (by simpa [Op.spares] using hsp) s hs
  | remove_value r key value => exact keeps_remove_value l _ _ _ s hs

theorem runAll_keeps (l : Loc) : ∀ (ops : List Op) (s : Sys),
    (∀ op ∈ ops, op.spares l = true) → Inv l s.reg → Inv l (runAll ops s).reg
  | [], _, _, hs => hs
  | op :: ops, s, h, hs =>
    runAll_keeps l ops (op.run s) (fun o ho => h o (List.mem_cons_of_mem _ ho))
      (op_keeps l op s (h op (List.mem_cons_self _ _)) hs)

/-- C8: for a node that is absent from the store `key_exists` is false (on the
store in which nothing was created, for every non-empty path); `create::key`
returns, and `key_exists` is true afterwards, whatever the depth of the path;
and once the node exists, `key_exists` stays true across every sequence of
calls of the layer in which no call removes the node or one of its ancestors
(no `remove::key` or `remove::cluster` aimed at the node or an ancestor, no
`remove::subkeys` aimed at an ancestor). -/
theorem key_exists_lifecycle (r : Root) (key : String) (s : Sys) :
    (s.reg.hasKey ((HKEY.predefined r).sub (c_str key)) = false →
      key_exists (HKEY.predefined r) key s = (Except.ok false, s)) ∧
    (segments (c_str key) ≠ [] →
      key_exists (HKEY.predefined r) key emptyStore = (Except.ok false, emptyStore)) ∧
    (∃ h d s1, create.key (HKEY.predefined r) key s = (Except.ok (h, d), s1) ∧
      key_exists (HKEY.predefined r) key s1 = (Except.ok true, s1) ∧
      (s.reg.wellFormed = true → s1.reg.wellFormed = true)) ∧
    (s.reg.wellFormed = true → s.reg.hasKey ((HKEY.predefined r).sub (c_str key)) = true →
      ∀ ops : List Op, (∀ op ∈ ops, op.spares ((HKEY.predefined r).sub (c_str key)) = true) →
        key_exists (HKEY.predefined r) key (runAll ops s) = (Except.ok true, runAll ops s)) := by
  refine ⟨?_, ?_, ?_, ?_⟩
  · intro h
    rw [key_exists_run, h]
  · intro h
    rw [key_exists_run]
    congr 2
    simpa [Registry.hasKey, emptyStore, HKEY.sub, HKEY.loc] using h
  · by_cases hk : s.reg.hasKey ((HKEY.predefined r).sub (c_str key)) = true
    · refine ⟨_, _, _, create_key_run_exists _ key s hk, ?_, fun hw => hw⟩
      rw [key_exists_run]
      exact congrArg (fun b => (Except.ok b, _)) hk
    · have hk2 : s.reg.hasKey ((HKEY.predefined r).sub (c_str key)) = false := by
        simpa using hk
      refine ⟨_, _, _, create_key_run_absent _ key s hk2 (hasKey_predefined _ r), ?_, ?_⟩
      · rw [key_exists_run]
        exact congrArg (fun b => (Except.ok b, _)) (hasKey_createKey_self _ _)
      · intro hw
        have := inv_createKey ((HKEY.predefined r).loc) ((HKEY.predefined r).sub (c_str key))
          s.reg (fun n hn => segments_proper key n (by simpa [HKEY.sub, HKEY.loc] using hn))
          ⟨hw, hasKey_predefined _ r⟩
        exact this.1
  · intro hw hk ops hops
    rw [key_exists_run]
    exact congrArg (fun b => (Except.ok b, _)) (runAll_keeps _ ops s hops ⟨hw, hk⟩).2

/-- Witness for C8: the absent node `Missing`; the eleven-segment path of the
tests, absent from the empty store and present after `create::key`; and the
node `TestKey\Level1` of the sample store across the calls of `sampleOps`. -/
theorem key_exists_lifecycle_witness :
    key_exists HKEY_CURRENT_USER "Missing" sampleStore = (Except.ok false, sampleStore) ∧
    key_exists HKEY_CURRENT_USER deep_key emptyStore = (Except.ok false, emptyStore) ∧
    (∃ h d s1, create.key HKEY_CURRENT_USER deep_key sampleStore = (Except.ok (h, d), s1) ∧
      key_exists HKEY_CURRENT_USER deep_key s1 = (Except.ok true, s1) ∧
      (sampleStore.reg.wellFormed = true → s1.reg.wellFormed = true)) ∧
    key_exists HKEY_CURRENT_USER "TestKey\\Level1" (runAll sampleOps sampleStore)
      = (Except.ok true, runAll sampleOps sampleStore) :=
  ⟨(key_exists_lifecycle Root.CURRENT_USER "Missing" sampleStore).1 (by decide),
    (key_exists_lifecycle Root.CURRENT_USER deep_key sampleStore).2.1 (by decide),
    (key_exists_lifecycle Root.CURRENT_USER deep_key sampleStore).2.2.1,
    (key_exists_lifecycle Root.CURRENT_USER "TestKey\\Level1" sampleStore).2.2.2
      (by decide) (by decide) sampleOps (by decide)⟩

/-! ## Running the guards on their failing paths -/

theorem toString_predefined (r : Root) (key value : String) :
    ∃ t, except.toString (HKEY.predefined r) key value = Except.ok t := by
  cases r <;> exact ⟨_, rfl⟩

theorem key_not_found_predefined (r : Root) (key : String) :
    ∃ msg, except.key_not_found (HKEY.predefined r) key
      = Except.ok (Exception.key_not_found msg) := by
  obtain ⟨t, ht⟩ := toString_predefined r key ""
  exact ⟨_, by rw [except.key_not_found, ht]⟩

theorem value_not_found_predefined (r : Root) (key value : String) :
    ∃ msg, except.value_not_found (HKEY.predefined r) key value
      = Except.ok (Exception.value_not_found msg) := by
  obtain ⟨t, ht⟩ := toString_predefined r key value
  exact ⟨_, by rw [except.value_not_found, ht]⟩

theorem type_error_predefined (r : Root) (key value expected provided : String) :
    ∃ msg, except.type_error (HKEY.predefined r) key value expected provided
      = Except.ok (Exception.type_error msg) := by
  obtain ⟨t, ht⟩ := toString_predefined r key value
  exact ⟨_, by rw [except.type_error, ht]⟩

theorem check_key_absent (r : Root) (key : String) (s : Sys)
    (h : s.reg.hasKey ((HKEY.predefined r).sub (c_str key)) = false) :
    ∃ msg, _check_key (HKEY.predefined r) key s
      = (Except.error (Exception.key_not_found msg), s) := by
  obtain ⟨msg, hm⟩ := key_not_found_predefined r key
  refine ⟨msg, ?_⟩
  simp [_check_key, key_exists_run, h, hm, M.throwNew]

theorem check_value_absent (r : Root) (key value : String) (s : Sys)
    (h : s.reg.entry ((HKEY.predefined r).sub (c_str key)) (c_str value) = none) :
    ∃ msg, _check_value (HKEY.predefined r) key value s
      = (Except.error (Exception.value_not_found msg), s) := by
  obtain ⟨msg, hm⟩ := value_not_found_predefined r key value
  refine ⟨msg, ?_⟩
  simp [_check_value, value_exists_run, h, hm, M.throwNew]

theorem str_type_closed (t : Nat) (h : t ≤ 11) : ∃ n, str_type t = some n := by
  interval_cases t <;> exact ⟨_, rfl⟩

theorem check_type_mismatch (r : Root) (key value : String) (type : Nat) (s : Sys)
    (v : RegValue)
    (h : s.reg.entry ((HKEY.predefined r).sub (c_str key)) (c_str value) = some v)
    (hne : v.type ≠ type) (ht : type ≤ 11) (hv : v.type ≤ 11) :
    ∃ msg, _check_type (HKEY.predefined r) key value type s
      = (Except.error (Exception.type_error msg), s) := by
  have hk := entry_hasKey _ _ _ _ h
  obtain ⟨n1, h1⟩ := str_type_closed type ht
  obtain ⟨n2, h2⟩ := str_type_closed v.type hv
  obtain ⟨msg, hm⟩ := type_error_predefined r key value n1 n2
  refine ⟨msg, ?_⟩
  unfold _check_type
  simp [check_key_ok _ key s hk, check_value_ok _ key value s v h,
    peekvalue_ok _ key value s v h, hne, h1, h2, map_at, hm, M.throwNew]

/-! ## Guards and their order (C16, C17, C18) -/

theorem throwNew_run (e : Except Exception Exception) (s : Sys) :
    ∃ ex, (M.throwNew e : M α) s = (Except.error ex, s) := by
  cases e <;> exact ⟨_, rfl⟩

theorem check_type_ok_inv (machine : HKEY) (key value : String) (type : Nat) (s s1 : Sys)
    (h : _check_type machine key value type s = (Except.ok (), s1)) :
    ∃ v, s.reg.entry (machine.sub (c_str key)) (c_str value) = some v ∧ v.type = type := by
  cases he : s.reg.entry (machine.sub (c_str key)) (c_str value) with
  | none =>
    exfalso
    unfold _check_type at h
    by_cases hk : s.reg.hasKey (machine.sub (c_str key)) = true
    · obtain ⟨ex, hex⟩ := throwNew_run (α := Unit) (except.value_not_found machine key value) s
      simp [check_key_ok machine key s hk, _check_value, value_exists_run, he, hex] at h
    · obtain ⟨ex, hex⟩ := throwNew_run (α := Unit) (except.key_not_found machine key) s
      simp [_check_key, key_exists_run, hk, hex] at h
  | some v =>
    refine ⟨v, rfl, ?_⟩
    by_contra hne
    have hk := entry_hasKey _ _ _ _ he
    unfold _check_type at h
    simp only [run_bind, check_key_ok machine key s hk, check_value_ok machine key value s v he,
      peekvalue_ok machine key value s v he, hne, ne_eq, not_false_eq_true, if_true] at h
    obtain ⟨ex, hex⟩ := throwNew_run (α := Unit)
      (match map_at (str_type type), map_at (str_type v.type) with
        | Except.ok expected, Except.ok provided =>
          except.type_error machine key value expected provided
        | Except.error e, _ => Except.error e
        | _, Except.error e => Except.error e) s
    rw [hex] at h
    exact absurd (Prod.mk.inj h).1 (by simp)

/-- C16: guard order in `peekvalue` on a predefined root.  When the node does
not exist the call raises `key_not_found`, whatever the entry name is; when the
node exists without an entry of that name it raises `value_not_found`; when
both exist it returns the declared type and the size; and it returns a pair
only when both exist. -/
theorem peekvalue_guard_order (r : Root) (key value : String) (s : Sys) :
    (s.reg.hasKey ((HKEY.predefined r).sub (c_str key)) = false →
      ∃ msg, peekvalue (HKEY.predefined r) key value s
        = (Except.error (Exception.key_not_found msg), s)) ∧
    (s.reg.hasKey ((HKEY.predefined r).sub (c_str key)) = true →
      s.reg.entry ((HKEY.predefined r).sub (c_str key)) (c_str value) = none →
      ∃ msg, peekvalue (HKEY.predefined r) key value s
        = (Except.error (Exception.value_not_found msg), s)) ∧
    (∀ v : RegValue, s.reg.entry ((HKEY.predefined r).sub (c_str key)) (c_str value) = some v →
      peekvalue (HKEY.predefined r) key value s = (Except.ok (v.type, peekSize v), s)) ∧
    (∀ (p : Nat × Nat) (s1 : Sys), peekvalue (HKEY.predefined r) key value s = (Except.ok p, s1) →
      s.reg.hasKey ((HKEY.predefined r).sub (c_str key)) = true ∧
      (s.reg.entry ((HKEY.predefined r).sub (c_str key)) (c_str value)).isSome = true) := by
  have h1 : s.reg.hasKey ((HKEY.predefined r).sub (c_str key)) = false →
      ∃ msg, peekvalue (HKEY.predefined r) key value s
        = (Except.error (Exception.key_not_found msg), s) := by
    intro hk
    obtain ⟨msg, hm⟩ := check_key_absent r key s hk
    exact ⟨msg, by simp [peekvalue, hm]⟩
  have h2 : s.reg.hasKey ((HKEY.predefined r).sub (c_str key)) = true →
      s.reg.entry ((HKEY.predefined r).sub (c_str key)) (c_str value) = none →
      ∃ msg, peekvalue (HKEY.predefined r) key value s
        = (Except.error (Exception.value_not_found msg), s) := by
    intro hk he
    obtain ⟨msg, hm⟩ := check_value_absent r key value s he
    exact ⟨msg, by simp [peekvalue, check_key_ok _ key s hk, hm]⟩
  refine ⟨h1, h2, fun v he => peekvalue_ok _ key value s v he, ?_⟩
  intro p s1 hp
  by_cases hk : s.reg.hasKey ((HKEY.predefined r).sub (c_str key)) = true
  · refine ⟨hk, ?_⟩
    cases he : s.reg.entry ((HKEY.predefined r).sub (c_str key)) (c_str value) with
    | some v => rfl
    | none =>
      obtain ⟨msg, hm⟩ := h2 hk he
      rw [hm] at hp
      exact absurd (Prod.mk.inj hp).1 (by simp)
  · obtain ⟨msg, hm⟩ := h1 (by simpa using hk)
    rw [hm] at hp
    exact absurd (Prod.mk.inj hp).1 (by simp)

/-- Witness for C16: the absent node `Missing`, the node `TestKey` without an
entry `Absent`, and the entry `TestKey\MyString` of the sample store. -/
theorem peekvalue_guard_order_witness :
    (∃ msg, peekvalue HKEY_CURRENT_USER "Missing" "MyNumber" sampleStore
      = (Except.error (Exception.key_not_found msg), sampleStore)) ∧
    (∃ msg, peekvalue HKEY_CURRENT_USER "TestKey" "Absent" sampleStore
      = (Except.error (Exception.value_not_found msg), sampleStore)) ∧
    peekvalue HKEY_CURRENT_USER "TestKey" "MyString" sampleStore
      = (Except.ok (REG_SZ, peekSize (RegValue.mk REG_SZ [49, 50, 51, 0])), sampleStore) ∧
    (sampleStore.reg.hasKey (HKEY_CURRENT_USER.sub (c_str "TestKey")) = true ∧
      (sampleStore.reg.entry (HKEY_CURRENT_USER.sub (c_str "TestKey"))
        (c_str "MyNumber")).isSome = true) :=
  ⟨(peekvalue_guard_order Root.CURRENT_USER "Missing" "MyNumber" sampleStore).1 (by decide),
    (peekvalue_guard_order Root.CURRENT_USER "TestKey" "Absent" sampleStore).2.1
      (by decide) (by decide),
    (peekvalue_guard_order Root.CURRENT_USER "TestKey" "MyString" sampleStore).2.2.1
      (RegValue.mk REG_SZ [49, 50, 51, 0]) (by decide),
    (peekvalue_guard_order Root.CURRENT_USER "TestKey" "MyNumber" sampleStore).2.2.2
      (REG_DWORD, 4) sampleStore (by decide)⟩

/-- C17: type mismatch on read, on a predefined root.  For an existing entry
whose declared type is one of the closed set (tags 0 to 11): `query::string`
raises `type_error` unless the type is the string type, `query::number` raises
`type_error` unless the type is the 32-bit integer type; no data is returned
and the state is left as it was. -/
theorem reader_type_mismatch (r : Root) (key value : String) (s : Sys) (v : RegValue)
    (he : s.reg.entry ((HKEY.predefined r).sub (c_str key)) (c_str value) = some v)
    (hv : v.type ≤ 11) :
    (v.type ≠ REG_SZ → ∃ msg, query.string (HKEY.predefined r) key value s
      = (Except.error (Exception.type_error msg), s)) ∧
    (v.type ≠ REG_DWORD → ∃ msg, query.number (HKEY.predefined r) key value s
      = (Except.error (Exception.type_error msg), s)) := by
  constructor
  · intro hne
    obtain ⟨msg, hm⟩ := check_type_mismatch r key value REG_SZ s v he hne (by decide) hv
    exact ⟨msg, by simp [query.string, hm]⟩
  · intro hne
    obtain ⟨msg, hm⟩ := check_type_mismatch r key value REG_DWORD s v he hne (by decide) hv
    exact ⟨msg, by simp [query.number, hm]⟩

/-- Witness for C17: `query::string` on the integer entry `TestKey\MyNumber`
and `query::number` on the string entry `TestKey\MyString`. -/
theorem reader_type_mismatch_witness :
    (∃ msg, query.string HKEY_CURRENT_USER "TestKey" "MyNumber" sampleStore
      = (Except.error (Exception.type_error msg), sampleStore)) ∧
    (∃ msg, query.number HKEY_CURRENT_USER "TestKey" "MyString" sampleStore
      = (Except.error (Exception.type_error msg), sampleStore)) :=
  ⟨(reader_type_mismatch Root.CURRENT_USER "TestKey" "MyNumber" sampleStore
      (RegValue.mk REG_DWORD [123, 0, 0, 0]) (by decide) (by decide)).1 (by decide),
    (reader_type_mismatch Root.CURRENT_USER "TestKey" "MyString" sampleStore
      (RegValue.mk REG_SZ [49, 50, 51, 0]) (by decide) (by decide)).2 (by decide)⟩

theorem update_run_ok (machine : HKEY) (key value : String) (data : Data) (type : Nat)
    (s : Sys) (v : RegValue)
    (he : s.reg.entry (machine.sub (c_str key)) (c_str value) = some v) (ht : v.type = type) :
    (_check_type machine key value type >>= fun _ => update._set_data machine key value data) s
      = (Except.ok (),
          { s with reg := s.reg.setValue (machine.sub (c_str key)) (c_str value) data.stored })
    := by
  have hk := entry_hasKey _ _ _ _ he
  simp [check_type_ok machine key value type s v he ht, set_data_run machine key value _ s hk]

theorem update_run_error (machine : HKEY) (key value : String) (data : Data) (type : Nat)
    (s : Sys) (e : Exception)
    (h : _check_type machine key value type s = (Except.error e, s)) :
    (_check_type machine key value type >>= fun _ => update._set_data machine key value data) s
      = (Except.error e, s) := by
  simp [h]

theorem check_type_absent_key (r : Root) (key value : String) (type : Nat) (s : Sys)
    (h : s.reg.hasKey ((HKEY.predefined r).sub (c_str key)) = false) :
    ∃ msg, _check_type (HKEY.predefined r) key value type s
      = (Except.error (Exception.key_not_found msg), s) := by
  obtain ⟨msg, hm⟩ := check_key_absent r key s h
  exact ⟨msg, by simp [_check_type, hm]⟩

theorem check_type_absent_value (r : Root) (key value : String) (type : Nat) (s : Sys)
    (hk : s.reg.hasKey ((HKEY.predefined r).sub (c_str key)) = true)
    (h : s.reg.entry ((HKEY.predefined r).sub (c_str key)) (c_str value) = none) :
    ∃ msg, _check_type (HKEY.predefined r) key value type s
      = (Except.error (Exception.value_not_found msg), s) := by
  obtain ⟨msg, hm⟩ := check_value_absent r key value s h
  exact ⟨msg, by simp [_check_type, check_key_ok _ key s hk, hm]⟩

/-- C18: update never creates and never retypes, on a predefined root.  Both
writers raise `key_not_found` when the node is absent, `value_not_found` when
the node exists without the entry, and `type_error` when the entry's declared
type (one of the closed set, tags 0 to 11) is not the writer's type; in each of
these cases the state is left as it was.  When the entry has the writer's type
the call returns and the entry keeps its declared type; and whenever a writer
returns, the entry existed before and has the same declared type afterwards. -/
theorem update_never_creates_or_retypes (r : Root) (key value : String) (s : Sys) :
    (s.reg.hasKey ((HKEY.predefined r).sub (c_str key)) = false →
      (∀ d : Nat, ∃ msg, update.number (HKEY.predefined r) key value d s
        = (Except.error (Exception.key_not_found msg), s)) ∧
      (∀ d : String, ∃ msg, update.string (HKEY.predefined r) key value d s
        = (Except.error (Exception.key_not_found msg), s))) ∧
    (s.reg.hasKey ((HKEY.predefined r).sub (c_str key)) = true →
      s.reg.entry ((HKEY.predefined r).sub (c_str key)) (c_str value) = none →
      (∀ d : Nat, ∃ msg, update.number (HKEY.predefined r) key value d s
        = (Except.error (Exception.value_not_found msg), s)) ∧
      (∀ d : String, ∃ msg, update.string (HKEY.predefined r) key value d s
        = (Except.error (Exception.value_not_found msg), s))) ∧
    (∀ v : RegValue, s.reg.entry ((HKEY.predefined r).sub (c_str key)) (c_str value) = some v →
      v.type ≤ 11 →
      (v.type ≠ REG_DWORD → ∀ d : Nat, ∃ msg, update.number (HKEY.predefined r) key value d s
        = (Except.error (Exception.type_error msg), s)) ∧
      (v.type ≠ REG_SZ → ∀ d : String, ∃ msg, update.string (HKEY.predefined r) key value d s
        = (Except.error (Exception.type_error msg), s))) ∧
    (∀ v : RegValue, s.reg.entry ((HKEY.predefined r).sub (c_str key)) (c_str value) = some v →
      (v.type = REG_DWORD → ∀ d : Nat, ∃ s1 w,
        update.number (HKEY.predefined r) key value d s = (Except.ok (), s1) ∧
        s1.reg.entry ((HKEY.predefined r).sub (c_str key)) (c_str value) = some w ∧
        w.type = v.type) ∧
      (v.type = REG_SZ → ∀ d : String, ∃ s1 w,
        update.string (HKEY.predefined r) key value d s = (Except.ok (), s1) ∧
        s1.reg.entry ((HKEY.predefined r).sub (c_str key)) (c_str value) = some w ∧
        w.type = v.type)) ∧
    (∀ (d : Nat) (s1 : Sys),
      update.number (HKEY.predefined r) key value d s = (Except.ok (), s1) →
      ∃ v w, s.reg.entry ((HKEY.predefined r).sub (c_str key)) (c_str value) = some v ∧
        s1.reg.entry ((HKEY.predefined r).sub (c_str key)) (c_str value) = some w ∧
        w.type = v.type) ∧
    (∀ (d : String) (s1 : Sys),
      update.string (HKEY.predefined r) key value d s = (Except.ok (), s1) →
      ∃ v w, s.reg.entry ((HKEY.predefined r).sub (c_str key)) (c_str value) = some v ∧
        s1.reg.entry ((HKEY.predefined r).sub (c_str key)) (c_str value) = some w ∧
        w.type = v.type) := by
  have hok : ∀ (data : Data) (type : Nat) (v : RegValue),
      s.reg.entry ((HKEY.predefined r).sub (c_str key)) (c_str value) = some v →
      v.type = type → data.stored.type = type →
      ∃ s1 w, (_check_type (HKEY.predefined r) key value type >>= fun _ =>
          update._set_data (HKEY.predefined r) key value data) s = (Except.ok (), s1) ∧
        s1.reg.entry ((HKEY.predefined r).sub (c_str key)) (c_str value) = some w ∧
        w.type = v.type := by
    intro data type v he ht hd
    exact ⟨_, _, update_run_ok _ key value data type s v he ht,
      entry_setValue_same s.reg _ _ _ (entry_hasKey _ _ _ _ he), by rw [hd, ht]⟩
  have hinv : ∀ (data : Data) (type : Nat) (s1 : Sys), data.stored.type = type →
      (_check_type (HKEY.predefined r) key value type >>= fun _ =>
          update._set_data (HKEY.predefined r) key value data) s = (Except.ok (), s1) →
      ∃ v w, s.reg.entry ((HKEY.predefined r).sub (c_str key)) (c_str value) = some v ∧
        s1.reg.entry ((HKEY.predefined r).sub (c_str key)) (c_str value) = some w ∧
        w.type = v.type := by
    intro data type s1 hd h
    rw [run_bind] at h
    rcases hc : _check_type (HKEY.predefined r) key value type s with ⟨res, s2⟩
    rw [hc] at h
    cases res with
    | error e => exact absurd (Prod.mk.inj h).1 (by simp)
    | ok u =>
      obtain ⟨v, he, ht⟩ := check_type_ok_inv _ key value type s s2 hc
      obtain ⟨s3, w, hrun, hw, hwt⟩ := hok data type v he ht hd
      rw [run_bind, hc] at hrun
      simp only at h hrun
      rw [h] at hrun
      obtain ⟨_, hs⟩ := Prod.mk.inj hrun
      subst hs
      exact ⟨v, w, he, hw, hwt⟩
  refine ⟨?_, ?_, ?_, ?_, ?_, ?_⟩
  · intro hk
    constructor
    · intro d
      obtain ⟨msg, hm⟩ := check_type_absent_key r key value REG_DWORD s hk
      exact ⟨msg, update_run_error _ key value _ _ s _ hm⟩
    · intro d
      obtain ⟨msg, hm⟩ := check_type_absent_key r key value REG_SZ s hk
      exact ⟨msg, update_run_error _ key value _ _ s _ hm⟩
  · intro hk he
    constructor
    · intro d
      obtain ⟨msg, hm⟩ := check_type_absent_value r key value REG_DWORD s hk he
      exact ⟨msg, update_run_error _ key value _ _ s _ hm⟩
    · intro d
      obtain ⟨msg, hm⟩ := check_type_absent_value r key value REG_SZ s hk he
      exact ⟨msg, update_run_error _ key value _ _ s _ hm⟩
  · intro v he hv
    constructor
    · intro hne d
      obtain ⟨msg, hm⟩ := check_type_mismatch r key value REG_DWORD s v he hne (by decide) hv
      exact ⟨msg, update_run_error _ key value _ _ s _ hm⟩
    · intro hne d
      obtain ⟨msg, hm⟩ := check_type_mismatch r key value REG_SZ s v he hne (by decide) hv
      exact ⟨msg, update_run_error _ key value _ _ s _ hm⟩
  · intro v he
    exact ⟨fun ht d => hok (Data.DWORD d) REG_DWORD v he ht rfl,
      fun ht d => hok (Data.string_view d) REG_SZ v he ht rfl⟩
  · intro d s1 h
    exact hinv (Data.DWORD d) REG_DWORD s1 rfl h
  · intro d s1 h
    exact hinv (Data.string_view d) REG_SZ s1 rfl h

/-- Witness for C18 on the sample store: an absent node, an absent entry, an
entry of the other type, and a successful write that keeps the type. -/
theorem update_never_creates_or_retypes_witness :
    (∃ msg, update.number HKEY_CURRENT_USER "Missing" "MyNumber" 7 sampleStore
      = (Except.error (Exception.key_not_found msg), sampleStore)) ∧
    (∃ msg, update.string HKEY_CURRENT_USER "TestKey" "Absent" "x" sampleStore
      = (Except.error (Exception.value_not_found msg), sampleStore)) ∧
    (∃ msg, update.number HKEY_CURRENT_USER "TestKey" "MyString" 7 sampleStore
      = (Except.error (Exception.type_error msg), sampleStore)) ∧
    (∃ s1 w, update.number HKEY_CURRENT_USER "TestKey" "MyNumber" 7 sampleStore
        = (Except.ok (), s1) ∧
      s1.reg.entry (HKEY_CURRENT_USER.sub (c_str "TestKey")) (c_str "MyNumber") = some w ∧
      w.type = REG_DWORD) :=
  ⟨((update_never_creates_or_retypes Root.CURRENT_USER "Missing" "MyNumber" sampleStore).1
      (by decide)).1 7,
    ((update_never_creates_or_retypes Root.CURRENT_USER "TestKey" "Absent" sampleStore).2.1
      (by decide) (by decide)).2 "x",
    ((update_never_creates_or_retypes Root.CURRENT_USER "TestKey" "MyString" sampleStore).2.2.1
      (RegValue.mk REG_SZ [49, 50, 51, 0]) (by decide) (by decide)).1 (by decide) 7,
    ((update_never_creates_or_retypes Root.CURRENT_USER "TestKey" "MyNumber" sampleStore).2.2.2.1
      (RegValue.mk REG_DWORD [123, 0, 0, 0]) (by decide)).1 (by decide) 7⟩

/-! ## Running the removals of one node or one entry -/

theorem remove_key_run_refused (machine : HKEY) (key : String) (s : Sys)
    (h : s.reg.hasKey (machine.sub (c_str key)) = true)
    (hc : s.reg.keys.any (fun k => (machine.sub (c_str key)).below k) = true) :
    remove.key machine key s =
      (Except.error (Exception.runtime_error ERROR_ACCESS_DENIED), s) := by
  by_cases hl : (machine.sub (c_str key)).2 = []
  · exact remove_key_run_root machine key s hl
  · unfold remove.key
    simp only [run_bind, key_exists_run, h, if_true]
    unfold remove._remove_key
    simp only [run_bind, open_run_ok machine key _ s h, with_handle_run]
    simp [remove._remove_key_h, RegDeleteKeyEx, sub_empty, hl, h, hc, assert.success,
      ERROR_SUCCESS, ERROR_ACCESS_DENIED]

theorem child_below (l : Loc) (n : String) : l.below (l.1, l.2 ++ [n]) = true := by
  rw [Loc.below_iff]
  exact ⟨rfl, List.prefix_append _ _, by simp⟩

theorem remove_value_run_absent (machine : HKEY) (key value : String) (s : Sys)
    (h : s.reg.entry (machine.sub (c_str key)) (c_str value) = none) :
    remove.value machine key value s = (Except.ok false, s) := by
  unfold remove.value
  cases hk : s.reg.hasKey (machine.sub (c_str key)) <;>
    simp [key_exists_run, value_exists_run, h, hk]

theorem remove_value_run_present (machine : HKEY) (key value : String) (s : Sys)
    (h : (s.reg.entry (machine.sub (c_str key)) (c_str value)).isSome = true) :
    remove.value machine key value s =
      (Except.ok true,
        { s with reg := s.reg.deleteValue (machine.sub (c_str key)) (c_str value) }) := by
  obtain ⟨v, hv⟩ := Option.isSome_iff_exists.1 h
  have hk := entry_hasKey _ _ _ _ hv
  unfold remove.value
  simp only [run_bind, key_exists_run, value_exists_run, hk, h, if_true]
  unfold remove._remove_value
  simp only [run_bind, open_run_ok machine key _ s hk, with_handle_run]
  simp [remove._remove_value_h, RegDeleteValue, loc_openedAt, h, assert.success, ERROR_SUCCESS]

theorem hasKey_deleteValue (g : Registry) (l k : Loc) (n : String) :
    (g.deleteValue l n).hasKey k = g.hasKey k := rfl

theorem entry_deleteValue_same (g : Registry) (l : Loc) (n : String) :
    (g.deleteValue l n).entry l n = none := by
  simp only [Registry.entry, Registry.getValue, Registry.deleteValue]
  rw [lookupEntry_filter_none (l, n) _ (fun e he => by simp [he])]
  simp

theorem entry_deleteValue_other (g : Registry) (l k : Loc) (n m : String)
    (h : (k, m) ≠ (l, n)) : (g.deleteValue l n).entry k m = g.entry k m := by
  simp only [Registry.entry, Registry.getValue, hasKey_deleteValue]
  congr 1
  exact lookupEntry_filter (k, m) _ g.values (fun e _ he => by simp [he, h])

/-! ## Removing one entry or one node (C13, C14, C15) -/

/-- C15: `remove::value` returns and its result is true exactly when the entry
exists on an existing node before the call.  When it is true the store
afterwards is the store without that entry: `value_exists` is false, every
other entry (of this node or another) reads as before and the nodes are those
of before.  When it is false the state is unchanged. -/
theorem remove_value_contract (machine : HKEY) (key value : String) (s : Sys) :
    ∃ s1, remove.value machine key value s
        = (Except.ok (s.reg.entry (machine.sub (c_str key)) (c_str value)).isSome, s1) ∧
      ((s.reg.entry (machine.sub (c_str key)) (c_str value)).isSome = true ↔
        s.reg.hasKey (machine.sub (c_str key)) = true ∧
        (s.reg.getValue (machine.sub (c_str key)) (c_str value)).isSome = true) ∧
      ((s.reg.entry (machine.sub (c_str key)) (c_str value)).isSome = true →
        value_exists machine key value s1 = (Except.ok false, s1) ∧
        (∀ (k : Loc) (m : String), (k, m) ≠ (machine.sub (c_str key), c_str value) →
          s1.reg.entry k m = s.reg.entry k m) ∧
        s1.reg.keys = s.reg.keys ∧ s1.handles = s.handles) ∧
      ((s.reg.entry (machine.sub (c_str key)) (c_str value)).isSome = false → s1 = s) := by
  have hiff : (s.reg.entry (machine.sub (c_str key)) (c_str value)).isSome = true ↔
      s.reg.hasKey (machine.sub (c_str key)) = true ∧
      (s.reg.getValue (machine.sub (c_str key)) (c_str value)).isSome = true := by
    unfold Registry.entry
    cases hk : s.reg.hasKey (machine.sub (c_str key)) <;> simp
  cases h : (s.reg.entry (machine.sub (c_str key)) (c_str value)).isSome with
  | false =>
    refine ⟨s, remove_value_run_absent machine key value s (by simpa using h), ?_, ?_, ?_⟩
    · rw [← hiff, h]
    · intro hf
      exact absurd hf (by simp)
    · intro _
      rfl
  | true =>
    refine ⟨_, remove_value_run_present machine key value s h, ?_, ?_, ?_⟩
    · rw [← hiff, h]
    · intro _
      refine ⟨?_, ?_, rfl, rfl⟩
      · rw [value_exists_run]
        simp [entry_deleteValue_same]
      · intro k m hkm
        exact entry_deleteValue_other s.reg _ k _ m hkm
    · intro hf
      exact absurd hf (by simp)

/-- Witness for C15 on the sample store: removing `TestKey\MyNumber` returns
true, the entry is gone and `TestKey\MyString` reads as before. -/
theorem remove_value_contract_witness :
    ∃ s1, remove.value HKEY_CURRENT_USER "TestKey" "MyNumber" sampleStore = (Except.ok true, s1) ∧
      value_exists HKEY_CURRENT_USER "TestKey" "MyNumber" s1 = (Except.ok false, s1) ∧
      s1.reg.entry (Root.CURRENT_USER, ["TestKey"]) "MyString"
        = some (RegValue.mk REG_SZ [49, 50, 51, 0]) := by
  obtain ⟨s1, hrun, _, hpos, _⟩ :=
    remove_value_contract HKEY_CURRENT_USER "TestKey" "MyNumber" sampleStore
  have hs : (sampleStore.reg.entry (HKEY_CURRENT_USER.sub (c_str "TestKey"))
      (c_str "MyNumber")).isSome = true := by decide
  obtain ⟨hve, hother, _, _⟩ := hpos hs
  refine ⟨s1, ?_, hve, ?_⟩
  · rw [hrun, hs]
  · rw [hother (Root.CURRENT_USER, ["TestKey"]) "MyString" (by decide)]
    decide

/-- C14: on an existing node that still has a child node, `remove::key` does
not return: it raises the `runtime_error` built from the native delete's
non-success code, and the state is unchanged. -/
theorem remove_key_with_child_fails (machine : HKEY) (key : String) (s : Sys) (n : String)
    (h : s.reg.hasKey (machine.sub (c_str key)) = true)
    (hc : ((machine.sub (c_str key)).1, (machine.sub (c_str key)).2 ++ [n]) ∈ s.reg.keys) :
    remove.key machine key s
        = (Except.error (Exception.runtime_error ERROR_ACCESS_DENIED), s) ∧
      ERROR_ACCESS_DENIED ≠ ERROR_SUCCESS ∧
      (∀ b s1, remove.key machine key s ≠ (Except.ok b, s1)) := by
  have hrun := remove_key_run_refused machine key s h
    (List.any_eq_true.2 ⟨_, hc, child_below _ n⟩)
  refine ⟨hrun, by decide, ?_⟩
  intro b s1 he
  rw [hrun] at he
  exact absurd (Prod.mk.inj he).1 (by simp)

/-- Witness for C14: `TestKey` of the sample store has the child `Level1`. -/
theorem remove_key_with_child_fails_witness :
    remove.key HKEY_CURRENT_USER "TestKey" sampleStore
      = (Except.error (Exception.runtime_error ERROR_ACCESS_DENIED), sampleStore) :=
  (remove_key_with_child_fails HKEY_CURRENT_USER "TestKey" sampleStore "Level1"
    (by decide) (by decide)).1

theorem key_info_h_run_ok (handle : HKEY) (s : Sys) (h : s.reg.hasKey handle.loc = true) :
    query.key_info_h handle s =
      (Except.ok ((s.reg.subkeyNames handle.loc).length,
        (maxLen (s.reg.subkeyNames handle.loc) + 1) % DWORD_MOD,
        (s.reg.valueNames handle.loc).length,
        (maxLen (s.reg.valueNames handle.loc) + 1) % DWORD_MOD), s) := by
  unfold query.key_info_h RegQueryInfoKey
  simp [h, assert.success, ERROR_SUCCESS]

theorem key_info_h_run_stale (handle : HKEY) (s : Sys) (h : s.reg.hasKey handle.loc = false) :
    query.key_info_h handle s
      = (Except.error (Exception.runtime_error ERROR_FILE_NOT_FOUND), s) := by
  unfold query.key_info_h RegQueryInfoKey
  simp [h, assert.success, ERROR_SUCCESS, ERROR_FILE_NOT_FOUND]

theorem key_info_run (machine : HKEY) (key : String) (s : Sys)
    (h : s.reg.hasKey (machine.sub (c_str key)) = true) :
    query.key_info machine key s =
      (Except.ok ((s.reg.subkeyNames (machine.sub (c_str key))).length,
        (maxLen (s.reg.subkeyNames (machine.sub (c_str key))) + 1) % DWORD_MOD,
        (s.reg.valueNames (machine.sub (c_str key))).length,
        (maxLen (s.reg.valueNames (machine.sub (c_str key))) + 1) % DWORD_MOD), s) := by
  unfold query.key_info
  simp only [run_bind, check_key_ok machine key s h, open_run_ok machine key _ s h,
    with_handle_run]
  rw [key_info_h_run_ok _ _ (by simpa [loc_openedAt] using h)]
  simp [loc_openedAt]

theorem le_maxLen (names : List String) (n : String) (h : n ∈ names) :
    n.length ≤ maxLen names := by
  induction names with
  | nil => simp at h
  | cons a as ih =>
    simp only [maxLen, List.foldr_cons] at ih ⊢
    rcases List.mem_cons.1 h with h | h
    · subst h
      exact le_max_left _ _
    · exact le_trans (ih h) (le_max_right _ _)

theorem enumAt_fits (names : List String) (i : Nat) (buffer : List Char) (cap : Nat)
    (n : String) (hn : names.get? i = some n) (hfit : n.length < cap) :
    enumAt names i buffer cap
      = (ERROR_SUCCESS, overlay buffer (n.data ++ [NUL]), n.length) := by
  unfold enumAt
  rw [hn]
  simp [hfit]

theorem take_overlay (buffer : List Char) (n : String) :
    String.mk ((overlay buffer (n.data ++ [NUL])).take n.length) = n := by
  have h : (overlay buffer (n.data ++ [NUL])).take n.length = n.data := by
    unfold overlay
    rw [List.append_assoc, ← String.length_data n, List.take_left]
  rw [h]

/-- The loop on a live handle whose buffer holds every name: from index `i` on
it appends the remaining names in order and ends with "no more items". -/
theorem keys_loop_run (handle : HKEY) (cap : Nat) (s : Sys)
    (hk : s.reg.hasKey handle.loc = true)
    (hfit : ∀ n ∈ s.reg.subkeyNames handle.loc, n.length < cap) :
    ∀ (budget i : Nat) (buffer : List Char) (acc : List String),
      i ≤ (s.reg.subkeyNames handle.loc).length →
      (s.reg.subkeyNames handle.loc).length < i + budget →
      query.keys_loop handle cap budget i buffer acc s
        = (Except.ok (ERROR_NO_MORE_ITEMS, acc ++ (s.reg.subkeyNames handle.loc).drop i), s)
  | 0, i, _, acc => by
    intro hi hb
    exfalso
    omega
  | budget + 1, i, buffer, acc => by
    intro hi hb
    unfold query.keys_loop
    rw [run_bind]
    unfold RegEnumKeyEx
    simp only [hk, if_true]
    cases hg : (s.reg.subkeyNames handle.loc).get? i with
    | none =>
      have hlen : (s.reg.subkeyNames handle.loc).length ≤ i := List.get?_eq_none.1 hg
      unfold enumAt
      rw [hg]
      simp [List.drop_eq_nil_of_le hlen]
    | some n =>
      have hmem : n ∈ s.reg.subkeyNames handle.loc := List.get?_mem hg
      rw [enumAt_fits _ i buffer cap n hg (hfit n hmem)]
      have h1 : ERROR_SUCCESS ≠ ERROR_NO_MORE_ITEMS := by decide
      simp only [h1, if_false, if_true, take_overlay]
      have hlt : i < (s.reg.subkeyNames handle.loc).length := (List.get?_eq_some.1 hg).1
      rw [keys_loop_run handle cap s hk hfit budget (i + 1) _ (acc ++ [n]) (by omega) (by omega)]
      have hd : (s.reg.subkeyNames handle.loc).drop i
          = n :: (s.reg.subkeyNames handle.loc).drop (i + 1) := by
        rw [List.drop_eq_getElem_cons hlt]
        congr 1
        have := (List.get?_eq_some.1 hg).2
        simpa using this
      rw [hd]
      simp

/-- The loop on a live handle, whatever the buffer size: it ends with "no more
items" and the remaining names, or with "more data" at a name that does not
fit; the iterations granted by `keys_h` are never used up. -/
theorem keys_loop_live (handle : HKEY) (cap : Nat) (s : Sys)
    (hk : s.reg.hasKey handle.loc = true) :
    ∀ (budget i : Nat) (buffer : List Char) (acc : List String),
      i ≤ (s.reg.subkeyNames handle.loc).length →
      (s.reg.subkeyNames handle.loc).length < i + budget →
      ∃ code names, query.keys_loop handle cap budget i buffer acc s
          = (Except.ok (code, names), s) ∧
        ((code = ERROR_NO_MORE_ITEMS ∧ names = acc ++ (s.reg.subkeyNames handle.loc).drop i) ∨
          code = ERROR_MORE_DATA)
  | 0, i, _, acc => by
    intro hi hb
    exfalso
    omega
  | budget + 1, i, buffer, acc => by
    intro hi hb
    unfold query.keys_loop
    rw [run_bind]
    unfold RegEnumKeyEx
    simp only [hk, if_true]
    cases hg : (s.reg.subkeyNames handle.loc).get? i with
    | none =>
      have hlen : (s.reg.subkeyNames handle.loc).length ≤ i := List.get?_eq_none.1 hg
      refine ⟨ERROR_NO_MORE_ITEMS, acc, ?_, Or.inl ⟨rfl, by simp [List.drop_eq_nil_of_le hlen]⟩⟩
      unfold enumAt
      rw [hg]
      simp
    | some n =>
      have hlt : i < (s.reg.subkeyNames handle.loc).length := (List.get?_eq_some.1 hg).1
      by_cases hfit : n.length < cap
      · rw [enumAt_fits _ i buffer cap n hg hfit]
        have h1 : ERROR_SUCCESS ≠ ERROR_NO_MORE_ITEMS := by decide
        simp only [h1, if_false, if_true, take_overlay]
        obtain ⟨code, names, hrun, hres⟩ :=
          keys_loop_live handle cap s hk budget (i + 1) (overlay buffer (n.data ++ [NUL]))
            (acc ++ [n]) (by omega) (by omega)
        refine ⟨code, names, hrun, ?_⟩
        rcases hres with ⟨hc, hn⟩ | hc
        · refine Or.inl ⟨hc, ?_⟩
          have hd : (s.reg.subkeyNames handle.loc).drop i
              = n :: (s.reg.subkeyNames handle.loc).drop (i + 1) := by
            rw [List.drop_eq_getElem_cons hlt]
            congr 1
            have := (List.get?_eq_some.1 hg).2
            simpa using this
          rw [hn, hd]
          simp
        · exact Or.inr hc
      · refine ⟨ERROR_MORE_DATA, acc ++ [String.mk (buffer.take cap)], ?_, Or.inr rfl⟩
        unfold enumAt
        rw [hg]
        simp [hfit, ERROR_MORE_DATA, ERROR_NO_MORE_ITEMS, ERROR_SUCCESS]

theorem keys_h_run (handle : HKEY) (s : Sys) (hk : s.reg.hasKey handle.loc = true)
    (hfit : maxLen (s.reg.subkeyNames handle.loc) + 1 < DWORD_MOD) :
    query.keys_h handle s = (Except.ok (s.reg.subkeyNames handle.loc), s) := by
  unfold query.keys_h
  rw [run_bind, key_info_h_run_ok handle s hk]
  simp only [run_bind]
  rw [keys_loop_run handle _ s hk ?_ _ 0 _ [] (Nat.zero_le _) (by omega)]
  · simp [assert.equal]
  · intro n hn
    rw [Nat.mod_eq_of_lt hfit]
    exact Nat.lt_succ_of_le (le_maxLen _ n hn)

/-- Whatever the handle and the store, `keys_h` either returns the complete
list of names or raises; it never returns a shorter or longer list. -/
theorem keys_h_cases (handle : HKEY) (s : Sys) :
    query.keys_h handle s = (Except.ok (s.reg.subkeyNames handle.loc), s) ∨
    query.keys_h handle s = (Except.error (Exception.runtime_error ERROR_MORE_DATA), s) ∨
    query.keys_h handle s = (Except.error (Exception.runtime_error ERROR_FILE_NOT_FOUND), s)
    := by
  by_cases hk : s.reg.hasKey handle.loc = true
  · unfold query.keys_h
    rw [run_bind, key_info_h_run_ok handle s hk]
    simp only [run_bind]
    obtain ⟨code, names, hrun, hres⟩ :=
      keys_loop_live handle ((maxLen (s.reg.subkeyNames handle.loc) + 1) % DWORD_MOD) s hk
        ((s.reg.subkeyNames handle.loc).length + 1) 0
        (List.replicate ((maxLen (s.reg.subkeyNames handle.loc) + 1) % DWORD_MOD) NUL) []
        (Nat.zero_le _) (by omega)
    rw [hrun]
    rcases hres with ⟨hc, hn⟩ | hc
    · left
      subst hc hn
      simp [assert.equal]
    · right
      left
      subst hc
      simp [assert.equal, ERROR_MORE_DATA, ERROR_NO_MORE_ITEMS]
  · right
    right
    unfold query.keys_h
    rw [run_bind, key_info_h_run_stale handle s (by simpa using hk)]

theorem keys_run (machine : HKEY) (key : String) (s : Sys)
    (h : s.reg.hasKey (machine.sub (c_str key)) = true)
    (hfit : maxLen (s.reg.subkeyNames (machine.sub (c_str key))) + 1 < DWORD_MOD) :
    query.keys machine key s = (Except.ok (s.reg.subkeyNames (machine.sub (c_str key))), s) := by
  unfold query.keys
  simp only [run_bind, check_key_ok machine key s h, open_run_ok machine key _ s h,
    with_handle_run]
  rw [keys_h_run _ _ (by simpa [loc_openedAt] using h) (by simpa [loc_openedAt] using hfit)]
  simp [loc_openedAt]

/-- The entry loop on a live handle whose buffer holds every name: from index `i` on
it appends the remaining names in order and ends with "no more items". -/
theorem value_names_loop_run (handle : HKEY) (cap : Nat) (s : Sys)
    (hk : s.reg.hasKey handle.loc = true)
    (hfit : ∀ n ∈ s.reg.valueNames handle.loc, n.length < cap) :
    ∀ (budget i : Nat) (buffer : List Char) (acc : List String),
      i ≤ (s.reg.valueNames handle.loc).length →
      (s.reg.valueNames handle.loc).length < i + budget →
      query.value_names_loop handle cap budget i buffer acc s
        = (Except.ok (ERROR_NO_MORE_ITEMS, acc ++ (s.reg.valueNames handle.loc).drop i), s)
  | 0, i, _, acc => by
    intro hi hb
    exfalso
    omega
  | budget + 1, i, buffer, acc => by
    intro hi hb
    unfold query.value_names_loop
    rw [run_bind]
    unfold RegEnumValue
    simp only [hk, if_true]
    cases hg : (s.reg.valueNames handle.loc).get? i with
    | none =>
      have hlen : (s.reg.valueNames handle.loc).length ≤ i := List.get?_eq_none.1 hg
      unfold enumAt
      rw [hg]
      simp [List.drop_eq_nil_of_le hlen]
    | some n =>
      have hmem : n ∈ s.reg.valueNames handle.loc := List.get?_mem hg
      rw [enumAt_fits _ i buffer cap n hg (hfit n hmem)]
      have h1 : ERROR_SUCCESS ≠ ERROR_NO_MORE_ITEMS := by decide
      simp only [h1, if_false, if_true, take_overlay]
      have hlt : i < (s.reg.valueNames handle.loc).length := (List.get?_eq_some.1 hg).1
      rw [value_names_loop_run handle cap s hk hfit budget (i + 1) _ (acc ++ [n]) (by omega) (by omega)]
      have hd : (s.reg.valueNames handle.loc).drop i
          = n :: (s.reg.valueNames handle.loc).drop (i + 1) := by
        rw [List.drop_eq_getElem_cons hlt]
        congr 1
        have := (List.get?_eq_some.1 hg).2
        simpa using this
      rw [hd]
      simp

/-- The entry loop on a live handle, whatever the buffer size: it ends with "no more
items" and the remaining names, or with "more data" at a name that does not
fit; the iterations granted by `value_names_h` are never used up. -/
theorem value_names_loop_live (handle : HKEY) (cap : Nat) (s : Sys)
    (hk : s.reg.hasKey handle.loc = true) :
    ∀ (budget i : Nat) (buffer : List Char) (acc : List String),
      i ≤ (s.reg.valueNames handle.loc).length →
      (s.reg.valueNames handle.loc).length < i + budget →
      ∃ code names, query.value_names_loop handle cap budget i buffer acc s
          = (Except.ok (code, names), s) ∧
        ((code = ERROR_NO_MORE_ITEMS ∧ names = acc ++ (s.reg.valueNames handle.loc).drop i) ∨
          code = ERROR_MORE_DATA)
  | 0, i, _, acc => by
    intro hi hb
    exfalso
    omega
  | budget + 1, i, buffer, acc => by
    intro hi hb
    unfold query.value_names_loop
    rw [run_bind]
    unfold RegEnumValue
    simp only [hk, if_true]
    cases hg : (s.reg.valueNames handle.loc).get? i with
    | none =>
      have hlen : (s.reg.valueNames handle.loc).length ≤ i := List.get?_eq_none.1 hg
      refine ⟨ERROR_NO_MORE_ITEMS, acc, ?_, Or.inl ⟨rfl, by simp [List.drop_eq_nil_of_le hlen]⟩⟩
      unfold enumAt
      rw [hg]
      simp
    | some n =>
      have hlt : i < (s.reg.valueNames handle.loc).length := (List.get?_eq_some.1 hg).1
      by_cases hfit : n.length < cap
      · rw [enumAt_fits _ i buffer cap n hg hfit]
        have h1 : ERROR_SUCCESS ≠ ERROR_NO_MORE_ITEMS := by decide
        simp only [h1, if_false, if_true, take_overlay]
        obtain ⟨code, names, hrun, hres⟩ :=
          value_names_loop_live handle cap s hk budget (i + 1) (overlay buffer (n.data ++ [NUL]))
            (acc ++ [n]) (by omega) (by omega)
        refine ⟨code, names, hrun, ?_⟩
        rcases hres with ⟨hc, hn⟩ | hc
        · refine Or.inl ⟨hc, ?_⟩
          have hd : (s.reg.valueNames handle.loc).drop i
              = n :: (s.reg.valueNames handle.loc).drop (i + 1) := by
            rw [List.drop_eq_getElem_cons hlt]
            congr 1
            have := (List.get?_eq_some.1 hg).2
            simpa using this
          rw [hn, hd]
          simp
        · exact Or.inr hc
      · refine ⟨ERROR_MORE_DATA, acc ++ [String.mk (buffer.take cap)], ?_, Or.inr rfl⟩
        unfold enumAt
        rw [hg]
        simp [hfit, ERROR_MORE_DATA, ERROR_NO_MORE_ITEMS, ERROR_SUCCESS]

theorem value_names_h_run (handle : HKEY) (s : Sys) (hk : s.reg.hasKey handle.loc = true)
    (hfit : maxLen (s.reg.valueNames handle.loc) + 1 < DWORD_MOD) :
    query.value_names_h handle s = (Except.ok (s.reg.valueNames handle.loc), s) := by
  unfold query.value_names_h
  rw [run_bind, key_info_h_run_ok handle s hk]
  simp only [run_bind]
  rw [value_names_loop_run handle _ s hk ?_ _ 0 _ [] (Nat.zero_le _) (by omega)]
  · simp [assert.equal]
  · intro n hn
    rw [Nat.mod_eq_of_lt hfit]
    exact Nat.lt_succ_of_le (le_maxLen _ n hn)

/-- Whatever the handle and the store, `value_names_h` either returns the complete
list of names or raises; it never returns a shorter or longer list. -/
theorem value_names_h_cases (handle : HKEY) (s : Sys) :
    query.value_names_h handle s = (Except.ok (s.reg.valueNames handle.loc), s) ∨
    query.value_names_h handle s = (Except.error (Exception.runtime_error ERROR_MORE_DATA), s) ∨
    query.value_names_h handle s = (Except.error (Exception.runtime_error ERROR_FILE_NOT_FOUND), s)
    := by
  by_cases hk : s.reg.hasKey handle.loc = true
  · unfold query.value_names_h
    rw [run_bind, key_info_h_run_ok handle s hk]
    simp only [run_bind]
    obtain ⟨code, names, hrun, hres⟩ :=
      value_names_loop_live handle ((maxLen (s.reg.valueNames handle.loc) + 1) % DWORD_MOD) s hk
        ((s.reg.valueNames handle.loc).length + 1) 0
        (List.replicate ((maxLen (s.reg.valueNames handle.loc) + 1) % DWORD_MOD) NUL) []
        (Nat.zero_le _) (by omega)
    rw [hrun]
    rcases hres with ⟨hc, hn⟩ | hc
    · left
      subst hc hn
      simp [assert.equal]
    · right
      left
      subst hc
      simp [assert.equal, ERROR_MORE_DATA, ERROR_NO_MORE_ITEMS]
  · right
    right
    unfold query.value_names_h
    rw [run_bind, key_info_h_run_stale handle s (by simpa using hk)]

theorem value_names_run (machine : HKEY) (key : String) (s : Sys)
    (h : s.reg.hasKey (machine.sub (c_str key)) = true)
    (hfit : maxLen (s.reg.valueNames (machine.sub (c_str key))) + 1 < DWORD_MOD) :
    query.value_names machine key s = (Except.ok (s.reg.valueNames (machine.sub (c_str key))), s) := by
  unfold query.value_names
  simp only [run_bind, check_key_ok machine key s h, open_run_ok machine key _ s h,
    with_handle_run]
  rw [value_names_h_run _ _ (by simpa [loc_openedAt] using h) (by simpa [loc_openedAt] using hfit)]
  simp [loc_openedAt]

/-! ## Counting (C19) -/

theorem length_filterMap_countP {α β : Type} (f : α → Option β) (p : α → Bool)
    (hp : ∀ a, (f a).isSome = p a) :
    ∀ l : List α, (l.filterMap f).length = l.countP p
  | [] => rfl
  | a :: l => by
    have ih := length_filterMap_countP f p hp l
    have ha := hp a
    cases hf : f a with
    | none =>
      rw [hf] at ha
      simp [List.filterMap_cons, hf, List.countP_cons, ← ha, ih]
    | some b =>
      rw [hf] at ha
      simp [List.filterMap_cons, hf, List.countP_cons, ← ha, ih]

theorem subkeyNames_length (g : Registry) (l : Loc) :
    (g.subkeyNames l).length
      = g.keys.countP (fun k => decide (k.1 = l.1 ∧ k.2 ≠ [] ∧ k.2.dropLast = l.2)) := by
  unfold Registry.subkeyNames
  apply length_filterMap_countP
  intro k
  by_cases h : k.1 = l.1 ∧ k.2.dropLast = l.2
  · by_cases h2 : k.2 = []
    · simp [h, h2]
    · have : k.2.getLast?.isSome = true := List.getLast?_isSome.2 h2
      simp [h, h2, this]
  · have : ¬ (k.1 = l.1 ∧ k.2 ≠ [] ∧ k.2.dropLast = l.2) := fun hh => h ⟨hh.1, hh.2.2⟩
    simp [h, this]

theorem valueNames_length (g : Registry) (l : Loc) :
    (g.valueNames l).length = g.values.countP (fun e => decide (e.1.1 = l)) := by
  unfold Registry.valueNames
  apply length_filterMap_countP
  intro e
  by_cases h : e.1.1 = l <;> simp [h]

theorem maxLen_attained (names : List String) (h : names ≠ []) :
    ∃ n ∈ names, n.length = maxLen names := by
  induction names with
  | nil => exact absurd rfl h
  | cons a as ih =>
    by_cases has : as = []
    · subst has
      exact ⟨a, List.mem_cons_self _ _, by simp [maxLen]⟩
    · obtain ⟨n, hn, hlen⟩ := ih has
      simp only [maxLen, List.foldr_cons] at hlen ⊢
      rcases le_total a.length (List.foldr (fun n m => max n.length m) 0 as) with hle | hle
      · exact ⟨n, List.mem_cons_of_mem _ hn, by rw [hlen, max_eq_right hle]⟩
      · exact ⟨a, List.mem_cons_self _ _, by rw [max_eq_left hle]⟩

/-- C19: on an existing node whose names fit the 32-bit length field,
`query::key_info` returns (number of direct child nodes, longest direct-child
name length + 1, number of direct entries, longest direct-entry name
length + 1) and leaves the state as it was.  The counts are those of the
nodes whose parent is the node and of the entries attached to the node; the
lengths are attained by a name and bound every name; a node that is added
elsewhere (not a direct child) or an entry added to another node does not
change the tuple; and the handle overload on a handle to the node returns the
same as the path overload. -/
theorem key_info_counts (machine : HKEY) (key : String) (s : Sys)
    (h : s.reg.hasKey (machine.sub (c_str key)) = true)
    (hk : maxLen (s.reg.subkeyNames (machine.sub (c_str key))) + 1 < DWORD_MOD)
    (hv : maxLen (s.reg.valueNames (machine.sub (c_str key))) + 1 < DWORD_MOD) :
    query.key_info machine key s =
      (Except.ok ((s.reg.subkeyNames (machine.sub (c_str key))).length,
        maxLen (s.reg.subkeyNames (machine.sub (c_str key))) + 1,
        (s.reg.valueNames (machine.sub (c_str key))).length,
        maxLen (s.reg.valueNames (machine.sub (c_str key))) + 1), s) ∧
    (s.reg.subkeyNames (machine.sub (c_str key))).length
      = s.reg.keys.countP (fun k => decide (k.1 = (machine.sub (c_str key)).1 ∧ k.2 ≠ [] ∧
          k.2.dropLast = (machine.sub (c_str key)).2)) ∧
    (s.reg.valueNames (machine.sub (c_str key))).length
      = s.reg.values.countP (fun e => decide (e.1.1 = machine.sub (c_str key))) ∧
    (∀ n ∈ s.reg.subkeyNames (machine.sub (c_str key)),
      n.length ≤ maxLen (s.reg.subkeyNames (machine.sub (c_str key)))) ∧
    (s.reg.subkeyNames (machine.sub (c_str key)) ≠ [] →
      ∃ n ∈ s.reg.subkeyNames (machine.sub (c_str key)),
        n.length = maxLen (s.reg.subkeyNames (machine.sub (c_str key)))) ∧
    (∀ n ∈ s.reg.valueNames (machine.sub (c_str key)),
      n.length ≤ maxLen (s.reg.valueNames (machine.sub (c_str key)))) ∧
    (s.reg.valueNames (machine.sub (c_str key)) ≠ [] →
      ∃ n ∈ s.reg.valueNames (machine.sub (c_str key)),
        n.length = maxLen (s.reg.valueNames (machine.sub (c_str key)))) ∧
    (∀ (k : Loc) (e : (Loc × String) × RegValue),
      ¬ (k.1 = (machine.sub (c_str key)).1 ∧ k.2 ≠ [] ∧
          k.2.dropLast = (machine.sub (c_str key)).2) →
      e.1.1 ≠ machine.sub (c_str key) →
      (query.key_info machine key
          { s with reg := { keys := s.reg.keys ++ [k], values := s.reg.values ++ [e] } }).1
        = (query.key_info machine key s).1) ∧
    (∀ handle : HKEY, handle.loc = machine.sub (c_str key) →
      query.key_info_h handle s = query.key_info machine key s) := by
  have hrun := key_info_run machine key s h
  rw [Nat.mod_eq_of_lt hk, Nat.mod_eq_of_lt hv] at hrun
  refine ⟨hrun, subkeyNames_length _ _, valueNames_length _ _, le_maxLen _, maxLen_attained _,
    le_maxLen _, maxLen_attained _, ?_, ?_⟩
  · intro k e hkc he
    have h2 : Registry.hasKey { keys := s.reg.keys ++ [k], values := s.reg.values ++ [e] }
        (machine.sub (c_str key)) = true := by
      simp only [Registry.hasKey, decide_eq_true_eq, List.mem_append] at h ⊢
      rcases h with h | h
      · exact Or.inl h
      · exact Or.inr (Or.inl h)
    have hsk : Registry.subkeyNames { keys := s.reg.keys ++ [k], values := s.reg.values ++ [e] }
        (machine.sub (c_str key)) = s.reg.subkeyNames (machine.sub (c_str key)) := by
      have hnot : ¬ (k.1 = (machine.sub (c_str key)).1 ∧ k.2.dropLast = (machine.sub (c_str key)).2)
          ∨ k.2 = [] := by
        by_cases hk2 : k.2 = []
        · exact Or.inr hk2
        · exact Or.inl (fun hh => hkc ⟨hh.1, hk2, hh.2⟩)
      simp only [Registry.subkeyNames, List.filterMap_append]
      rcases hnot with hn | hn
      · simp [hn]
      · simp [hn]
    have hvn : Registry.valueNames { keys := s.reg.keys ++ [k], values := s.reg.values ++ [e] }
        (machine.sub (c_str key)) = s.reg.valueNames (machine.sub (c_str key)) := by
      simp [Registry.valueNames, List.filterMap_append, he]
    rw [key_info_run machine key _ h2, key_info_run machine key s h]
    simp only [hsk, hvn]
  · intro handle hl
    rw [key_info_h_run_ok handle s (by rw [hl]; exact h), key_info_run machine key s h, hl]

/-- Witness for C19: `Info` has 3 direct children and 5 direct entries (the
longest names have 4 and 6 characters), with deeper nodes below `Key0`. -/
theorem key_info_counts_witness :
    query.key_info HKEY_CURRENT_USER "Info" infoStore = (Except.ok (3, 5, 5, 7), infoStore) :=
  (key_info_counts HKEY_CURRENT_USER "Info" infoStore (by decide) (by decide) (by decide)).1

/-! ## Removing every entry of a node -/

theorem mem_valueNames (g : Registry) (l : Loc) (n : String) :
    n ∈ g.valueNames l ↔ ∃ v, ((l, n), v) ∈ g.values := by
  unfold Registry.valueNames
  rw [List.mem_filterMap]
  constructor
  · rintro ⟨e, he, hf⟩
    by_cases h : e.1.1 = l
    · simp only [h, if_true, Option.some.injEq] at hf
      refine ⟨e.2, ?_⟩
      have : e = ((l, n), e.2) := by
        rw [← h, ← hf]
      rw [← this]
      exact he
    · simp [h] at hf
  · rintro ⟨v, hv⟩
    exact ⟨_, hv, by simp⟩

theorem lookupEntry_isSome_of_mem (k : Loc × String) (v : RegValue) :
    ∀ es : List ((Loc × String) × RegValue), (k, v) ∈ es → (lookupEntry k es).isSome = true
  | [], h => by simp at h
  | e :: es, h => by
    by_cases he : e.1 = k
    · simp [lookupEntry, he]
    · rcases List.mem_cons.1 h with h | h
      · exact absurd (by rw [← h]) he
      · simp [lookupEntry, he, lookupEntry_isSome_of_mem k v es h]

theorem remove_value_h_run (handle : HKEY) (value : String) (s : Sys)
    (h : (s.reg.entry handle.loc (c_str value)).isSome = true) :
    remove._remove_value_h handle value s =
      (Except.ok (), { s with reg := s.reg.deleteValue handle.loc (c_str value) }) := by
  simp [remove._remove_value_h, RegDeleteValue, h, assert.success, ERROR_SUCCESS]

/-- The loop of `remove::values` over distinct, NUL-free names of entries that
are present: it returns and exactly the named entries of the node are gone. -/
theorem values_loop_run (handle : HKEY) :
    ∀ (ns : List String) (s : Sys), s.reg.hasKey handle.loc = true → ns.Nodup →
      (∀ n ∈ ns, c_str n = n) →
      (∀ n ∈ ns, (lookupEntry (handle.loc, n) s.reg.values).isSome = true) →
      remove.values_loop handle ns s =
        (Except.ok (),
          { s with reg :=
              { keys := s.reg.keys,
                values := s.reg.values.filter
                  (fun e => !(decide (e.1.1 = handle.loc ∧ e.1.2 ∈ ns))) } })
  | [], s, _, _, _, _ => by
    unfold remove.values_loop
    simp
  | n :: rest, s, hk, hnd, hc, hex => by
    unfold remove.values_loop
    have hcn : c_str n = n := hc n (List.mem_cons_self _ _)
    have hen : (s.reg.entry handle.loc (c_str n)).isSome = true := by
      rw [hcn]
      unfold Registry.entry Registry.getValue
      simp only [hk, if_true]
      exact hex n (List.mem_cons_self _ _)
    rw [run_bind, remove_value_h_run handle n s hen, hcn]
    simp only
    have hnd2 := List.nodup_cons.1 hnd
    have hk2 : ({ s with reg := s.reg.deleteValue handle.loc n } : Sys).reg.hasKey handle.loc
        = true := hk
    rw [values_loop_run handle rest _ hk2 hnd2.2
      (fun m hm => hc m (List.mem_cons_of_mem _ hm)) ?_]
    · simp only [Registry.deleteValue, List.filter_filter]
      congr 3
      apply List.filter_congr
      intro e _
      by_cases h1 : e.1.1 = handle.loc
      · by_cases h2 : e.1.2 = n
        · have : e.1 = (handle.loc, n) := Prod.ext h1 h2
          simp [h1, h2, this]
        · have : e.1 ≠ (handle.loc, n) := fun hh => h2 (congrArg Prod.snd hh)
          simp [h1, h2, this]
      · have : e.1 ≠ (handle.loc, n) := fun hh => h1 (congrArg Prod.fst hh)
        simp [h1, this]
    · intro m hm
      have hmn : m ≠ n := fun hh => hnd2.1 (hh ▸ hm)
      simp only [Registry.deleteValue]
      rw [lookupEntry_filter (handle.loc, m) _ s.reg.values
        (fun e _ he => by simp [he, hmn])]
      exact hex m (List.mem_cons_of_mem _ hm)

theorem filter_valueNames (g : Registry) (l : Loc) :
    g.values.filter (fun e => !(decide (e.1.1 = l ∧ e.1.2 ∈ g.valueNames l)))
      = g.values.filter (fun e => decide (e.1.1 ≠ l)) := by
  apply List.filter_congr
  intro e he
  by_cases h1 : e.1.1 = l
  · have : e.1.2 ∈ g.valueNames l := by
      rw [mem_valueNames]
      refine ⟨e.2, ?_⟩
      have : ((l, e.1.2), e.2) = e := by rw [← h1]
      rw [this]
      exact he
    simp [h1, this]
  · simp [h1]

theorem remove_values_run_absent (machine : HKEY) (key : String) (s : Sys)
    (h : s.reg.hasKey (machine.sub (c_str key)) = false) :
    remove.values machine key s = (Except.ok false, s) := by
  unfold remove.values
  simp [key_exists_run, h]

theorem remove_values_run (machine : HKEY) (key : String) (s : Sys)
    (h : s.reg.hasKey (machine.sub (c_str key)) = true)
    (hnd : (s.reg.valueNames (machine.sub (c_str key))).Nodup)
    (hc : ∀ n ∈ s.reg.valueNames (machine.sub (c_str key)), c_str n = n)
    (hfit : maxLen (s.reg.valueNames (machine.sub (c_str key))) + 1 < DWORD_MOD) :
    remove.values machine key s =
      (Except.ok (!(s.reg.valueNames (machine.sub (c_str key))).isEmpty),
        { s with reg :=
            { keys := s.reg.keys,
              values := s.reg.values.filter
                (fun e => decide (e.1.1 ≠ machine.sub (c_str key))) } }) := by
  unfold remove.values
  simp only [run_bind, key_exists_run, h, if_true, open_run_ok machine key _ s h,
    with_handle_run]
  rw [value_names_h_run _ _ (by simpa [loc_openedAt] using h)
    (by simpa [loc_openedAt] using hfit)]
  simp only [loc_openedAt]
  rw [values_loop_run _ _ _ (by simpa [loc_openedAt] using h) hnd hc ?_]
  · dsimp only [loc_openedAt]
    rw [filter_valueNames]
    simp
  · intro n hn
    obtain ⟨v, hv⟩ := (mem_valueNames _ _ _).1 hn
    exact lookupEntry_isSome_of_mem _ v _ hv

/-! ## Removing every child of a node -/

theorem remove_key_inner_run (machine : HKEY) (key : String) (s : Sys)
    (h : s.reg.hasKey (machine.sub (c_str key)) = true)
    (hl : (machine.sub (c_str key)).2 ≠ [])
    (hc : s.reg.keys.any (fun k => (machine.sub (c_str key)).below k) = false) :
    remove._remove_key machine key s =
      (Except.ok (), { s with reg := s.reg.deleteKey (machine.sub (c_str key)) }) := by
  unfold remove._remove_key
  simp only [run_bind, open_run_ok machine key _ s h, with_handle_run]
  simp [remove._remove_key_h, RegDeleteKeyEx, sub_empty, hl, h, hc, assert.success,
    ERROR_SUCCESS]

theorem sub_proper (handle : HKEY) (n : String) (hp : segments (c_str n) = [n]) :
    handle.sub (c_str n) = (handle.loc.1, handle.loc.2 ++ [n]) := by
  simp [HKEY.sub, hp]

theorem within_eq (c k : Loc) : c.within k = (c.below k || decide (k = c)) := by
  rw [Bool.eq_iff_iff, Loc.within_iff_below_or_eq]
  simp

theorem child_within_child (l : Loc) (n m : String) :
    Loc.within (l.1, l.2 ++ [n]) (l.1, l.2 ++ [m]) = true ↔ n = m := by
  rw [Loc.within_iff]
  constructor
  · rintro ⟨_, hp⟩
    have h1 : [n] <+: [m] := (List.prefix_append_right_inj l.2).1 hp
    have h2 := List.IsPrefix.eq_of_length h1 (by simp)
    simpa using h2
  · rintro rfl
    exact ⟨rfl, List.prefix_refl _⟩

theorem child_not_within_parent (l : Loc) (n : String) :
    Loc.within (l.1, l.2 ++ [n]) l = false := by
  rw [Bool.eq_false_iff, Ne, Loc.within_iff]
  rintro ⟨_, hp⟩
  have := hp.length_le
  simp at this

theorem mem_subkeyNames (g : Registry) (l : Loc) (n : String) :
    n ∈ g.subkeyNames l ↔ (l.1, l.2 ++ [n]) ∈ g.keys := by
  unfold Registry.subkeyNames
  rw [List.mem_filterMap]
  constructor
  · rintro ⟨k, hk, hf⟩
    by_cases h : k.1 = l.1 ∧ k.2.dropLast = l.2
    · simp only [h, and_self, if_true] at hf
      have h2 : k.2.dropLast ++ [n] = k.2 := List.dropLast_append_getLast? n hf
      have : k = (l.1, l.2 ++ [n]) := by
        apply Prod.ext
        · exact h.1
        · rw [← h.2]
          exact h2.symm
      rw [← this]
      exact hk
    · simp [h] at hf
  · intro hk
    exact ⟨_, hk, by simp⟩

/-- One round of the loop of `remove::subkeys` on a child with a proper name:
the child and everything nested in it are gone. -/
theorem subkeys_step_run (handle : HKEY) (n : String) (s : Sys)
    (hp : segments (c_str n) = [n])
    (hk : (handle.loc.1, handle.loc.2 ++ [n]) ∈ s.reg.keys) :
    (remove._remove_children handle n >>= fun _ => remove._remove_key handle n) s =
      (Except.ok (),
        { s with reg :=
            { keys := s.reg.keys.filter
                (fun k => !(Loc.within (handle.loc.1, handle.loc.2 ++ [n]) k)),
              values := s.reg.values.filter
                (fun e => !(Loc.within (handle.loc.1, handle.loc.2 ++ [n]) e.1.1)) } }) := by
  have hs := sub_proper handle n hp
  have hh : s.reg.hasKey (handle.sub (c_str n)) = true := by
    rw [hs]
    simp [Registry.hasKey, hk]
  have hne : (handle.sub (c_str n)).2 ≠ [] := by
    rw [hs]
    simp
  rw [run_bind, remove_children_run handle n s hh]
  simp only
  rw [remove_key_inner_run handle n _ ?_ hne (no_key_below_deleteTree _ _)]
  · rw [hs]
    simp only [Registry.deleteTree, Registry.deleteKey, List.filter_filter]
    congr 3
    · apply List.filter_congr
      intro k _
      rw [within_eq]
      by_cases hkc : k = (handle.loc.1, handle.loc.2 ++ [n]) <;> simp [hkc]
    · apply List.filter_congr
      intro e _
      by_cases hkc : e.1.1 = (handle.loc.1, handle.loc.2 ++ [n])
      · have hw : Loc.within (handle.loc.1, handle.loc.2 ++ [n])
            (handle.loc.1, handle.loc.2 ++ [n]) = true := by
          rw [Loc.within_iff]
          exact ⟨rfl, List.prefix_refl _⟩
        simp [hkc, hw]
      · simp [hkc]
  · refine (hasKey_deleteTree _ _ _).2 ⟨hh, ?_⟩
    rw [Bool.eq_false_iff, Ne, Loc.below_iff]
    exact fun hb => hb.2.2 rfl

/-- The loop of `remove::subkeys` over distinct proper names of children that
are present: it returns, and exactly the nodes and entries within one of the
named children are gone. -/
theorem subkeys_loop_run (handle : HKEY) :
    ∀ (ns : List String) (s : Sys), ns.Nodup →
      (∀ n ∈ ns, segments (c_str n) = [n]) →
      (∀ n ∈ ns, (handle.loc.1, handle.loc.2 ++ [n]) ∈ s.reg.keys) →
      remove.subkeys_loop handle ns s =
        (Except.ok (),
          { s with reg :=
              { keys := s.reg.keys.filter (fun k =>
                  !(ns.any (fun n => Loc.within (handle.loc.1, handle.loc.2 ++ [n]) k))),
                values := s.reg.values.filter (fun e =>
                  !(ns.any (fun n => Loc.within (handle.loc.1, handle.loc.2 ++ [n]) e.1.1))) } })
  | [], s, _, _, _ => by
    unfold remove.subkeys_loop
    simp
  | n :: rest, s, hnd, hp, hk => by
    unfold remove.subkeys_loop
    have hnd2 := List.nodup_cons.1 hnd
    have hstep := subkeys_step_run handle n s (hp n (List.mem_cons_self _ _))
      (hk n (List.mem_cons_self _ _))
    have hassoc : (do
          remove._remove_children handle n
          remove._remove_key handle n
          remove.subkeys_loop handle rest : M Unit) s
        = ((remove._remove_children handle n >>= fun _ => remove._remove_key handle n)
            >>= fun _ => remove.subkeys_loop handle rest) s := by
      simp only [run_bind]
      rcases remove._remove_children handle n s with ⟨r, s1⟩
      cases r <;> rfl
    rw [hassoc, run_bind, hstep]
    simp only
    rw [subkeys_loop_run handle rest _ hnd2.2
      (fun m hm => hp m (List.mem_cons_of_mem _ hm)) ?_]
    · simp only [List.filter_filter, List.any_cons]
      congr 3
      · apply List.filter_congr
        intro k _
        simp [Bool.and_comm]
      · apply List.filter_congr
        intro e _
        simp [Bool.and_comm]
    · intro m hm
      simp only [List.mem_filter]
      refine ⟨hk m (List.mem_cons_of_mem _ hm), ?_⟩
      have hmn : ¬ n = m := fun hh => hnd2.1 (hh ▸ hm)
      have := (child_within_child handle.loc n m).not.2 hmn
      simpa using this

theorem remove_subkeys_run_absent (machine : HKEY) (key : String) (s : Sys)
    (h : s.reg.hasKey (machine.sub (c_str key)) = false) :
    remove.subkeys machine key s = (Except.ok false, s) := by
  unfold remove.subkeys
  simp [key_exists_run, h]

theorem remove_subkeys_run (machine : HKEY) (key : String) (s : Sys)
    (h : s.reg.hasKey (machine.sub (c_str key)) = true)
    (hnd : (s.reg.subkeyNames (machine.sub (c_str key))).Nodup)
    (hp : ∀ n ∈ s.reg.subkeyNames (machine.sub (c_str key)), segments (c_str n) = [n])
    (hfit : maxLen (s.reg.subkeyNames (machine.sub (c_str key))) + 1 < DWORD_MOD) :
    remove.subkeys machine key s =
      (Except.ok (!(s.reg.subkeyNames (machine.sub (c_str key))).isEmpty),
        { s with reg :=
            { keys := s.reg.keys.filter (fun k =>
                !((s.reg.subkeyNames (machine.sub (c_str key))).any (fun n =>
                  Loc.within ((machine.sub (c_str key)).1, (machine.sub (c_str key)).2 ++ [n]) k))),
              values := s.reg.values.filter (fun e =>
                !((s.reg.subkeyNames (machine.sub (c_str key))).any (fun n =>
                  Loc.within ((machine.sub (c_str key)).1, (machine.sub (c_str key)).2 ++ [n])
                    e.1.1))) } }) := by
  unfold remove.subkeys
  simp only [run_bind, key_exists_run, h, if_true, open_run_ok machine key _ s h,
    with_handle_run]
  rw [keys_h_run _ _ (by simpa [loc_openedAt] using h) (by simpa [loc_openedAt] using hfit)]
  simp only [loc_openedAt]
  rw [subkeys_loop_run _ _ _ hnd hp ?_]
  · dsimp only [loc_openedAt]
    simp
  · intro n hn
    exact (mem_subkeyNames _ _ _).1 hn

/-! ## Removing the entries or the children of a node (C11, C12) -/

theorem filterMap_filter_keep {α β : Type} (f : α → Option β) (p : α → Bool) :
    ∀ l : List α, (∀ a ∈ l, p a = false → f a = none) →
      (l.filter p).filterMap f = l.filterMap f
  | [], _ => rfl
  | a :: l, h => by
    have ih := filterMap_filter_keep f p l (fun b hb => h b (List.mem_cons_of_mem _ hb))
    cases hp : p a with
    | true => simp [List.filter_cons, hp, List.filterMap_cons, ih]
    | false =>
      have := h a (List.mem_cons_self _ _) hp
      simp [List.filter_cons, hp, List.filterMap_cons, ih, this]

theorem filterMap_filter_drop {α β : Type} (f : α → Option β) (p : α → Bool) :
    ∀ l : List α, (∀ a ∈ l, p a = true → f a = none) → (l.filter p).filterMap f = []
  | [], _ => rfl
  | a :: l, h => by
    have ih := filterMap_filter_drop f p l (fun b hb => h b (List.mem_cons_of_mem _ hb))
    cases hp : p a with
    | true =>
      have := h a (List.mem_cons_self _ _) hp
      simp [List.filter_cons, hp, List.filterMap_cons, ih, this]
    | false => simp [List.filter_cons, hp, ih]

/-- C12: `remove::values` returns false and leaves the state unchanged when
the node is absent or has no entries.  When the node has entries (with
distinct names free of NUL that fit the 32-bit length field, as the names of a
store are) it returns true, and afterwards the node exists with zero entries
(no name, the empty name of the default entry included, reads an entry on
it), while the nodes of the store are the same and every other node, child
nodes included, has its entries exactly as before. -/
theorem remove_values_contract (machine : HKEY) (key : String) (s : Sys) :
    (s.reg.hasKey (machine.sub (c_str key)) = false →
      remove.values machine key s = (Except.ok false, s)) ∧
    (s.reg.hasKey (machine.sub (c_str key)) = true →
      s.reg.valueNames (machine.sub (c_str key)) = [] →
      remove.values machine key s = (Except.ok false, s)) ∧
    (s.reg.hasKey (machine.sub (c_str key)) = true →
      s.reg.valueNames (machine.sub (c_str key)) ≠ [] →
      (s.reg.valueNames (machine.sub (c_str key))).Nodup →
      (∀ n ∈ s.reg.valueNames (machine.sub (c_str key)), c_str n = n) →
      maxLen (s.reg.valueNames (machine.sub (c_str key))) + 1 < DWORD_MOD →
      ∃ s1, remove.values machine key s = (Except.ok true, s1) ∧
        s1.reg.hasKey (machine.sub (c_str key)) = true ∧
        s1.reg.valueNames (machine.sub (c_str key)) = [] ∧
        (∀ n : String, s1.reg.entry (machine.sub (c_str key)) n = none) ∧
        s1.reg.keys = s.reg.keys ∧
        (∀ (k : Loc) (n : String), k ≠ machine.sub (c_str key) →
          s1.reg.entry k n = s.reg.entry k n) ∧
        (∀ k : Loc, k ≠ machine.sub (c_str key) → s1.reg.valueNames k = s.reg.valueNames k) ∧
        s1.handles = s.handles) := by
  refine ⟨remove_values_run_absent machine key s, ?_, ?_⟩
  · intro h hnone
    rw [remove_values_run machine key s h (by rw [hnone]; exact List.nodup_nil)
      (by rw [hnone]; intro n hn; simp at hn) (by rw [hnone]; decide)]
    have hf : s.reg.values.filter (fun e => decide (e.1.1 ≠ machine.sub (c_str key)))
        = s.reg.values := by
      rw [List.filter_eq_self]
      intro e he
      have hne : e.1.1 ≠ machine.sub (c_str key) := by
        intro heq
        have : e.1.2 ∈ s.reg.valueNames (machine.sub (c_str key)) := by
          rw [mem_valueNames]
          refine ⟨e.2, ?_⟩
          have : ((machine.sub (c_str key), e.1.2), e.2) = e := by rw [← heq]
          rw [this]
          exact he
        rw [hnone] at this
        simp at this
      simpa using hne
    rw [hf, hnone]
    rfl
  · intro h hsome hnd hc hfit
    have hrun := remove_values_run machine key s h hnd hc hfit
    have hb : (!(s.reg.valueNames (machine.sub (c_str key))).isEmpty) = true := by
      cases hv : s.reg.valueNames (machine.sub (c_str key)) with
      | nil => exact absurd hv hsome
      | cons a as => rfl
    rw [hb] at hrun
    refine ⟨_, hrun, h, ?_, ?_, rfl, ?_, ?_, rfl⟩
    · unfold Registry.valueNames
      exact filterMap_filter_drop _ _ _ (fun e _ hp => by
        have : e.1.1 ≠ machine.sub (c_str key) := by simpa using hp
        simp [this])
    · intro n
      simp only [Registry.entry, Registry.getValue]
      rw [lookupEntry_filter_none _ _ (fun e he => by simp [he])]
      simp
    · intro k n hk
      simp only [Registry.entry, Registry.getValue]
      have hl := lookupEntry_filter (k, n)
        (fun e => decide (e.1.1 ≠ machine.sub (c_str key))) s.reg.values
        (fun e _ he => by simp [he, hk])
      rw [hl]
      rfl
    · intro k hk
      unfold Registry.valueNames
      exact filterMap_filter_keep _ _ _ (fun e _ hp => by
        have h1 : e.1.1 = machine.sub (c_str key) := by simpa using hp
        have : e.1.1 ≠ k := by rw [h1]; exact fun hh => hk hh.symm
        simp [this])

/-- Witness for C12: `Info` of the example store has five entries, the default
entry (empty name) among them; afterwards it has none, and the entry `Nested`
of its child `Key0` reads as before. -/
theorem remove_values_contract_witness :
    remove.values HKEY_CURRENT_USER "Missing" infoStore = (Except.ok false, infoStore) ∧
    remove.values HKEY_CURRENT_USER "Info\\Key1" infoStore = (Except.ok false, infoStore) ∧
    ∃ s1, remove.values HKEY_CURRENT_USER "Info" infoStore = (Except.ok true, s1) ∧
      s1.reg.valueNames (Root.CURRENT_USER, ["Info"]) = [] ∧
      s1.reg.entry (Root.CURRENT_USER, ["Info"]) "" = none ∧
      s1.reg.keys = infoStore.reg.keys ∧
      s1.reg.entry (Root.CURRENT_USER, ["Info", "Key0"]) "Nested"
        = some (RegValue.mk REG_DWORD [9, 0, 0, 0]) := by
  refine ⟨(remove_values_contract HKEY_CURRENT_USER "Missing" infoStore).1 (by decide),
    (remove_values_contract HKEY_CURRENT_USER "Info\\Key1" infoStore).2.1 (by decide) (by decide),
    ?_⟩
  obtain ⟨s1, hrun, _, hnames, hnone, hkeys, hother, _, _⟩ :=
    (remove_values_contract HKEY_CURRENT_USER "Info" infoStore).2.2
      (by decide) (by decide) (by decide) (by decide) (by decide)
  refine ⟨s1, hrun, hnames, hnone "", hkeys, ?_⟩
  rw [hother (Root.CURRENT_USER, ["Info", "Key0"]) "Nested" (by decide)]
  decide

/-- C11: `remove::subkeys` returns false and leaves the state unchanged when
the node is absent or has no children.  When the node has children (with
distinct proper names that fit the 32-bit length field, as the names of a
store are) it returns true, and afterwards the node still exists, it has no
child and `query::key_info` reports the subkey count 0 for it, every former
direct child and every node nested in such a child is gone, and the entries
of the node itself (names in enumeration order, types, data) are exactly as
before. -/
theorem remove_subkeys_contract (machine : HKEY) (key : String) (s : Sys) :
    (s.reg.hasKey (machine.sub (c_str key)) = false →
      remove.subkeys machine key s = (Except.ok false, s)) ∧
    (s.reg.hasKey (machine.sub (c_str key)) = true →
      s.reg.subkeyNames (machine.sub (c_str key)) = [] →
      remove.subkeys machine key s = (Except.ok false, s)) ∧
    (s.reg.hasKey (machine.sub (c_str key)) = true →
      s.reg.subkeyNames (machine.sub (c_str key)) ≠ [] →
      (s.reg.subkeyNames (machine.sub (c_str key))).Nodup →
      (∀ n ∈ s.reg.subkeyNames (machine.sub (c_str key)), segments (c_str n) = [n]) →
      maxLen (s.reg.subkeyNames (machine.sub (c_str key))) + 1 < DWORD_MOD →
      ∃ s1, remove.subkeys machine key s = (Except.ok true, s1) ∧
        s1.reg.hasKey (machine.sub (c_str key)) = true ∧
        s1.reg.subkeyNames (machine.sub (c_str key)) = [] ∧
        (∃ info, query.key_info machine key s1 = (Except.ok info, s1) ∧ info.1 = 0) ∧
        (∀ n ∈ s.reg.subkeyNames (machine.sub (c_str key)), ∀ k : Loc,
          Loc.within ((machine.sub (c_str key)).1, (machine.sub (c_str key)).2 ++ [n]) k = true →
          s1.reg.hasKey k = false) ∧
        (∀ m : String, s1.reg.entry (machine.sub (c_str key)) m
          = s.reg.entry (machine.sub (c_str key)) m) ∧
        s1.reg.valueNames (machine.sub (c_str key))
          = s.reg.valueNames (machine.sub (c_str key)) ∧
        s1.handles = s.handles) := by
  refine ⟨remove_subkeys_run_absent machine key s, ?_, ?_⟩
  · intro h hnone
    rw [remove_subkeys_run machine key s h (by rw [hnone]; exact List.nodup_nil)
      (by rw [hnone]; intro n hn; simp at hn) (by rw [hnone]; decide)]
    rw [hnone]
    simp
  · intro h hsome hnd hp hfit
    have hrun := remove_subkeys_run machine key s h hnd hp hfit
    have hb : (!(s.reg.subkeyNames (machine.sub (c_str key))).isEmpty) = true := by
      cases hv : s.reg.subkeyNames (machine.sub (c_str key)) with
      | nil => exact absurd hv hsome
      | cons a as => rfl
    rw [hb] at hrun
    have hany : (s.reg.subkeyNames (machine.sub (c_str key))).any (fun n =>
        Loc.within ((machine.sub (c_str key)).1, (machine.sub (c_str key)).2 ++ [n])
          (machine.sub (c_str key))) = false := by
      rw [List.any_eq_false]
      intro n _
      simp [child_not_within_parent]
    obtain ⟨s1, hs1⟩ : ∃ s1 : Sys, s1 = (remove.subkeys machine key s).2 := ⟨_, rfl⟩
    have hreg := hs1
    rw [hrun] at hreg
    simp only at hreg
    have hkeys : ∀ k : Loc, k ∈ s1.reg.keys ↔ k ∈ s.reg.keys ∧
        (s.reg.subkeyNames (machine.sub (c_str key))).any (fun n =>
          Loc.within ((machine.sub (c_str key)).1, (machine.sub (c_str key)).2 ++ [n]) k)
          = false := by
      intro k
      rw [hreg]
      simp only [List.mem_filter, Bool.not_eq_true']
    have hhas : s1.reg.hasKey (machine.sub (c_str key)) = true := by
      simp only [Registry.hasKey, decide_eq_true_eq] at h ⊢
      rcases h with h | h
      · exact Or.inl h
      · exact Or.inr ((hkeys _).2 ⟨h, hany⟩)
    have hnames : s1.reg.subkeyNames (machine.sub (c_str key)) = [] := by
      rw [List.eq_nil_iff_forall_not_mem]
      intro n hn
      have hmem := (hkeys _).1 ((mem_subkeyNames _ _ _).1 hn)
      have hn0 : n ∈ s.reg.subkeyNames (machine.sub (c_str key)) :=
        (mem_subkeyNames _ _ _).2 hmem.1
      have hw : Loc.within ((machine.sub (c_str key)).1, (machine.sub (c_str key)).2 ++ [n])
          ((machine.sub (c_str key)).1, (machine.sub (c_str key)).2 ++ [n]) = true :=
        (child_within_child _ n n).2 rfl
      have := List.any_eq_false.1 hmem.2 n hn0
      exact this hw
    have hrun1 : remove.subkeys machine key s = (Except.ok true, s1) := by
      rw [hrun, hreg]
    refine ⟨s1, hrun1, hhas, hnames, ?_, ?_, ?_, ?_, ?_⟩
    · refine ⟨_, key_info_run machine key s1 hhas, ?_⟩
      simp [hnames]
    · intro n hn k hw
      have hk2 : k.2 ≠ [] := by
        intro he
        have hp2 := ((Loc.within_iff _ _).1 hw).2
        rw [he] at hp2
        have := hp2.length_le
        simp at this
      have hnot : k ∉ s1.reg.keys := by
        intro hk
        have := List.any_eq_false.1 ((hkeys k).1 hk).2 n hn
        exact this hw
      simp [Registry.hasKey, hk2, hnot]
    · intro m
      simp only [Registry.entry, hhas, h, if_true, Registry.getValue]
      rw [hreg]
      exact lookupEntry_filter (machine.sub (c_str key), m) _ s.reg.values
        (fun e _ he => by simp only [he, hany]; rfl)
    · rw [hreg]
      unfold Registry.valueNames
      exact filterMap_filter_keep _ _ _ (fun e _ hpe => by
        have hne : e.1.1 ≠ machine.sub (c_str key) := by
          intro heq
          rw [heq, hany] at hpe
          simp at hpe
        simp [hne])
    · rw [hreg]

/-- Witness for C11: `Info` of the example store has three children, one of
them with two more levels below it; afterwards only `Info` is left, with its
five entries. -/
theorem remove_subkeys_contract_witness :
    remove.subkeys HKEY_CURRENT_USER "Missing" infoStore = (Except.ok false, infoStore) ∧
    remove.subkeys HKEY_CURRENT_USER "Info\\Key1" infoStore = (Except.ok false, infoStore) ∧
    ∃ s1, remove.subkeys HKEY_CURRENT_USER "Info" infoStore = (Except.ok true, s1) ∧
      s1.reg.hasKey (Root.CURRENT_USER, ["Info"]) = true ∧
      s1.reg.subkeyNames (Root.CURRENT_USER, ["Info"]) = [] ∧
      s1.reg.hasKey (Root.CURRENT_USER, ["Info", "Key0", "Deep", "Deeper"]) = false ∧
      s1.reg.entry (Root.CURRENT_USER, ["Info"]) "Value3" = some (RegValue.mk REG_SZ [51, 0]) ∧
      s1.reg.valueNames (Root.CURRENT_USER, ["Info"])
        = ["Value0", "Value1", "Value2", "Value3", ""] := by
  refine ⟨(remove_subkeys_contract HKEY_CURRENT_USER "Missing" infoStore).1 (by decide),
    (remove_subkeys_contract HKEY_CURRENT_USER "Info\\Key1" infoStore).2.1
      (by decide) (by decide), ?_⟩
  obtain ⟨s1, hrun, hhas, hnames, _, hgone, hentry, hvn, _⟩ :=
    (remove_subkeys_contract HKEY_CURRENT_USER "Info" infoStore).2.2
      (by decide) (by decide) (by decide) (by decide) (by decide)
  refine ⟨s1, hrun, hhas, hnames, ?_, ?_, ?_⟩
  · exact hgone "Key0" (by decide) _ (by decide)
  · exact (hentry "Value3").trans (by decide)
  · exact hvn.trans (by decide)

/-! ## The bodies with a native parameter are the layer's functions -/

theorem key_exists_with_native (machine : HKEY) (key : String) :
    key_exists_with RegOpenKeyEx machine key = key_exists machine key := rfl

theorem value_exists_with_native (machine : HKEY) (key value : String) :
    value_exists_with RegOpenKeyEx RegQueryValueEx machine key value
      = value_exists machine key value := rfl

theorem peekvalue_with_native (machine : HKEY) (key value : String) :
    peekvalue_with RegGetValue machine key value = peekvalue machine key value := rfl

theorem set_data_h_with_native (handle : HKEY) (value : String) (data : Data) :
    update._set_data_h_with RegSetValueEx handle value data
      = update._set_data_h handle value data := by
  cases data <;> rfl

theorem create_value_h_with_native (handle : HKEY) (value : String) (data : Data) :
    create._create_value_h_with RegSetValueEx handle value data
      = create._create_value_h handle value data := by
  unfold create._create_value_h_with create._create_value_h
  simp only [set_data_h_with_native]

theorem item_with_native (machine : HKEY) (key value : String) (data : Data) :
    create.item_with RegSetValueEx machine key value data
      = create.item machine key value data := by
  unfold create.item_with create.item
  simp only [create_value_h_with_native]

/-! ## Descriptions and the two lookup tables -/

theorem toString_run (machine : HKEY) (name key value : String)
    (h : str_hkey machine = some name) :
    except.toString machine key value =
      Except.ok ((name ++ BACKSLASH)
        ++ (if key ≠ "" then key ++ BACKSLASH else "")
        ++ (if value ≠ "" then value ++ BACKSLASH else "")) := by
  simp [except.toString, map_at, h]

theorem str_hkey_predefined (r : Root) : ∃ name, str_hkey (HKEY.predefined r) = some name := by
  cases r <;> exact ⟨_, rfl⟩

theorem toString_opened (r : Root) (path : List String) (rights : Nat) (key value : String) :
    except.toString (HKEY.opened r path rights) key value
      = Except.error Exception.out_of_range := rfl

theorem joined_components (name key value : String) :
    except.joined (except.components name key value) ++ BACKSLASH
      = (name ++ BACKSLASH)
        ++ (if key ≠ "" then key ++ BACKSLASH else "")
        ++ (if value ≠ "" then value ++ BACKSLASH else "") := by
  by_cases hk : key = "" <;> by_cases hv : value = "" <;>
    simp [except.components, except.joined, hk, hv, String.append_assoc]

theorem append_ne_empty_left (a b : String) (h : a ≠ "") : a ++ b ≠ "" := by
  intro he
  apply h
  have hd := congrArg String.data he
  simp only [String.data_append] at hd
  have ha : a.data = [] := (List.append_eq_nil.1 hd).1
  exact String.ext ha

theorem str_type_total_iff (t : Nat) : (str_type t).isSome = true ↔ t ≤ 11 := by
  constructor
  · intro h
    by_contra hgt
    have h12 : 12 ≤ t := by omega
    have hn : str_type t = none := by
      unfold str_type
      simp only [REG_NONE, REG_SZ, REG_EXPAND_SZ, REG_BINARY, REG_DWORD, REG_DWORD_BIG_ENDIAN,
        REG_LINK, REG_MULTI_SZ, REG_RESOURCE_LIST, REG_FULL_RESOURCE_DESCRIPTOR,
        REG_RESOURCE_REQUIREMENTS_LIST, REG_QWORD]
      repeat (rw [if_neg (by omega)])
    rw [hn] at h
    simp at h
  · intro h
    obtain ⟨n, hn⟩ := str_type_closed t h
    simp [hn]

/-! ## Descriptions and lookup failures (C23, C24, C27, C28) -/

/-- C23 (counterexample): the description of the root `HKEY_CURRENT_USER`
alone, and of the entry `Name` of its node `Software`, are not the components
joined by single backslashes: each ends with one more backslash. -/
theorem toString_ends_with_backslash :
    except.toString HKEY_CURRENT_USER "" "" = Except.ok "HKEY_CURRENT_USER\\" ∧
    except.joined (except.components "HKEY_CURRENT_USER" "" "") = "HKEY_CURRENT_USER" ∧
    except.toString HKEY_CURRENT_USER "Software" "Name"
      = Except.ok "HKEY_CURRENT_USER\\Software\\Name\\" ∧
    except.joined (except.components "HKEY_CURRENT_USER" "Software" "Name")
      = "HKEY_CURRENT_USER\\Software\\Name" := by
  decide

/-- C23 (amended): for each of the five predefined roots, `except::toString`
returns the components that are present (the display name of the root, the
path if it is not empty, the entry name if it is not empty, in that order)
joined by single backslashes and followed by one more backslash. -/
theorem toString_components (r : Root) (key value : String) :
    ∃ name, str_hkey (HKEY.predefined r) = some name ∧
      except.toString (HKEY.predefined r) key value
        = Except.ok (except.joined (except.components name key value) ++ BACKSLASH) := by
  obtain ⟨name, hn⟩ := str_hkey_predefined r
  exact ⟨name, hn, by rw [toString_run _ name key value hn, joined_components]⟩

/-- Witness for C23 (amended): the description of an entry of a node. -/
theorem toString_components_witness :
    ∃ name, str_hkey HKEY_LOCAL_MACHINE = some name ∧
      except.toString HKEY_LOCAL_MACHINE "Software\\Vendor" "Name"
        = Except.ok (except.joined (except.components name "Software\\Vendor" "Name")
            ++ BACKSLASH) :=
  toString_components Root.LOCAL_MACHINE "Software\\Vendor" "Name"

/-- C24: the description does not determine its arguments.  For every
predefined root and all non-empty `k` and `v`, the description of entry `v`
of node `k` is the description of the node `k\v`, and the description of
entry `v` of the root is the description of the node `v`; the location text
in the message of `value_not_found` for `v` under `k` is the one in the
message of `key_not_found` for the node `k\v`. -/
theorem toString_not_injective (r : Root) (k v : String) (hk : k ≠ "") (hv : v ≠ "") :
    except.toString (HKEY.predefined r) k v
      = except.toString (HKEY.predefined r) (k ++ BACKSLASH ++ v) "" ∧
    except.toString (HKEY.predefined r) "" v = except.toString (HKEY.predefined r) v "" ∧
    ∃ location,
      except.toString (HKEY.predefined r) k v = Except.ok location ∧
      except.value_not_found (HKEY.predefined r) k v
        = Except.ok (Exception.value_not_found
            (c_str ("The value " ++ QUOTE ++ location ++ QUOTE ++ " does not exist"))) ∧
      except.key_not_found (HKEY.predefined r) (k ++ BACKSLASH ++ v)
        = Except.ok (Exception.key_not_found
            (c_str ("The key " ++ QUOTE ++ location ++ QUOTE ++ " does not exist"))) := by
  obtain ⟨name, hn⟩ := str_hkey_predefined r
  have hkv2 : k ++ (BACKSLASH ++ v) ≠ "" := append_ne_empty_left _ _ hk
  have hkv : k ++ BACKSLASH ++ v ≠ "" := by
    rw [String.append_assoc]
    exact hkv2
  have h1 : except.toString (HKEY.predefined r) k v
      = except.toString (HKEY.predefined r) (k ++ BACKSLASH ++ v) "" := by
    rw [toString_run _ name _ _ hn, toString_run _ name _ _ hn]
    simp [hk, hv, hkv, hkv2, String.append_assoc]
  refine ⟨h1, ?_, ?_⟩
  · rw [toString_run _ name _ _ hn, toString_run _ name _ _ hn]
    simp [hv]
  · refine ⟨_, toString_run _ name _ _ hn, ?_, ?_⟩
    · simp only [except.value_not_found, toString_run _ name _ _ hn]
    · simp only [except.key_not_found, ← h1, toString_run _ name _ _ hn]

/-- Witness for C24: the entry `Name` of `Software` and the node
`Software\Name` have the same description. -/
theorem toString_not_injective_witness :
    except.toString HKEY_CURRENT_USER "Software" "Name"
      = except.toString HKEY_CURRENT_USER ("Software" ++ BACKSLASH ++ "Name") "" ∧
    except.toString HKEY_CURRENT_USER "" "Name" = except.toString HKEY_CURRENT_USER "Name" "" :=
  ⟨(toString_not_injective Root.CURRENT_USER "Software" "Name" (by decide) (by decide)).1,
    (toString_not_injective Root.CURRENT_USER "Software" "Name" (by decide) (by decide)).2.1⟩

theorem check_type_out_of_range (machine : HKEY) (key value : String) (type : Nat) (s : Sys)
    (v : RegValue) (h : s.reg.entry (machine.sub (c_str key)) (c_str value) = some v)
    (hv : 11 < v.type) (hne : v.type ≠ type) :
    _check_type machine key value type s = (Except.error Exception.out_of_range, s) := by
  have hk := entry_hasKey _ _ _ _ h
  have hnone : str_type v.type = none := by
    cases hs : str_type v.type with
    | none => rfl
    | some n =>
      have := (str_type_total_iff v.type).1 (by simp [hs])
      omega
  unfold _check_type
  simp only [run_bind, check_key_ok machine key s hk, check_value_ok machine key value s v h,
    peekvalue_ok machine key value s v h]
  simp only [hne, ne_eq, not_false_eq_true, if_true, hnone]
  cases ht : str_type type <;> simp [map_at, M.throwNew, M.throw]

/-- C27: the type-name table is defined exactly on the tags 0 to 11.  For an
existing entry on a predefined root whose tag is in 0..11 and differs from the
expected tag (itself in 0..11), `_check_type` raises `type_error`; for an
existing entry whose tag is outside 0..11, `_check_type` with any other
expected tag raises `std::out_of_range`, and so do `query::number`,
`query::string`, `update::number` and `update::string`, leaving the state as
it was. -/
theorem type_table_domain (r : Root) (key value : String) (s : Sys) (v : RegValue)
    (he : s.reg.entry ((HKEY.predefined r).sub (c_str key)) (c_str value) = some v) :
    (∀ t : Nat, (str_type t).isSome = true ↔ t ≤ 11) ∧
    (v.type ≤ 11 → ∀ type : Nat, type ≤ 11 → v.type ≠ type →
      ∃ msg, _check_type (HKEY.predefined r) key value type s
        = (Except.error (Exception.type_error msg), s)) ∧
    (11 < v.type →
      (∀ type : Nat, v.type ≠ type →
        _check_type (HKEY.predefined r) key value type s
          = (Except.error Exception.out_of_range, s)) ∧
      query.number (HKEY.predefined r) key value s = (Except.error Exception.out_of_range, s) ∧
      query.string (HKEY.predefined r) key value s = (Except.error Exception.out_of_range, s) ∧
      (∀ d : Nat, update.number (HKEY.predefined r) key value d s
        = (Except.error Exception.out_of_range, s)) ∧
      (∀ d : String, update.string (HKEY.predefined r) key value d s
        = (Except.error Exception.out_of_range, s))) := by
  refine ⟨str_type_total_iff, ?_, ?_⟩
  · intro hv type ht hne
    exact check_type_mismatch r key value type s v he hne ht hv
  · intro hv
    have hd : v.type ≠ REG_DWORD := by
      intro h
      rw [h] at hv
      exact absurd hv (by decide)
    have hz : v.type ≠ REG_SZ := by
      intro h
      rw [h] at hv
      exact absurd hv (by decide)
    have h4 := check_type_out_of_range _ key value REG_DWORD s v he hv hd
    have h1 := check_type_out_of_range _ key value REG_SZ s v he hv hz
    refine ⟨fun type hne => check_type_out_of_range _ key value type s v he hv hne, ?_, ?_,
      fun d => ?_, fun d => ?_⟩
    · simp [query.number, h4]
    · simp [query.string, h1]
    · simp [update.number, h4]
    · simp [update.string, h1]

/-- Witness for C27: the entry `Odd` of the example store has the tag 12, and
the entry `Text` is a string. -/
theorem type_table_domain_witness :
    query.number HKEY_CURRENT_USER "TestKey" "Odd" exoticStore
      = (Except.error Exception.out_of_range, exoticStore) ∧
    update.string HKEY_CURRENT_USER "TestKey" "Odd" "x" exoticStore
      = (Except.error Exception.out_of_range, exoticStore) ∧
    ∃ msg, _check_type HKEY_CURRENT_USER "TestKey" "Text" REG_DWORD exoticStore
      = (Except.error (Exception.type_error msg), exoticStore) :=
  ⟨((type_table_domain Root.CURRENT_USER "TestKey" "Odd" exoticStore (RegValue.mk 12 [1, 2])
      (by decide)).2.2 (by decide)).2.1,
    ((type_table_domain Root.CURRENT_USER "TestKey" "Odd" exoticStore (RegValue.mk 12 [1, 2])
      (by decide)).2.2 (by decide)).2.2.2.2 "x",
    (type_table_domain Root.CURRENT_USER "TestKey" "Text" exoticStore
      (RegValue.mk REG_SZ [97, 0]) (by decide)).2.1 (by decide) REG_DWORD (by decide)
      (by decide)⟩

/-- C28: a description exists exactly for the five predefined roots.  With a
handle to an open node as the root, `except::toString` raises
`std::out_of_range`, and so do `_check_key` on an absent node and
`_check_value` on an absent entry under that root, in place of
`key_not_found` and `value_not_found`; the state is left as it was. -/
theorem not_found_needs_predefined_root (r : Root) (path : List String) (rights : Nat)
    (key value : String) (s : Sys) :
    (∀ machine : HKEY, (∃ t, except.toString machine key value = Except.ok t)
      ↔ ∃ r0, machine = HKEY.predefined r0) ∧
    except.toString (HKEY.opened r path rights) key value
      = Except.error Exception.out_of_range ∧
    (s.reg.hasKey ((HKEY.opened r path rights).sub (c_str key)) = false →
      _check_key (HKEY.opened r path rights) key s
        = (Except.error Exception.out_of_range, s)) ∧
    (s.reg.entry ((HKEY.opened r path rights).sub (c_str key)) (c_str value) = none →
      _check_value (HKEY.opened r path rights) key value s
        = (Except.error Exception.out_of_range, s)) := by
  refine ⟨?_, rfl, ?_, ?_⟩
  · intro machine
    constructor
    · rintro ⟨t, ht⟩
      cases machine with
      | predefined r0 => exact ⟨r0, rfl⟩
      | opened r0 p0 a0 =>
        rw [toString_opened] at ht
        exact absurd ht (by simp)
    · rintro ⟨r0, rfl⟩
      exact toString_predefined r0 key value
  · intro h
    unfold _check_key
    simp [key_exists_run, h, except.key_not_found, toString_opened, M.throwNew, M.throw]
  · intro h
    unfold _check_value
    simp [value_exists_run, h, except.value_not_found, toString_opened, M.throwNew, M.throw]

/-- Witness for C28: with a handle to `TestKey` of the sample store as the
root, the absent node `Missing` and the absent entry `Absent` of `Level1`. -/
theorem not_found_needs_predefined_root_witness :
    _check_key (HKEY.opened Root.CURRENT_USER ["TestKey"] KEY_READ) "Missing" sampleStore
      = (Except.error Exception.out_of_range, sampleStore) ∧
    _check_value (HKEY.opened Root.CURRENT_USER ["TestKey"] KEY_READ) "Level1" "Absent"
        sampleStore
      = (Except.error Exception.out_of_range, sampleStore) :=
  ⟨(not_found_needs_predefined_root Root.CURRENT_USER ["TestKey"] KEY_READ "Missing" "Absent"
      sampleStore).2.2.1 (by decide),
    (not_found_needs_predefined_root Root.CURRENT_USER ["TestKey"] KEY_READ "Level1" "Absent"
      sampleStore).2.2.2 (by decide)⟩

/-! ## The handle overload of `peekvalue`, and the bodies on any native answer -/

theorem check_value_h_ok (handle : HKEY) (value : String) (s : Sys) (v : RegValue)
    (h : s.reg.entry handle.loc (c_str value) = some v) :
    _check_value_h handle value s = (Except.ok (), s) := by
  simp [_check_value_h, run_bind, value_exists_h_run, h, run_pure, M.pure]

theorem native_get_run (hkey : HKEY) (key value : String) (s : Sys) (v : RegValue)
    (h : s.reg.entry (hkey.sub key) value = some v) (cap : Nat) :
    RegGetValue hkey key value RRF_RT_ANY false cap s
      = (Except.ok (ERROR_SUCCESS, v.type, [], reportedSize v), s) := by
  simp [RegGetValue, h, rrfAllows, RRF_RT_ANY]

theorem peekvalue_h_run (handle : HKEY) (value : String) (s : Sys) (v : RegValue)
    (h : s.reg.entry handle.loc (c_str value) = some v) :
    peekvalue_h handle value s = (Except.ok (v.type, reportedSize v), s) := by
  unfold peekvalue_h
  simp only [run_bind, check_value_h_ok handle value s v h]
  rw [native_get_run handle "" (c_str value) s v (by rw [sub_empty]; exact h)]
  simp [assert.success]

theorem peekvalue_with_run
    (native_get : HKEY → String → String → Nat → Bool → Nat → M (Nat × Nat × List Nat × Nat))
    (machine : HKEY) (key value : String) (s s1 : Sys) (v : RegValue)
    (type size : Nat) (copied : List Nat)
    (he : s.reg.entry (machine.sub (c_str key)) (c_str value) = some v)
    (hq : native_get machine (c_str key) (c_str value) RRF_RT_ANY false (DWORD_MOD - 1) s
      = (Except.ok (ERROR_SUCCESS, type, copied, size), s1)) :
    peekvalue_with native_get machine key value s =
      (Except.ok (type, if type = REG_SZ then (size + (DWORD_MOD - 1)) % DWORD_MOD else size),
        s1) := by
  have hk := entry_hasKey _ _ _ _ he
  unfold peekvalue_with
  simp only [run_bind, check_key_ok machine key s hk, check_value_ok machine key value s v he,
    hq]
  by_cases ht : type = REG_SZ <;> simp [assert.success, ht]

theorem dword_decrement (size : Nat) (hs : size < DWORD_MOD) :
    (size + (DWORD_MOD - 1)) % DWORD_MOD = if size = 0 then 4294967295 else size - 1 := by
  have hD : DWORD_MOD = 4294967296 := by norm_num [DWORD_MOD]
  rw [hD] at hs ⊢
  by_cases h0 : size = 0
  · subst h0
    simp
  · rw [if_neg h0]
    omega

theorem key_exists_with_run
    (native_open : HKEY → String → Nat → Nat → M (Nat × Option HKEY))
    (machine : HKEY) (key : String) (s s1 : Sys) (code : Nat) (h : Option HKEY)
    (ho : native_open machine (c_str key) 0 KEY_QUERY_VALUE s = (Except.ok (code, h), s1)) :
    key_exists_with native_open machine key s
      = (Except.ok (decide (code = ERROR_SUCCESS)), (RegCloseKey h s1).2) := by
  unfold key_exists_with
  simp [run_bind, ho, with_self_closing_handle]

theorem value_exists_with_run_refused
    (native_open : HKEY → String → Nat → Nat → M (Nat × Option HKEY))
    (native_query : HKEY → String → M Nat)
    (machine : HKEY) (key value : String) (s s1 : Sys) (code : Nat) (h : Option HKEY)
    (ho : native_open machine (c_str key) 0 KEY_QUERY_VALUE s = (Except.ok (code, h), s1))
    (hc : code ≠ ERROR_SUCCESS) :
    value_exists_with native_open native_query machine key value s
      = (Except.ok false, (RegCloseKey h s1).2) := by
  unfold value_exists_with
  simp [run_bind, ho, with_self_closing_handle, hc]

theorem value_exists_with_run_opened
    (native_open : HKEY → String → Nat → Nat → M (Nat × Option HKEY))
    (native_query : HKEY → String → M Nat)
    (machine : HKEY) (key value : String) (s s1 s2 : Sys) (hd : HKEY) (code2 : Nat)
    (ho : native_open machine (c_str key) 0 KEY_QUERY_VALUE s
      = (Except.ok (ERROR_SUCCESS, some hd), s1))
    (hq : native_query hd (c_str value) s1 = (Except.ok code2, s2)) :
    value_exists_with native_open native_query machine key value s
      = (Except.ok (decide (code2 = ERROR_SUCCESS)), (RegCloseKey (some hd) s2).2) := by
  unfold value_exists_with
  simp [run_bind, ho, with_self_closing_handle, hq]

/-! ## Existence predicates and the two peeks (C21, C25, C26) -/

/-- C21: the existence predicates always return and never raise.  On the
store, `key_exists` returns whether the node exists, which is whether the
native open answers success, and `value_exists` returns whether the entry
exists on an existing node, false whenever the node is absent; both leave the
state as it was.  On any answer of the native API: `key_exists` returns true
exactly when the open's code is success (false for every other code), and
`value_exists` returns false for every code of the open other than success
and otherwise true exactly when the metadata query's code is success; the
registry is the one the native calls left.  At the store's own open and
query these bodies are `key_exists` and `value_exists`. -/
theorem existence_predicates_total (machine : HKEY) (key value : String) (s : Sys) :
    key_exists machine key s
      = (Except.ok (s.reg.hasKey (machine.sub (c_str key))), s) ∧
    (∃ code h s1, RegOpenKeyEx machine (c_str key) 0 KEY_QUERY_VALUE s
        = (Except.ok (code, h), s1) ∧
      (s.reg.hasKey (machine.sub (c_str key)) = true ↔ code = ERROR_SUCCESS)) ∧
    value_exists machine key value s
      = (Except.ok (s.reg.entry (machine.sub (c_str key)) (c_str value)).isSome, s) ∧
    (s.reg.hasKey (machine.sub (c_str key)) = false →
      value_exists machine key value s = (Except.ok false, s)) ∧
    (∀ (native_open : HKEY → String → Nat → Nat → M (Nat × Option HKEY))
        (code : Nat) (h : Option HKEY) (s1 : Sys),
      native_open machine (c_str key) 0 KEY_QUERY_VALUE s = (Except.ok (code, h), s1) →
      key_exists_with native_open machine key s
        = (Except.ok (decide (code = ERROR_SUCCESS)), (RegCloseKey h s1).2)) ∧
    (∀ (native_open : HKEY → String → Nat → Nat → M (Nat × Option HKEY))
        (native_query : HKEY → String → M Nat) (code : Nat) (h : Option HKEY) (s1 : Sys),
      native_open machine (c_str key) 0 KEY_QUERY_VALUE s = (Except.ok (code, h), s1) →
      (code ≠ ERROR_SUCCESS →
        value_exists_with native_open native_query machine key value s
          = (Except.ok false, (RegCloseKey h s1).2)) ∧
      (code = ERROR_SUCCESS → ∀ (hd : HKEY) (code2 : Nat) (s2 : Sys), h = some hd →
        native_query hd (c_str value) s1 = (Except.ok code2, s2) →
        value_exists_with native_open native_query machine key value s
          = (Except.ok (decide (code2 = ERROR_SUCCESS)), (RegCloseKey h s2).2))) ∧
    (∀ (h : Option HKEY) (t : Sys), (RegCloseKey h t).2.reg = t.reg) ∧
    key_exists_with RegOpenKeyEx machine key = key_exists machine key ∧
    value_exists_with RegOpenKeyEx RegQueryValueEx machine key value
      = value_exists machine key value := by
  refine ⟨key_exists_run machine key s, ?_, value_exists_run machine key value s, ?_, ?_, ?_, ?_,
    rfl, rfl⟩
  · cases hk : s.reg.hasKey (machine.sub (c_str key)) with
    | true =>
      exact ⟨ERROR_SUCCESS, some (machine.openedAt (c_str key) KEY_QUERY_VALUE),
        { s with handles := machine.openedAt (c_str key) KEY_QUERY_VALUE :: s.handles },
        by simp [RegOpenKeyEx, hk], by simp⟩
    | false =>
      refine ⟨ERROR_FILE_NOT_FOUND, none, s, by simp [RegOpenKeyEx, hk], ?_⟩
      simp [ERROR_FILE_NOT_FOUND, ERROR_SUCCESS]
  · intro hk
    rw [value_exists_run]
    simp [Registry.entry, hk]
  · intro native_open code h s1 ho
    exact key_exists_with_run native_open machine key s s1 code h ho
  · intro native_open native_query code h s1 ho
    constructor
    · intro hc
      exact value_exists_with_run_refused native_open native_query machine key value s s1 code h
        ho hc
    · intro hc hd code2 s2 hh hq
      subst hc hh
      exact value_exists_with_run_opened native_open native_query machine key value s s1 s2 hd
        code2 ho hq
  · intro h t
    cases h <;> rfl

/-- Witness for C21: on the sample store `TestKey` exists and `Missing` does
not; a refused open and a refused metadata query both give false. -/
theorem existence_predicates_total_witness :
    key_exists HKEY_CURRENT_USER "TestKey" sampleStore = (Except.ok true, sampleStore) ∧
    value_exists HKEY_CURRENT_USER "Missing" "MyNumber" sampleStore
      = (Except.ok false, sampleStore) ∧
    key_exists_with deniedOpen HKEY_CURRENT_USER "TestKey" sampleStore
      = (Except.ok false, sampleStore) ∧
    value_exists_with deniedOpen RegQueryValueEx HKEY_CURRENT_USER "TestKey" "MyNumber"
        sampleStore
      = (Except.ok false, sampleStore) :=
  ⟨(existence_predicates_total HKEY_CURRENT_USER "TestKey" "MyNumber" sampleStore).1,
    (existence_predicates_total HKEY_CURRENT_USER "Missing" "MyNumber" sampleStore).2.2.2.1
      (by decide),
    (existence_predicates_total HKEY_CURRENT_USER "TestKey" "MyNumber" sampleStore).2.2.2.2.1
      deniedOpen ERROR_ACCESS_DENIED none sampleStore rfl,
    ((existence_predicates_total HKEY_CURRENT_USER "TestKey" "MyNumber"
      sampleStore).2.2.2.2.2.1 deniedOpen RegQueryValueEx ERROR_ACCESS_DENIED none sampleStore
      rfl).1 (by decide)⟩

/-- C25: the two overloads of `peekvalue` on the same existing entry, the
second on a handle to the node.  Both return the declared type.  The handle
overload returns the size the store reports; the path overload returns the
same size unless the type is `REG_SZ`, and then the reported size less one
modulo 2^32, so that the two sizes differ. -/
theorem peekvalue_overloads (machine handle : HKEY) (key value : String) (s : Sys)
    (v : RegValue) (hl : handle.loc = machine.sub (c_str key))
    (he : s.reg.entry (machine.sub (c_str key)) (c_str value) = some v) :
    peekvalue machine key value s = (Except.ok (v.type, peekSize v), s) ∧
    peekvalue_h handle value s = (Except.ok (v.type, reportedSize v), s) ∧
    (v.type ≠ REG_SZ → peekSize v = reportedSize v) ∧
    (v.type = REG_SZ →
      peekSize v = (reportedSize v + (DWORD_MOD - 1)) % DWORD_MOD ∧
      (peekSize v + 1) % DWORD_MOD = reportedSize v % DWORD_MOD ∧
      peekSize v ≠ reportedSize v) := by
  refine ⟨peekvalue_ok machine key value s v he,
    peekvalue_h_run handle value s v (by rw [hl]; exact he), ?_, ?_⟩
  · intro ht
    simp [peekSize, ht]
  · intro ht
    have hD : DWORD_MOD = 4294967296 := by norm_num [DWORD_MOD]
    simp only [peekSize, ht, if_true, reportedSize, hD]
    refine ⟨trivial, ?_, ?_⟩ <;> omega

/-- Witness for C25: the string entry `MyString` of the sample store holds
four bytes; the handle overload reports 5, the path overload 4. -/
theorem peekvalue_overloads_witness :
    peekvalue HKEY_CURRENT_USER "TestKey" "MyString" sampleStore
      = (Except.ok (REG_SZ, 4), sampleStore) ∧
    peekvalue_h (HKEY.opened Root.CURRENT_USER ["TestKey"] KEY_QUERY_VALUE) "MyString"
        sampleStore
      = (Except.ok (REG_SZ, 5), sampleStore) :=
  ⟨(peekvalue_overloads HKEY_CURRENT_USER
      (HKEY.opened Root.CURRENT_USER ["TestKey"] KEY_QUERY_VALUE) "TestKey" "MyString"
      sampleStore (RegValue.mk REG_SZ [49, 50, 51, 0]) (by decide) (by decide)).1,
    (peekvalue_overloads HKEY_CURRENT_USER
      (HKEY.opened Root.CURRENT_USER ["TestKey"] KEY_QUERY_VALUE) "TestKey" "MyString"
      sampleStore (RegValue.mk REG_SZ [49, 50, 51, 0]) (by decide) (by decide)).2.1⟩

/-- C26: the size correction of the path overload of `peekvalue`, on any
answer of the native metadata query.  When the guards pass and the query
answers success with the type tag `type` and a size `size` below 2^32, the
call returns `type` and, for `REG_SZ`, the size less one computed in 32 bits
(4294967295 for the size 0, `size - 1` otherwise); for every other tag it
returns `size` itself.  The store's own query is such an answer. -/
theorem size_correction_wraps
    (native_get : HKEY → String → String → Nat → Bool → Nat → M (Nat × Nat × List Nat × Nat))
    (machine : HKEY) (key value : String) (s s1 : Sys) (v : RegValue)
    (type size : Nat) (copied : List Nat)
    (he : s.reg.entry (machine.sub (c_str key)) (c_str value) = some v)
    (hq : native_get machine (c_str key) (c_str value) RRF_RT_ANY false (DWORD_MOD - 1) s
      = (Except.ok (ERROR_SUCCESS, type, copied, size), s1))
    (hs : size < DWORD_MOD) :
    peekvalue_with native_get machine key value s =
      (Except.ok (type,
        if type = REG_SZ then (if size = 0 then 4294967295 else size - 1) else size), s1) ∧
    peekvalue_with RegGetValue machine key value = peekvalue machine key value ∧
    RegGetValue machine (c_str key) (c_str value) RRF_RT_ANY false (DWORD_MOD - 1) s
      = (Except.ok (ERROR_SUCCESS, v.type, [], reportedSize v), s) := by
  refine ⟨?_, rfl, native_get_run machine (c_str key) (c_str value) s v he _⟩
  rw [peekvalue_with_run native_get machine key value s s1 v type size copied he hq,
    dword_decrement size hs]

/-- Witness for C26: a string entry for which the store reports the size 0. -/
theorem size_correction_wraps_witness :
    peekvalue_with (reportsString 0) HKEY_CURRENT_USER "TestKey" "MyString" sampleStore
      = (Except.ok (REG_SZ, 4294967295), sampleStore) :=
  (size_correction_wraps (reportsString 0) HKEY_CURRENT_USER "TestKey" "MyString" sampleStore
    sampleStore (RegValue.mk REG_SZ [49, 50, 51, 0]) REG_SZ 0 [] (by decide) rfl
    (by decide)).1

/-! ## Creation: the remaining ways out, and a refused write -/

theorem create_key_run_stale (machine : HKEY) (key : String) (s : Sys)
    (h : s.reg.hasKey (machine.sub (c_str key)) = false)
    (hb : s.reg.hasKey machine.loc = false) :
    create._create_key machine key s
      = (Except.error (Exception.runtime_error ERROR_FILE_NOT_FOUND), s) := by
  unfold create._create_key
  simp [key_exists_run, h, hb, RegCreateKeyEx, assert.success, ERROR_SUCCESS,
    ERROR_FILE_NOT_FOUND]

theorem item_run_stale (machine : HKEY) (key value : String) (data : Data) (s : Sys)
    (h : s.reg.hasKey (machine.sub (c_str key)) = false)
    (hb : s.reg.hasKey machine.loc = false) :
    create.item machine key value data s
      = (Except.error (Exception.runtime_error ERROR_FILE_NOT_FOUND), s) := by
  unfold create.item
  simp only [run_bind, key_exists_run, h, Bool.false_eq_true, if_false,
    create_key_run_stale machine key s h hb]

/-- What a returning `_create_key` reports, in terms of the node's existence
before the call. -/
theorem create_key_disposition (machine : HKEY) (key : String) (s s1 : Sys) (h : HKEY)
    (d : create.Disposition) (hrun : create._create_key machine key s = (Except.ok (h, d), s1)) :
    (s.reg.hasKey (machine.sub (c_str key)) = true ∧ d = create.Disposition.EXISTS_KEY) ∨
    (s.reg.hasKey (machine.sub (c_str key)) = false ∧ d = create.Disposition.CREATED_KEY) := by
  cases hk : s.reg.hasKey (machine.sub (c_str key)) with
  | true =>
    rw [create_key_run_exists machine key s hk] at hrun
    simp only [Prod.mk.injEq, Except.ok.injEq] at hrun
    exact Or.inl ⟨rfl, hrun.1.2.symm⟩
  | false =>
    cases hb : s.reg.hasKey machine.loc with
    | true =>
      rw [create_key_run_absent machine key s hk hb] at hrun
      simp only [Prod.mk.injEq, Except.ok.injEq] at hrun
      exact Or.inr ⟨rfl, hrun.1.2.symm⟩
    | false =>
      rw [create_key_run_stale machine key s hk hb] at hrun
      simp at hrun

/-- What a returning `item` reports, in terms of the existence of the node and
of the entry before the call. -/
theorem item_disposition (machine : HKEY) (key value : String) (data : Data) (s s1 : Sys)
    (h : HKEY) (d : create.Disposition)
    (hrun : create.item machine key value data s = (Except.ok (h, d), s1)) :
    (s.reg.hasKey (machine.sub (c_str key)) = true ∧
      (s.reg.entry (machine.sub (c_str key)) (c_str value)).isSome = true ∧
      d = create.Disposition.EXISTS_VALUE) ∨
    (s.reg.hasKey (machine.sub (c_str key)) = true ∧
      (s.reg.entry (machine.sub (c_str key)) (c_str value)).isSome = false ∧
      d = create.Disposition.CREATED_VALUE) ∨
    (s.reg.hasKey (machine.sub (c_str key)) = false ∧ d = create.Disposition.CREATED_KEY) := by
  cases hk : s.reg.hasKey (machine.sub (c_str key)) with
  | true =>
    cases he : s.reg.entry (machine.sub (c_str key)) (c_str value) with
    | some v =>
      rw [item_run_exists machine key value data s v he] at hrun
      simp only [Prod.mk.injEq, Except.ok.injEq] at hrun
      exact Or.inl ⟨rfl, rfl, hrun.1.2.symm⟩
    | none =>
      rw [item_run_new_value machine key value data s hk he] at hrun
      simp only [Prod.mk.injEq, Except.ok.injEq] at hrun
      exact Or.inr (Or.inl ⟨rfl, rfl, hrun.1.2.symm⟩)
  | false =>
    cases hb : s.reg.hasKey machine.loc with
    | true =>
      rw [item_run_new_key machine key value data s hk hb] at hrun
      simp only [Prod.mk.injEq, Except.ok.injEq] at hrun
      exact Or.inr (Or.inr ⟨rfl, hrun.1.2.symm⟩)
    | false =>
      rw [item_run_stale machine key value data s hk hb] at hrun
      simp at hrun

theorem set_data_h_with_refused
    (native_set : HKEY → String → Nat → List Nat → Nat → M Nat)
    (handle : HKEY) (value : String) (data : Data) (s : Sys) (code : Nat)
    (hc : code ≠ ERROR_SUCCESS)
    (hw : ∀ (type : Nat) (bytes : List Nat) (cb : Nat),
      native_set handle (c_str value) type bytes cb s = (Except.ok code, s)) :
    update._set_data_h_with native_set handle value data s
      = (Except.error (Exception.runtime_error code), s) := by
  cases data <;> simp [update._set_data_h_with, hw, assert.success, hc]

theorem create_value_h_with_refused
    (native_set : HKEY → String → Nat → List Nat → Nat → M Nat)
    (handle : HKEY) (value : String) (data : Data) (s : Sys) (code : Nat)
    (hc : code ≠ ERROR_SUCCESS)
    (hw : ∀ (type : Nat) (bytes : List Nat) (cb : Nat),
      native_set handle (c_str value) type bytes cb s = (Except.ok code, s)) :
    create._create_value_h_with native_set handle value data s
      = (Except.error (Exception.runtime_error code), s) := by
  unfold create._create_value_h_with
  simp [value_exists_h_run, set_data_h_with_refused native_set handle value data s code hc hw]

/-! ## Open handles across calls -/

theorem scoped_pure (a : α) : Scoped (pure a : M α) := fun _ => rfl

theorem scoped_M_pure (a : α) : Scoped (M.pure a) := fun _ => rfl

theorem scoped_throw (e : Exception) : Scoped (M.throw e : M α) := fun _ => rfl

theorem scoped_throwNew (e : Except Exception Exception) : Scoped (M.throwNew e : M α) := by
  cases e <;> exact fun _ => rfl

theorem scoped_bind (m : M α) (f : α → M β) (hm : Scoped m) (hf : ∀ a, Scoped (f a)) :
    Scoped (m >>= f) := by
  intro s
  have h1 := hm s
  rw [run_bind]
  cases hms : m s with
  | mk res s1 =>
    rw [hms] at h1
    cases res with
    | error e => exact h1
    | ok a => exact (hf a s1).trans h1

theorem scoped_ite (c : Prop) [Decidable c] (a b : M α) (ha : Scoped a) (hb : Scoped b) :
    Scoped (if c then a else b) := by
  split
  · exact ha
  · exact hb

theorem scoped_of_state_eq (m : M α) (h : ∀ s, (m s).2 = s) : Scoped m :=
  fun s => by rw [h s]

theorem scoped_assert_success (code : Nat) : Scoped (assert.success code) := by
  unfold assert.success
  split
  · exact scoped_throw _
  · exact scoped_M_pure _

theorem scoped_assert_equal (code sys_code : Nat) : Scoped (assert.equal code sys_code) := by
  unfold assert.equal
  split
  · exact scoped_throw _
  · exact scoped_M_pure _

/-- A handle opened by `reg::open` and wrapped at once in a
`self_closing_handle` is closed on every way out of the scope. -/
theorem scoped_open_with (machine : HKEY) (key : String) (rights : Nat) (body : HKEY → M β)
    (hb : ∀ h, Scoped (body h)) :
    Scoped («open» machine key rights >>= fun h => with_self_closing_handle (some h) (body h))
    := by
  intro s
  rw [run_bind]
  cases hk : s.reg.hasKey (machine.sub (c_str key))
  · rw [open_run_error machine key rights s hk]
  · rw [open_run_ok machine key rights s hk]
    simp only [with_handle_run]
    rw [hb]
    simp

theorem scoped_key_exists (machine : HKEY) (key : String) : Scoped (key_exists machine key) :=
  scoped_of_state_eq _ (fun s => by rw [key_exists_run])

theorem scoped_value_exists (machine : HKEY) (key value : String) :
    Scoped (value_exists machine key value) :=
  scoped_of_state_eq _ (fun s => by rw [value_exists_run])

theorem scoped_value_exists_h (handle : HKEY) (value : String) :
    Scoped (value_exists_h handle value) :=
  scoped_of_state_eq _ (fun s => by rw [value_exists_h_run])

theorem scoped_check_key (machine : HKEY) (key : String) : Scoped (_check_key machine key) := by
  unfold _check_key
  refine scoped_bind _ _ (scoped_key_exists _ _) (fun ok => ?_)
  split
  · exact scoped_throwNew _
  · exact scoped_pure _

theorem scoped_check_value (machine : HKEY) (key value : String) :
    Scoped (_check_value machine key value) := by
  unfold _check_value
  refine scoped_bind _ _ (scoped_value_exists _ _ _) (fun ok => ?_)
  split
  · exact scoped_throwNew _
  · exact scoped_pure _

theorem scoped_check_value_h (handle : HKEY) (value : String) :
    Scoped (_check_value_h handle value) := by
  unfold _check_value_h
  refine scoped_bind _ _ (scoped_value_exists_h _ _) (fun ok => ?_)
  split
  · exact scoped_throwNew _
  · exact scoped_pure _

theorem scoped_RegGetValue (hkey : HKEY) (lpSubKey lpValue : String)
    (dwFlags : Nat) (pvData : Bool) (pcbData : Nat) :
    Scoped (RegGetValue hkey lpSubKey lpValue dwFlags pvData pcbData) :=
  scoped_of_state_eq _ (fun s => by
    unfold RegGetValue
    split
    · rfl
    · split
      · split
        · split <;> rfl
        · rfl
      · rfl)

theorem scoped_peekvalue (machine : HKEY) (key value : String) :
    Scoped (peekvalue machine key value) := by
  unfold peekvalue
  refine scoped_bind _ _ (scoped_check_key _ _) (fun _ => ?_)
  refine scoped_bind _ _ (scoped_check_value _ _ _) (fun _ => ?_)
  refine scoped_bind _ _ (scoped_RegGetValue _ _ _ _ _ _) (fun x => ?_)
  obtain ⟨result, type, _, size⟩ := x
  refine scoped_bind _ _ (scoped_assert_success _) (fun _ => ?_)
  split <;> exact scoped_pure _

theorem scoped_peekvalue_h (handle : HKEY) (value : String) :
    Scoped (peekvalue_h handle value) := by
  unfold peekvalue_h
  refine scoped_bind _ _ (scoped_check_value_h _ _) (fun _ => ?_)
  refine scoped_bind _ _ (scoped_RegGetValue _ _ _ _ _ _) (fun x => ?_)
  obtain ⟨result, type, _, size⟩ := x
  exact scoped_bind _ _ (scoped_assert_success _) (fun _ => scoped_pure _)

theorem scoped_check_type (machine : HKEY) (key value : String) (type : Nat) :
    Scoped (_check_type machine key value type) := by
  unfold _check_type
  refine scoped_bind _ _ (scoped_check_key _ _) (fun _ => ?_)
  refine scoped_bind _ _ (scoped_check_value _ _ _) (fun _ => ?_)
  refine scoped_bind _ _ (scoped_peekvalue _ _ _) (fun x => ?_)
  obtain ⟨mytype, _⟩ := x
  exact scoped_ite _ _ _ (scoped_throwNew _) (scoped_pure _)

theorem scoped_get_data_DWORD (machine : HKEY) (key value : String) :
    Scoped (query._get_data_DWORD machine key value) := by
  unfold query._get_data_DWORD
  refine scoped_open_with _ _ _ _ (fun handle => ?_)
  refine scoped_bind _ _ (scoped_RegGetValue _ _ _ _ _ _) (fun x => ?_)
  obtain ⟨code, _, copied, _⟩ := x
  exact scoped_bind _ _ (scoped_assert_success _) (fun _ => scoped_pure _)

theorem scoped_get_data_string (machine : HKEY) (key value : String) :
    Scoped (query._get_data_string machine key value) := by
  unfold query._get_data_string
  refine scoped_open_with _ _ _ _ (fun handle => ?_)
  refine scoped_bind _ _ (scoped_peekvalue _ _ _) (fun x => ?_)
  obtain ⟨_, size⟩ := x
  refine scoped_bind _ _ (scoped_RegGetValue _ _ _ _ _ _) (fun y => ?_)
  obtain ⟨code, _, copied, _⟩ := y
  exact scoped_bind _ _ (scoped_assert_success _) (fun _ => scoped_pure _)

theorem scoped_query_number (machine : HKEY) (key value : String) :
    Scoped (query.number machine key value) := by
  unfold query.number
  refine scoped_bind _ _ (scoped_check_type _ _ _ _) (fun _ => ?_)
  exact scoped_bind _ _ (scoped_get_data_DWORD _ _ _) (fun _ => scoped_pure _)

theorem scoped_query_string (machine : HKEY) (key value : String) :
    Scoped (query.string machine key value) := by
  unfold query.string
  refine scoped_bind _ _ (scoped_check_type _ _ _ _) (fun _ => ?_)
  exact scoped_bind _ _ (scoped_get_data_string _ _ _) (fun _ => scoped_pure _)

theorem scoped_RegQueryInfoKey (hKey : HKEY) : Scoped (RegQueryInfoKey hKey) :=
  scoped_of_state_eq _ (fun s => by unfold RegQueryInfoKey; split <;> rfl)

theorem scoped_RegEnumKeyEx (hKey : HKEY) (i : Nat) (b : List Char) (c : Nat) :
    Scoped (RegEnumKeyEx hKey i b c) :=
  scoped_of_state_eq _ (fun s => by unfold RegEnumKeyEx; split <;> rfl)

theorem scoped_RegEnumValue (hKey : HKEY) (i : Nat) (b : List Char) (c : Nat) :
    Scoped (RegEnumValue hKey i b c) :=
  scoped_of_state_eq _ (fun s => by unfold RegEnumValue; split <;> rfl)

theorem scoped_key_info_h (handle : HKEY) : Scoped (query.key_info_h handle) := by
  unfold query.key_info_h
  refine scoped_bind _ _ (scoped_RegQueryInfoKey _) (fun x => ?_)
  obtain ⟨code, subkeys, maxkeynamelen, subvalues, maxvaluenamelen⟩ := x
  exact scoped_bind _ _ (scoped_assert_success _) (fun _ => scoped_pure _)

theorem scoped_key_info (machine : HKEY) (key : String) :
    Scoped (query.key_info machine key) := by
  unfold query.key_info
  refine scoped_bind _ _ (scoped_check_key _ _) (fun _ => ?_)
  exact scoped_open_with _ _ _ _ (fun handle => scoped_key_info_h _)

theorem scoped_keys_loop (handle : HKEY) (maxkeynamelen : Nat) :
    ∀ (budget i : Nat) (buffer : List Char) (enum_keys : List String),
      Scoped (query.keys_loop handle maxkeynamelen budget i buffer enum_keys)
  | 0, _, _, _ => by
    unfold query.keys_loop
    exact scoped_pure _
  | budget + 1, i, buffer, enum_keys => by
    unfold query.keys_loop
    refine scoped_bind _ _ (scoped_RegEnumKeyEx _ _ _ _) (fun x => ?_)
    obtain ⟨code, buffer1, characters_read⟩ := x
    refine scoped_ite _ _ _ (scoped_pure _) ?_
    exact scoped_ite _ _ _ (scoped_keys_loop handle maxkeynamelen budget _ _ _)
      (scoped_pure _)

theorem scoped_keys_h (handle : HKEY) : Scoped (query.keys_h handle) := by
  unfold query.keys_h
  refine scoped_bind _ _ (scoped_key_info_h _) (fun x => ?_)
  obtain ⟨subkeys, maxkeynamelen, _, _⟩ := x
  refine scoped_bind _ _ (scoped_keys_loop _ _ _ _ _ _) (fun y => ?_)
  obtain ⟨code, enum_keys⟩ := y
  exact scoped_bind _ _ (scoped_assert_equal _ _) (fun _ => scoped_pure _)

theorem scoped_keys (machine : HKEY) (key : String) : Scoped (query.keys machine key) := by
  unfold query.keys
  refine scoped_bind _ _ (scoped_check_key _ _) (fun _ => ?_)
  exact scoped_open_with _ _ _ _ (fun handle => scoped_keys_h _)

theorem scoped_value_names_loop (handle : HKEY) (maxvaluenamelen : Nat) :
    ∀ (budget i : Nat) (buffer : List Char) (enum_values : List String),
      Scoped (query.value_names_loop handle maxvaluenamelen budget i buffer enum_values)
  | 0, _, _, _ => by
    unfold query.value_names_loop
    exact scoped_pure _
  | budget + 1, i, buffer, enum_values => by
    unfold query.value_names_loop
    refine scoped_bind _ _ (scoped_RegEnumValue _ _ _ _) (fun x => ?_)
    obtain ⟨code, buffer1, characters_read⟩ := x
    refine scoped_ite _ _ _ (scoped_pure _) ?_
    exact scoped_ite _ _ _ (scoped_value_names_loop handle maxvaluenamelen budget _ _ _)
      (scoped_pure _)

theorem scoped_value_names_h (handle : HKEY) : Scoped (query.value_names_h handle) := by
  unfold query.value_names_h
  refine scoped_bind _ _ (scoped_key_info_h _) (fun x => ?_)
  obtain ⟨_, _, subvalues, maxvaluenamelen⟩ := x
  refine scoped_bind _ _ (scoped_value_names_loop _ _ _ _ _ _) (fun y => ?_)
  obtain ⟨code, enum_values⟩ := y
  exact scoped_bind _ _ (scoped_assert_equal _ _) (fun _ => scoped_pure _)

theorem scoped_value_names (machine : HKEY) (key : String) :
    Scoped (query.value_names machine key) := by
  unfold query.value_names
  refine scoped_bind _ _ (scoped_check_key _ _) (fun _ => ?_)
  exact scoped_open_with _ _ _ _ (fun handle => scoped_value_names_h _)

theorem scoped_RegSetValueEx (hKey : HKEY) (n : String) (t : Nat) (d : List Nat) (c : Nat) :
    Scoped (RegSetValueEx hKey n t d c) := by
  intro s
  unfold RegSetValueEx
  split <;> rfl

theorem scoped_RegDeleteValue (hKey : HKEY) (n : String) : Scoped (RegDeleteValue hKey n) := by
  intro s
  unfold RegDeleteValue
  split <;> rfl

theorem scoped_RegDeleteKeyEx (hKey : HKEY) (lpSubKey : String) (a : Nat) :
    Scoped (RegDeleteKeyEx hKey lpSubKey a) := by
  intro s
  unfold RegDeleteKeyEx
  split
  · rfl
  · split
    · rfl
    · split <;> rfl

theorem scoped_RegDeleteTree (hKey : HKEY) (lpSubKey : String) :
    Scoped (RegDeleteTree hKey lpSubKey) := by
  intro s
  unfold RegDeleteTree
  split
  · split <;> rfl
  · rfl

theorem scoped_set_data_h (handle : HKEY) (value : String) (data : Data) :
    Scoped (update._set_data_h handle value data) := by
  cases data <;>
    exact scoped_bind _ _ (scoped_RegSetValueEx _ _ _ _ _) (fun _ => scoped_assert_success _)

theorem scoped_set_data (machine : HKEY) (key value : String) (data : Data) :
    Scoped (update._set_data machine key value data) := by
  unfold update._set_data
  exact scoped_open_with _ _ _ _ (fun handle => scoped_set_data_h _ _ _)

theorem scoped_update_number (machine : HKEY) (key value : String) (data : Nat) :
    Scoped (update.number machine key value data) := by
  unfold update.number
  exact scoped_bind _ _ (scoped_check_type _ _ _ _) (fun _ => scoped_set_data _ _ _ _)

theorem scoped_update_string (machine : HKEY) (key value data : String) :
    Scoped (update.string machine key value data) := by
  unfold update.string
  exact scoped_bind _ _ (scoped_check_type _ _ _ _) (fun _ => scoped_set_data _ _ _ _)

theorem scoped_remove_key_inner (machine : HKEY) (key : String) :
    Scoped (remove._remove_key machine key) := by
  unfold remove._remove_key
  refine scoped_open_with _ _ _ _ (fun handle => ?_)
  unfold remove._remove_key_h
  exact scoped_bind _ _ (scoped_RegDeleteKeyEx _ _ _) (fun _ => scoped_assert_success _)

theorem scoped_remove_children (machine : HKEY) (key : String) :
    Scoped (remove._remove_children machine key) := by
  unfold remove._remove_children
  refine scoped_open_with _ _ _ _ (fun handle => ?_)
  unfold remove._remove_children_h
  exact scoped_bind _ _ (scoped_RegDeleteTree _ _) (fun _ => scoped_assert_success _)

theorem scoped_remove_value_h (handle : HKEY) (value : String) :
    Scoped (remove._remove_value_h handle value) := by
  unfold remove._remove_value_h
  exact scoped_bind _ _ (scoped_RegDeleteValue _ _) (fun _ => scoped_assert_success _)

theorem scoped_remove_value_inner (machine : HKEY) (key value : String) :
    Scoped (remove._remove_value machine key value) := by
  unfold remove._remove_value
  exact scoped_open_with _ _ _ _ (fun handle => scoped_remove_value_h _ _)

theorem scoped_remove_key (machine : HKEY) (key : String) :
    Scoped (remove.key machine key) := by
  unfold remove.key
  refine scoped_bind _ _ (scoped_key_exists _ _) (fun _ => ?_)
  refine scoped_ite _ _ _ ?_ (scoped_pure _)
  exact scoped_bind _ _ (scoped_remove_key_inner _ _) (fun _ => scoped_pure _)

theorem scoped_subkeys_loop (handle : HKEY) :
    ∀ names : List String, Scoped (remove.subkeys_loop handle names)
  | [] => by
    unfold remove.subkeys_loop
    exact scoped_pure _
  | name :: rest => by
    unfold remove.subkeys_loop
    refine scoped_bind _ _ (scoped_remove_children _ _) (fun _ => ?_)
    exact scoped_bind _ _ (scoped_remove_key_inner _ _)
      (fun _ => scoped_subkeys_loop handle rest)

theorem scoped_subkeys (machine : HKEY) (key : String) :
    Scoped (remove.subkeys machine key) := by
  unfold remove.subkeys
  refine scoped_bind _ _ (scoped_key_exists _ _) (fun _ => ?_)
  refine scoped_ite _ _ _ ?_ (scoped_pure _)
  refine scoped_open_with _ _ _ _ (fun handle => ?_)
  refine scoped_bind _ _ (scoped_keys_h _) (fun names => ?_)
  exact scoped_bind _ _ (scoped_subkeys_loop _ _) (fun _ => scoped_pure _)

theorem scoped_values_loop (handle : HKEY) :
    ∀ names : List String, Scoped (remove.values_loop handle names)
  | [] => by
    unfold remove.values_loop
    exact scoped_pure _
  | name :: rest => by
    unfold remove.values_loop
    exact scoped_bind _ _ (scoped_remove_value_h _ _) (fun _ => scoped_values_loop handle rest)

theorem scoped_remove_values (machine : HKEY) (key : String) :
    Scoped (remove.values machine key) := by
  unfold remove.values
  refine scoped_bind _ _ (scoped_key_exists _ _) (fun _ => ?_)
  refine scoped_ite _ _ _ ?_ (scoped_pure _)
  refine scoped_open_with _ _ _ _ (fun handle => ?_)
  refine scoped_bind _ _ (scoped_value_names_h _) (fun names => ?_)
  exact scoped_bind _ _ (scoped_values_loop _ _) (fun _ => scoped_pure _)

theorem scoped_cluster (machine : HKEY) (key : String) :
    Scoped (remove.cluster machine key) := by
  unfold remove.cluster
  refine scoped_bind _ _ (scoped_key_exists _ _) (fun _ => ?_)
  refine scoped_ite _ _ _ ?_ (scoped_pure _)
  refine scoped_bind _ _ (scoped_remove_children _ _) (fun _ => ?_)
  exact scoped_bind _ _ (scoped_remove_key _ _) (fun _ => scoped_pure _)

theorem scoped_remove_value (machine : HKEY) (key value : String) :
    Scoped (remove.value machine key value) := by
  unfold remove.value
  refine scoped_bind _ _ (scoped_key_exists _ _) (fun _ => ?_)
  refine scoped_ite _ _ _ ?_ (scoped_pure _)
  refine scoped_bind _ _ (scoped_value_exists _ _ _) (fun _ => ?_)
  refine scoped_ite _ _ _ ?_ (scoped_pure _)
  exact scoped_bind _ _ (scoped_remove_value_inner _ _ _) (fun _ => scoped_pure _)

theorem handsOver_create_key (machine : HKEY) (key : String) :
    HandsOver (create.key machine key) := by
  intro s
  unfold create.key
  cases hk : s.reg.hasKey (machine.sub (c_str key)) with
  | true => rw [create_key_run_exists machine key s hk]
  | false =>
    cases hb : s.reg.hasKey machine.loc with
    | true => rw [create_key_run_absent machine key s hk hb]
    | false => rw [create_key_run_stale machine key s hk hb]

theorem handsOver_item (machine : HKEY) (key value : String) (data : Data) :
    HandsOver (create.item machine key value data) := by
  intro s
  cases hk : s.reg.hasKey (machine.sub (c_str key)) with
  | true =>
    cases he : s.reg.entry (machine.sub (c_str key)) (c_str value) with
    | some v => rw [item_run_exists machine key value data s v he]
    | none => rw [item_run_new_value machine key value data s hk he]
  | false =>
    cases hb : s.reg.hasKey machine.loc with
    | true => rw [item_run_new_key machine key value data s hk hb]
    | false => rw [item_run_stale machine key value data s hk hb]

/-- On the store, whose write is never refused, every call of the layer
leaves the open handles as it found them, except that a returning
`create::key`, `create::number` or `create::string` leaves open the handle it
returns. -/
theorem handles_scoped_on_store (machine : HKEY) (key value : String) :
    Scoped (key_exists machine key) ∧ Scoped (value_exists machine key value) ∧
    Scoped (peekvalue machine key value) ∧
    Scoped (query.number machine key value) ∧ Scoped (query.string machine key value) ∧
    Scoped (query.key_info machine key) ∧ Scoped (query.keys machine key) ∧
    Scoped (query.value_names machine key) ∧
    (∀ d : Nat, Scoped (update.number machine key value d)) ∧
    (∀ d : String, Scoped (update.string machine key value d)) ∧
    Scoped (remove.key machine key) ∧ Scoped (remove.subkeys machine key) ∧
    Scoped (remove.values machine key) ∧ Scoped (remove.cluster machine key) ∧
    Scoped (remove.value machine key value) ∧
    HandsOver (create.key machine key) ∧
    (∀ d : Nat, HandsOver (create.number machine key value d)) ∧
    (∀ d : String, HandsOver (create.string machine key value d)) :=
  ⟨scoped_key_exists _ _, scoped_value_exists _ _ _, scoped_peekvalue _ _ _,
    scoped_query_number _ _ _, scoped_query_string _ _ _, scoped_key_info _ _,
    scoped_keys _ _, scoped_value_names _ _, fun d => scoped_update_number _ _ _ d,
    fun d => scoped_update_string _ _ _ d, scoped_remove_key _ _, scoped_subkeys _ _,
    scoped_remove_values _ _, scoped_cluster _ _, scoped_remove_value _ _ _,
    handsOver_create_key _ _, fun d => handsOver_item _ _ _ (Data.DWORD d),
    fun d => handsOver_item _ _ _ (Data.string_view d)⟩

/-! ## Creation: dispositions and the handle it holds (C22, C29) -/

/-- C29: the range of the dispositions.  Whenever `create::key` returns, the
disposition is `CREATED_KEY` or `EXISTS_KEY` (none of the other three), and
it is `CREATED_KEY` exactly when the node was absent before the call.
Whenever `create::number` or `create::string` returns, the disposition is
`CREATED_KEY`, `CREATED_VALUE` or `EXISTS_VALUE` (neither `EXISTS_KEY` nor
`UNKNOWN`), and it is `CREATED_KEY` exactly when the node was absent before
the call.  The five values are pairwise distinct, and the store's
create-or-open reports `REG_CREATED_NEW_KEY` for an absent node. -/
theorem disposition_range (machine : HKEY) (key value : String) (s : Sys) :
    (∀ (h : HKEY) (d : create.Disposition) (s1 : Sys),
      create.key machine key s = (Except.ok (h, d), s1) →
      (d = create.Disposition.CREATED_KEY ∨ d = create.Disposition.EXISTS_KEY) ∧
      d ≠ create.Disposition.CREATED_VALUE ∧ d ≠ create.Disposition.EXISTS_VALUE ∧
      d ≠ create.Disposition.UNKNOWN ∧
      (d = create.Disposition.CREATED_KEY ↔
        s.reg.hasKey (machine.sub (c_str key)) = false)) ∧
    (∀ (data : Nat) (h : HKEY) (d : create.Disposition) (s1 : Sys),
      create.number machine key value data s = (Except.ok (h, d), s1) →
      (d = create.Disposition.CREATED_KEY ∨ d = create.Disposition.CREATED_VALUE ∨
        d = create.Disposition.EXISTS_VALUE) ∧
      d ≠ create.Disposition.EXISTS_KEY ∧ d ≠ create.Disposition.UNKNOWN ∧
      (d = create.Disposition.CREATED_KEY ↔
        s.reg.hasKey (machine.sub (c_str key)) = false)) ∧
    (∀ (data : String) (h : HKEY) (d : create.Disposition) (s1 : Sys),
      create.string machine key value data s = (Except.ok (h, d), s1) →
      (d = create.Disposition.CREATED_KEY ∨ d = create.Disposition.CREATED_VALUE ∨
        d = create.Disposition.EXISTS_VALUE) ∧
      d ≠ create.Disposition.EXISTS_KEY ∧ d ≠ create.Disposition.UNKNOWN ∧
      (d = create.Disposition.CREATED_KEY ↔
        s.reg.hasKey (machine.sub (c_str key)) = false)) ∧
    [create.Disposition.UNKNOWN, create.Disposition.CREATED_KEY,
      create.Disposition.EXISTS_KEY, create.Disposition.CREATED_VALUE,
      create.Disposition.EXISTS_VALUE].Nodup ∧
    (s.reg.hasKey (machine.sub (c_str key)) = false → s.reg.hasKey machine.loc = true →
      ∃ h s1, RegCreateKeyEx machine (c_str key) REG_OPTION_NON_VOLATILE
          (KEY_READ ||| KEY_WRITE) s
        = (Except.ok (ERROR_SUCCESS, some h, REG_CREATED_NEW_KEY), s1)) := by
  have hitem : ∀ (data : Data) (h : HKEY) (d : create.Disposition) (s1 : Sys),
      create.item machine key value data s = (Except.ok (h, d), s1) →
      (d = create.Disposition.CREATED_KEY ∨ d = create.Disposition.CREATED_VALUE ∨
        d = create.Disposition.EXISTS_VALUE) ∧
      d ≠ create.Disposition.EXISTS_KEY ∧ d ≠ create.Disposition.UNKNOWN ∧
      (d = create.Disposition.CREATED_KEY ↔
        s.reg.hasKey (machine.sub (c_str key)) = false) := by
    intro data h d s1 hrun
    rcases item_disposition machine key value data s s1 h d hrun with
      ⟨hk, _, hd⟩ | ⟨hk, _, hd⟩ | ⟨hk, hd⟩
    · subst hd
      refine ⟨Or.inr (Or.inr rfl), by decide, by decide, ?_⟩
      rw [hk]
      exact ⟨fun hh => absurd hh (by decide), fun hh => absurd hh (by decide)⟩
    · subst hd
      refine ⟨Or.inr (Or.inl rfl), by decide, by decide, ?_⟩
      rw [hk]
      exact ⟨fun hh => absurd hh (by decide), fun hh => absurd hh (by decide)⟩
    · subst hd
      exact ⟨Or.inl rfl, by decide, by decide, fun _ => hk, fun _ => rfl⟩
  refine ⟨?_, fun data => hitem (Data.DWORD data), fun data => hitem (Data.string_view data),
    by decide, ?_⟩
  · intro h d s1 hrun
    rcases create_key_disposition machine key s s1 h d hrun with ⟨hk, hd⟩ | ⟨hk, hd⟩
    · subst hd
      refine ⟨Or.inr rfl, by decide, by decide, by decide, ?_⟩
      rw [hk]
      exact ⟨fun hh => absurd hh (by decide), fun hh => absurd hh (by decide)⟩
    · subst hd
      exact ⟨Or.inl rfl, by decide, by decide, by decide, fun _ => hk, fun _ => rfl⟩
  · intro hk hb
    exact ⟨machine.openedAt (c_str key) (KEY_READ ||| KEY_WRITE),
      { reg := s.reg.createKey (machine.sub (c_str key)),
        handles := machine.openedAt (c_str key) (KEY_READ ||| KEY_WRITE) :: s.handles },
      by simp [RegCreateKeyEx, hk, hb]⟩

/-- Witness for C29: on the empty store `create::number` returns `CREATED_KEY`
for the absent node `New`; on the sample store `create::key` returns
`EXISTS_KEY` for `TestKey`. -/
theorem disposition_range_witness :
    (create.number HKEY_CURRENT_USER "New" "V" 1 emptyStore).1
      = Except.ok (HKEY.opened Root.CURRENT_USER ["New"] (KEY_READ ||| KEY_WRITE),
          create.Disposition.CREATED_KEY) ∧
    (create.Disposition.CREATED_KEY = create.Disposition.CREATED_KEY ↔
      emptyStore.reg.hasKey (HKEY_CURRENT_USER.sub (c_str "New")) = false) ∧
    (create.key HKEY_CURRENT_USER "TestKey" sampleStore).1
      = Except.ok (HKEY.opened Root.CURRENT_USER ["TestKey"] (KEY_READ ||| KEY_WRITE),
          create.Disposition.EXISTS_KEY) ∧
    (create.Disposition.EXISTS_KEY = create.Disposition.CREATED_KEY ∨
      create.Disposition.EXISTS_KEY = create.Disposition.EXISTS_KEY) :=
  ⟨by decide,
    ((disposition_range HKEY_CURRENT_USER "New" "V" emptyStore).2.1 1
      (HKEY.opened Root.CURRENT_USER ["New"] (KEY_READ ||| KEY_WRITE))
      create.Disposition.CREATED_KEY
      (create.number HKEY_CURRENT_USER "New" "V" 1 emptyStore).2 (by decide)).2.2.2,
    by decide,
    ((disposition_range HKEY_CURRENT_USER "TestKey" "V" sampleStore).1
      (HKEY.opened Root.CURRENT_USER ["TestKey"] (KEY_READ ||| KEY_WRITE))
      create.Disposition.EXISTS_KEY
      (create.key HKEY_CURRENT_USER "TestKey" sampleStore).2 (by decide)).1⟩

/-- C22: a refused write inside `create::item` leaves a handle open.  `item`
holds the handle it obtained as a plain pointer, so when the native write
answers a code other than success the exception of `assert::success` leaves
the function with the handle still open: on an existing node without the
entry the state is the one before the call with the handle added, and on an
absent node the node has been created as well.  With the store's own write,
this is `create::item`. -/
theorem create_write_failure_leaks_handle
    (native_set : HKEY → String → Nat → List Nat → Nat → M Nat)
    (machine : HKEY) (key value : String) (data : Data) (s : Sys) (code : Nat)
    (hc : code ≠ ERROR_SUCCESS)
    (hw : ∀ (handle : HKEY) (name : String) (type : Nat) (bytes : List Nat) (cb : Nat)
      (t : Sys), native_set handle name type bytes cb t = (Except.ok code, t)) :
    (s.reg.hasKey (machine.sub (c_str key)) = true →
      s.reg.entry (machine.sub (c_str key)) (c_str value) = none →
      create.item_with native_set machine key value data s
        = (Except.error (Exception.runtime_error code),
            { s with handles := machine.openedAt (c_str key) KEY_WRITE :: s.handles }) ∧
      (create.item_with native_set machine key value data s).2.handles ≠ s.handles) ∧
    (s.reg.hasKey (machine.sub (c_str key)) = false → s.reg.hasKey machine.loc = true →
      create.item_with native_set machine key value data s
        = (Except.error (Exception.runtime_error code),
            { reg := s.reg.createKey (machine.sub (c_str key)),
              handles := machine.openedAt (c_str key) (KEY_READ ||| KEY_WRITE) :: s.handles }) ∧
      (create.item_with native_set machine key value data s).2.handles ≠ s.handles) ∧
    create.item_with RegSetValueEx machine key value data
      = create.item machine key value data := by
  have hcons : ∀ (h : HKEY) (hs : List HKEY), h :: hs ≠ hs := by
    intro h hs he
    have := congrArg List.length he
    simp at this
  refine ⟨?_, ?_, item_with_native machine key value data⟩
  · intro hk he
    have hrun : create.item_with native_set machine key value data s
        = (Except.error (Exception.runtime_error code),
            { s with handles := machine.openedAt (c_str key) KEY_WRITE :: s.handles }) := by
      unfold create.item_with
      simp only [run_bind, key_exists_run, hk, if_true, open_run_ok machine key _ s hk,
        value_exists_run]
      have he2 : (Registry.entry s.reg (machine.sub (c_str key)) (c_str value)).isSome
          = false := by rw [he]; rfl
      simp only [he2, Bool.false_eq_true, if_false]
      rw [run_bind, create_value_h_with_refused native_set _ value data _ code hc
        (fun type bytes cb => hw _ _ _ _ _ _)]
    refine ⟨hrun, ?_⟩
    rw [hrun]
    exact hcons _ _
  · intro hk hb
    have hrun : create.item_with native_set machine key value data s
        = (Except.error (Exception.runtime_error code),
            { reg := s.reg.createKey (machine.sub (c_str key)),
              handles := machine.openedAt (c_str key) (KEY_READ ||| KEY_WRITE) :: s.handles })
        := by
      unfold create.item_with
      simp only [run_bind, key_exists_run, hk, Bool.false_eq_true, if_false,
        create_key_run_absent machine key s hk hb]
      rw [create_value_h_with_refused native_set _ value data _ code hc
        (fun type bytes cb => hw _ _ _ _ _ _)]
    refine ⟨hrun, ?_⟩
    rw [hrun]
    exact hcons _ _

/-- Witness for C22: `create::number` of a new entry on `TestKey` of the sample
store, which had no open handle, with a write that is refused. -/
theorem create_write_failure_leaks_handle_witness :
    create.item_with deniedWrite HKEY_CURRENT_USER "TestKey" "NewValue" (Data.DWORD 7)
        sampleStore
      = (Except.error (Exception.runtime_error ERROR_ACCESS_DENIED),
          { sampleStore with
            handles := [HKEY.opened Root.CURRENT_USER ["TestKey"] KEY_WRITE] }) :=
  ((create_write_failure_leaks_handle deniedWrite HKEY_CURRENT_USER "TestKey" "NewValue"
    (Data.DWORD 7) sampleStore ERROR_ACCESS_DENIED (by decide)
    (fun _ _ _ _ _ _ => rfl)).1 (by decide) (by decide)).1

/-! ## The finer removals one after the other -/

theorem remove_subkeys_run_state (machine : HKEY) (key : String) (s : Sys)
    (h : s.reg.hasKey (machine.sub (c_str key)) = true)
    (hnd : (s.reg.subkeyNames (machine.sub (c_str key))).Nodup)
    (hp : ∀ n ∈ s.reg.subkeyNames (machine.sub (c_str key)), segments (c_str n) = [n])
    (hfit : maxLen (s.reg.subkeyNames (machine.sub (c_str key))) + 1 < DWORD_MOD) :
    remove.subkeys machine key s =
      (Except.ok (!(s.reg.subkeyNames (machine.sub (c_str key))).isEmpty),
        { s with reg := s.reg.withoutChildren (machine.sub (c_str key)) }) :=
  remove_subkeys_run machine key s h hnd hp hfit

theorem remove_values_run_state (machine : HKEY) (key : String) (s : Sys)
    (h : s.reg.hasKey (machine.sub (c_str key)) = true)
    (hnd : (s.reg.valueNames (machine.sub (c_str key))).Nodup)
    (hc : ∀ n ∈ s.reg.valueNames (machine.sub (c_str key)), c_str n = n)
    (hfit : maxLen (s.reg.valueNames (machine.sub (c_str key))) + 1 < DWORD_MOD) :
    remove.values machine key s =
      (Except.ok (!(s.reg.valueNames (machine.sub (c_str key))).isEmpty),
        { s with reg := s.reg.withoutValues (machine.sub (c_str key)) }) :=
  remove_values_run machine key s h hnd hc hfit

theorem any_child_within_parent (names : List String) (l : Loc) :
    names.any (fun n => Loc.within (l.1, l.2 ++ [n]) l) = false := by
  rw [List.any_eq_false]
  intro n _
  simp [child_not_within_parent]

theorem hasKey_withoutChildren (g : Registry) (l : Loc) (h : g.hasKey l = true) :
    (g.withoutChildren l).hasKey l = true := by
  simp only [Registry.hasKey, decide_eq_true_eq, Registry.withoutChildren, List.mem_filter,
    Bool.not_eq_true'] at h ⊢
  rcases h with h | h
  · exact Or.inl h
  · exact Or.inr ⟨h, any_child_within_parent _ l⟩

theorem valueNames_withoutChildren (g : Registry) (l : Loc) :
    (g.withoutChildren l).valueNames l = g.valueNames l := by
  unfold Registry.valueNames Registry.withoutChildren
  exact filterMap_filter_keep _ _ _ (fun e _ hpe => by
    have hne : e.1.1 ≠ l := by
      intro heq
      rw [heq, any_child_within_parent] at hpe
      simp at hpe
    simp [hne])

theorem within_child_below (l k : Loc) (n : String)
    (h : Loc.within (l.1, l.2 ++ [n]) k = true) : l.below k = true := by
  rw [Loc.within_iff] at h
  rw [Loc.below_iff]
  refine ⟨h.1, (List.prefix_append _ _).trans h.2, ?_⟩
  intro he
  have hlen := h.2.length_le
  rw [he] at hlen
  simp at hlen

/-- In a closed registry, what lies below a node lies within one of its
children. -/
theorem closed_child (g : Registry) (hc : g.closed = true) (l k : Loc)
    (hk : k ∈ g.keys ∨ ∃ e ∈ g.values, e.1.1 = k) (hb : l.below k = true) :
    ∃ n, (l.1, l.2 ++ [n]) ∈ g.keys ∧ Loc.within (l.1, l.2 ++ [n]) k = true := by
  rw [Loc.below_iff] at hb
  obtain ⟨h1, ⟨t, ht⟩, hne⟩ := hb
  have htne : t ≠ [] := by
    intro h0
    apply hne
    rw [← ht, h0, List.append_nil]
  obtain ⟨n, rest, rfl⟩ := List.exists_cons_of_ne_nil htne
  simp only [Registry.closed, Bool.and_eq_true, List.all_eq_true, decide_eq_true_eq] at hc
  have hkk : k ∈ g.keys := by
    rcases hk with hk | ⟨e, he, hek⟩
    · exact hk
    · have hh := hc.2 e he
      rw [hek] at hh
      simp only [Registry.hasKey, decide_eq_true_eq] at hh
      rcases hh with hh | hh
      · rw [← ht] at hh
        simp at hh
      · exact hh
  have hpre : l.2 ++ [n] <+: k.2 := by
    rw [← ht]
    exact ⟨rest, by simp⟩
  have hin := hc.1 k hkk (l.2 ++ [n]) ((List.mem_inits _ _).2 hpre)
  rcases hin with hin | hin
  · simp at hin
  · refine ⟨n, ?_, ?_⟩
    · rw [← h1]
      exact hin
    · rw [Loc.within_iff]
      exact ⟨h1, hpre⟩

theorem any_within_eq_below (g : Registry) (hc : g.closed = true) (l k : Loc)
    (hk : k ∈ g.keys ∨ ∃ e ∈ g.values, e.1.1 = k) :
    (g.subkeyNames l).any (fun n => Loc.within (l.1, l.2 ++ [n]) k) = l.below k := by
  rw [Bool.eq_iff_iff, List.any_eq_true]
  constructor
  · rintro ⟨n, _, hw⟩
    exact within_child_below l k n hw
  · intro hb
    obtain ⟨n, hn, hw⟩ := closed_child g hc l k hk hb
    exact ⟨n, (mem_subkeyNames g l n).2 hn, hw⟩

/-- In a closed registry, removing the children, then the entries, then the
node leaves what removing the subtree and then the node leaves. -/
theorem by_parts_registry (g : Registry) (hc : g.closed = true) (l : Loc) :
    ((g.withoutChildren l).withoutValues l).deleteKey l = (g.deleteTree l).deleteKey l := by
  simp only [Registry.withoutChildren, Registry.withoutValues, Registry.deleteKey,
    Registry.deleteTree, List.filter_filter]
  congr 1
  · apply List.filter_congr
    intro k hk
    rw [any_within_eq_below g hc l k (Or.inl hk)]
  · apply List.filter_congr
    intro e he
    rw [any_within_eq_below g hc l e.1.1 (Or.inr ⟨e, he, rfl⟩), within_eq]
    by_cases h1 : e.1.1 = l <;> simp [h1]

theorem by_parts_run (machine : HKEY) (key : String) (s : Sys)
    (h : s.reg.hasKey (machine.sub (c_str key)) = true)
    (hl : (machine.sub (c_str key)).2 ≠ [])
    (hclosed : s.reg.closed = true)
    (hkn : (s.reg.subkeyNames (machine.sub (c_str key))).Nodup)
    (hkp : ∀ n ∈ s.reg.subkeyNames (machine.sub (c_str key)), segments (c_str n) = [n])
    (hkf : maxLen (s.reg.subkeyNames (machine.sub (c_str key))) + 1 < DWORD_MOD)
    (hvn : (s.reg.valueNames (machine.sub (c_str key))).Nodup)
    (hvc : ∀ n ∈ s.reg.valueNames (machine.sub (c_str key)), c_str n = n)
    (hvf : maxLen (s.reg.valueNames (machine.sub (c_str key))) + 1 < DWORD_MOD) :
    remove.by_parts machine key s =
      (Except.ok true,
        { s with reg :=
            (((s.reg.withoutChildren (machine.sub (c_str key))).withoutValues
              (machine.sub (c_str key))).deleteKey (machine.sub (c_str key))) }) := by
  have h1 := hasKey_withoutChildren s.reg _ h
  have hv := valueNames_withoutChildren s.reg (machine.sub (c_str key))
  unfold remove.by_parts
  rw [run_bind, remove_subkeys_run_state machine key s h hkn hkp hkf]
  simp only
  rw [run_bind, remove_values_run_state machine key _ h1 (by rw [hv]; exact hvn)
    (by rw [hv]; exact hvc) (by rw [hv]; exact hvf)]
  simp only
  rw [remove_key_run_leaf machine key _ h1 hl ?_]
  simp only [Registry.withoutValues, Registry.withoutChildren, List.any_eq_false,
    List.mem_filter, Bool.not_eq_true', and_imp]
  intro k hk hany hb
  obtain ⟨n, hn, hw⟩ := closed_child s.reg hclosed _ k (Or.inl hk) hb
  exact hany n ((mem_subkeyNames _ _ n).2 hn) hw

/-! ## Cluster removal and the finer removals (C30) -/

/-- C30: on an existing node that is not a root, of a store in which every
node has its ancestors and every entry its node (and whose names are distinct
proper names that fit the 32-bit length field), `remove::cluster` and the
sequence `remove::subkeys`, `remove::values`, `remove::key` both return true
and leave the same state, in which the node is absent. -/
theorem cluster_equals_by_parts (machine : HKEY) (key : String) (s : Sys)
    (h : s.reg.hasKey (machine.sub (c_str key)) = true)
    (hl : (machine.sub (c_str key)).2 ≠ [])
    (hclosed : s.reg.closed = true)
    (hkn : (s.reg.subkeyNames (machine.sub (c_str key))).Nodup)
    (hkp : ∀ n ∈ s.reg.subkeyNames (machine.sub (c_str key)), segments (c_str n) = [n])
    (hkf : maxLen (s.reg.subkeyNames (machine.sub (c_str key))) + 1 < DWORD_MOD)
    (hvn : (s.reg.valueNames (machine.sub (c_str key))).Nodup)
    (hvc : ∀ n ∈ s.reg.valueNames (machine.sub (c_str key)), c_str n = n)
    (hvf : maxLen (s.reg.valueNames (machine.sub (c_str key))) + 1 < DWORD_MOD) :
    ∃ s1, remove.cluster machine key s = (Except.ok true, s1) ∧
      remove.by_parts machine key s = (Except.ok true, s1) ∧
      key_exists machine key s1 = (Except.ok false, s1) := by
  have hc := cluster_run_node machine key s h hl
  have hp := by_parts_run machine key s h hl hclosed hkn hkp hkf hvn hvc hvf
  rw [by_parts_registry s.reg hclosed] at hp
  refine ⟨_, hc, hp, ?_⟩
  rw [key_exists_run]
  have hf : ((s.reg.deleteTree (machine.sub (c_str key))).deleteKey
      (machine.sub (c_str key))).hasKey (machine.sub (c_str key)) = false := by
    rw [Bool.eq_false_iff, Ne, hasKey_deleteKey _ _ _ hl]
    simp
  simp [hf]

/-- Witness for C30: the node `Info` of the example store, with its three
children, the nodes below `Key0` and its five entries. -/
theorem cluster_equals_by_parts_witness :
    ∃ s1, remove.cluster HKEY_CURRENT_USER "Info" infoStore = (Except.ok true, s1) ∧
      remove.by_parts HKEY_CURRENT_USER "Info" infoStore = (Except.ok true, s1) ∧
      key_exists HKEY_CURRENT_USER "Info" s1 = (Except.ok false, s1) :=
  cluster_equals_by_parts HKEY_CURRENT_USER "Info" infoStore (by decide) (by decide)
    (by decide) (by decide) (by decide) (by decide) (by decide) (by decide) (by decide)

/-! ## Removal against refusals of the native API -/

theorem open_with_native (machine : HKEY) (key : String) (rights : Nat) :
    open_with RegOpenKeyEx machine key rights = «open» machine key rights := rfl

theorem cluster_with_native (machine : HKEY) (key : String) :
    remove.cluster_with RegOpenKeyEx RegDeleteTree RegDeleteKeyEx machine key
      = remove.cluster machine key := rfl

theorem key_names_loop_with_native (handle : HKEY) (cap : Nat) :
    ∀ (budget i : Nat) (buffer : List Char) (acc : List String),
      query.names_loop_with RegEnumKeyEx handle cap budget i buffer acc
        = query.keys_loop handle cap budget i buffer acc
  | 0, _, _, _ => rfl
  | budget + 1, i, buffer, acc => by
    unfold query.names_loop_with query.keys_loop
    simp only [key_names_loop_with_native handle cap budget]

theorem value_names_loop_with_native (handle : HKEY) (cap : Nat) :
    ∀ (budget i : Nat) (buffer : List Char) (acc : List String),
      query.names_loop_with RegEnumValue handle cap budget i buffer acc
        = query.value_names_loop handle cap budget i buffer acc
  | 0, _, _, _ => rfl
  | budget + 1, i, buffer, acc => by
    unfold query.names_loop_with query.value_names_loop
    simp only [value_names_loop_with_native handle cap budget]

theorem key_info_h_with_native (handle : HKEY) :
    query.key_info_h_with RegQueryInfoKey handle = query.key_info_h handle := rfl

theorem keys_h_with_native (handle : HKEY) :
    query.keys_h_with RegQueryInfoKey RegEnumKeyEx handle = query.keys_h handle := by
  unfold query.keys_h_with query.keys_h
  simp only [key_info_h_with_native, key_names_loop_with_native]

theorem value_names_h_with_native (handle : HKEY) :
    query.value_names_h_with RegQueryInfoKey RegEnumValue handle
      = query.value_names_h handle := by
  unfold query.value_names_h_with query.value_names_h
  simp only [key_info_h_with_native, value_names_loop_with_native]

theorem keys_with_native (machine : HKEY) (key : String) :
    query.keys_with RegQueryInfoKey RegEnumKeyEx machine key = query.keys machine key := by
  unfold query.keys_with query.keys
  simp only [keys_h_with_native]

theorem value_names_with_native (machine : HKEY) (key : String) :
    query.value_names_with RegQueryInfoKey RegEnumValue machine key
      = query.value_names machine key := by
  unfold query.value_names_with query.value_names
  simp only [value_names_h_with_native]

/-! ## `remove::cluster` when native calls may be refused -/

theorem range_succ_map (names : Nat → String) (i j : Nat) (h : i < j) :
    (List.range' i (j - i)).map names = names i :: (List.range' (i + 1) (j - (i + 1))).map names := by
  obtain ⟨d, rfl⟩ : ∃ d, j = i + (d + 1) := ⟨j - i - 1, by omega⟩
  have h1 : i + (d + 1) - i = d + 1 := by omega
  have h2 : i + (d + 1) - (i + 1) = d := by omega
  rw [h1, h2]
  rfl

/-- The loop against an enumeration that yields `names` below the index `j`
and the code `c` there: it ends with `c` and, when `c` is "no more items",
with exactly the names below `j` appended, in order. -/
theorem names_loop_with_run
    (native_enum : HKEY → Nat → List Char → Nat → M (Nat × List Char × Nat))
    (handle : HKEY) (cap : Nat) (t : Sys) (names : Nat → String) (j c : Nat)
    (ha : answersUntil native_enum handle cap t names j c) (hc : c ≠ ERROR_SUCCESS) :
    ∀ (budget i : Nat) (buffer : List Char) (acc : List String),
      i ≤ j → j < i + budget →
      ∃ last, query.names_loop_with native_enum handle cap budget i buffer acc t
          = (Except.ok (c, acc ++ (List.range' i (j - i)).map names ++ last), t) ∧
        (c = ERROR_NO_MORE_ITEMS → last = [])
  | 0, i, _, acc => by
    intro hi hb
    exfalso
    omega
  | budget + 1, i, buffer, acc => by
    intro hi hb
    unfold query.names_loop_with
    rw [run_bind]
    rcases Nat.lt_or_ge i j with hlt | hge
    · obtain ⟨b1, rd, hr, hn⟩ := ha.1 i buffer hlt
      rw [hr]
      have hne : ERROR_SUCCESS ≠ ERROR_NO_MORE_ITEMS := by decide
      simp only [hne, if_false, if_true]
      obtain ⟨last, hrun, hlast⟩ := names_loop_with_run native_enum handle cap t names j c ha hc
        budget (i + 1) b1 (acc ++ [String.mk (b1.take rd)]) hlt (by omega)
      refine ⟨last, ?_, hlast⟩
      rw [hrun, range_succ_map names i j hlt, hn]
      simp
    · have hij : i = j := Nat.le_antisymm hi hge
      subst hij
      obtain ⟨b1, rd, hr⟩ := ha.2 buffer
      rw [hr]
      by_cases hnm : c = ERROR_NO_MORE_ITEMS
      · refine ⟨[], ?_, fun _ => rfl⟩
        simp [hnm, run_pure, M.pure]
      · refine ⟨[String.mk (b1.take rd)], ?_, fun h => absurd h hnm⟩
        simp [hnm, hc, run_pure, M.pure]

theorem key_info_h_with_ok (native_info : HKEY → M (Nat × Nat × Nat × Nat × Nat))
    (handle : HKEY) (t : Sys) (N mk V mv : Nat)
    (hinfo : native_info handle t = (Except.ok (ERROR_SUCCESS, N, mk, V, mv), t)) :
    query.key_info_h_with native_info handle t
      = (Except.ok (N, (mk + 1) % DWORD_MOD, V, (mv + 1) % DWORD_MOD), t) := by
  unfold query.key_info_h_with
  rw [run_bind, hinfo]
  simp [assert.success, run_bind, run_pure, M.pure]

theorem key_info_h_with_refused (native_info : HKEY → M (Nat × Nat × Nat × Nat × Nat))
    (handle : HKEY) (t : Sys) (c N mk V mv : Nat) (hc : c ≠ ERROR_SUCCESS)
    (hinfo : native_info handle t = (Except.ok (c, N, mk, V, mv), t)) :
    query.key_info_h_with native_info handle t
      = (Except.error (Exception.runtime_error c), t) := by
  unfold query.key_info_h_with
  rw [run_bind, hinfo]
  simp [assert.success, run_bind, M.throw, hc]

/-- The handle overload of `query::keys` against a count query that reports
`N` children and an enumeration that yields `names` below `j` and the code `c`
at `j`, for `j` up to `N`: with "no more items" it returns exactly the names
below `j`; with any other code it raises the `runtime_error` of that code. -/
theorem keys_h_with_run (native_info : HKEY → M (Nat × Nat × Nat × Nat × Nat))
    (native_enum : HKEY → Nat → List Char → Nat → M (Nat × List Char × Nat))
    (handle : HKEY) (t : Sys) (N mk V mv : Nat) (names : Nat → String) (j c : Nat)
    (hinfo : native_info handle t = (Except.ok (ERROR_SUCCESS, N, mk, V, mv), t))
    (hj : j ≤ N) (hc : c ≠ ERROR_SUCCESS)
    (ha : answersUntil native_enum handle ((mk + 1) % DWORD_MOD) t names j c) :
    (c = ERROR_NO_MORE_ITEMS →
      query.keys_h_with native_info native_enum handle t
        = (Except.ok ((List.range j).map names), t)) ∧
    (c ≠ ERROR_NO_MORE_ITEMS →
      query.keys_h_with native_info native_enum handle t
        = (Except.error (Exception.runtime_error c), t)) := by
  obtain ⟨last, hrun, hlast⟩ := names_loop_with_run native_enum handle _ t names j c ha hc
    (N + 1) 0 (List.replicate ((mk + 1) % DWORD_MOD) NUL) [] (Nat.zero_le _) (by omega)
  have hbody : query.keys_h_with native_info native_enum handle t
      = (assert.equal c ERROR_NO_MORE_ITEMS >>= fun _ =>
          (pure ([] ++ (List.range' 0 (j - 0)).map names ++ last) : M (List String))) t := by
    unfold query.keys_h_with
    rw [run_bind, key_info_h_with_ok native_info handle t N mk V mv hinfo]
    simp only [run_bind]
    rw [hrun]
  rw [hbody]
  constructor
  · intro hnm
    rw [hlast hnm]
    simp [assert.equal, hnm, run_bind, run_pure, M.pure, List.range_eq_range']
  · intro hnm
    simp [assert.equal, hnm, run_bind, M.throw]

/-- The handle overload of `query::value_names`; see `keys_h_with_run`. -/
theorem value_names_h_with_run (native_info : HKEY → M (Nat × Nat × Nat × Nat × Nat))
    (native_enum : HKEY → Nat → List Char → Nat → M (Nat × List Char × Nat))
    (handle : HKEY) (t : Sys) (N mk V mv : Nat) (names : Nat → String) (j c : Nat)
    (hinfo : native_info handle t = (Except.ok (ERROR_SUCCESS, N, mk, V, mv), t))
    (hj : j ≤ V) (hc : c ≠ ERROR_SUCCESS)
    (ha : answersUntil native_enum handle ((mv + 1) % DWORD_MOD) t names j c) :
    (c = ERROR_NO_MORE_ITEMS →
      query.value_names_h_with native_info native_enum handle t
        = (Except.ok ((List.range j).map names), t)) ∧
    (c ≠ ERROR_NO_MORE_ITEMS →
      query.value_names_h_with native_info native_enum handle t
        = (Except.error (Exception.runtime_error c), t)) := by
  obtain ⟨last, hrun, hlast⟩ := names_loop_with_run native_enum handle _ t names j c ha hc
    (V + 1) 0 (List.replicate ((mv + 1) % DWORD_MOD) NUL) [] (Nat.zero_le _) (by omega)
  have hbody : query.value_names_h_with native_info native_enum handle t
      = (assert.equal c ERROR_NO_MORE_ITEMS >>= fun _ =>
          (pure ([] ++ (List.range' 0 (j - 0)).map names ++ last) : M (List String))) t := by
    unfold query.value_names_h_with
    rw [run_bind, key_info_h_with_ok native_info handle t N mk V mv hinfo]
    simp only [run_bind]
    rw [hrun]
  rw [hbody]
  constructor
  · intro hnm
    rw [hlast hnm]
    simp [assert.equal, hnm, run_bind, run_pure, M.pure, List.range_eq_range']
  · intro hnm
    simp [assert.equal, hnm, run_bind, M.throw]

/-- A refused count query makes both handle overloads raise the
`runtime_error` of its code. -/
theorem names_h_with_refused_info (native_info : HKEY → M (Nat × Nat × Nat × Nat × Nat))
    (native_enum : HKEY → Nat → List Char → Nat → M (Nat × List Char × Nat))
    (handle : HKEY) (t : Sys) (c N mk V mv : Nat) (hc : c ≠ ERROR_SUCCESS)
    (hinfo : native_info handle t = (Except.ok (c, N, mk, V, mv), t)) :
    query.keys_h_with native_info native_enum handle t
      = (Except.error (Exception.runtime_error c), t) ∧
    query.value_names_h_with native_info native_enum handle t
      = (Except.error (Exception.runtime_error c), t) := by
  constructor
  · unfold query.keys_h_with
    rw [run_bind, key_info_h_with_refused native_info handle t c N mk V mv hc hinfo]
  · unfold query.value_names_h_with
    rw [run_bind, key_info_h_with_refused native_info handle t c N mk V mv hc hinfo]

/-- The path overload of `query::keys` on an existing node is its handle
overload on the handle it opens, with the handle closed afterwards. -/
theorem keys_with_run (native_info : HKEY → M (Nat × Nat × Nat × Nat × Nat))
    (native_enum : HKEY → Nat → List Char → Nat → M (Nat × List Char × Nat))
    (machine : HKEY) (key : String) (s : Sys) (r : Except Exception (List String))
    (h : s.reg.hasKey (machine.sub (c_str key)) = true)
    (hr : query.keys_h_with native_info native_enum
        (machine.openedAt (c_str key) (KEY_QUERY_VALUE ||| KEY_ENUMERATE_SUB_KEYS))
        { s with handles :=
            (machine.openedAt (c_str key) (KEY_QUERY_VALUE ||| KEY_ENUMERATE_SUB_KEYS)
              :: s.handles) }
      = (r, { s with handles :=
            (machine.openedAt (c_str key) (KEY_QUERY_VALUE ||| KEY_ENUMERATE_SUB_KEYS)
              :: s.handles) })) :
    query.keys_with native_info native_enum machine key s = (r, s) := by
  unfold query.keys_with
  simp only [run_bind, check_key_ok machine key s h, open_run_ok machine key _ s h,
    with_handle_run]
  rw [hr]
  simp

/-- The path overload of `query::value_names`; see `keys_with_run`. -/
theorem value_names_with_run (native_info : HKEY → M (Nat × Nat × Nat × Nat × Nat))
    (native_enum : HKEY → Nat → List Char → Nat → M (Nat × List Char × Nat))
    (machine : HKEY) (key : String) (s : Sys) (r : Except Exception (List String))
    (h : s.reg.hasKey (machine.sub (c_str key)) = true)
    (hr : query.value_names_h_with native_info native_enum
        (machine.openedAt (c_str key) KEY_QUERY_VALUE)
        { s with handles := (machine.openedAt (c_str key) KEY_QUERY_VALUE :: s.handles) }
      = (r, { s with handles :=
            (machine.openedAt (c_str key) KEY_QUERY_VALUE :: s.handles) })) :
    query.value_names_with native_info native_enum machine key s = (r, s) := by
  unfold query.value_names_with
  simp only [run_bind, check_key_ok machine key s h, open_run_ok machine key _ s h,
    with_handle_run]
  rw [hr]
  simp

/-- On a live handle whose buffer holds every name, the store's enumeration of
child nodes yields the child names in order and then "no more items". -/
theorem store_keys_answersUntil (handle : HKEY) (cap : Nat) (t : Sys)
    (hk : t.reg.hasKey handle.loc = true)
    (hfit : ∀ n ∈ t.reg.subkeyNames handle.loc, n.length < cap) :
    answersUntil RegEnumKeyEx handle cap t
      (fun i => ((t.reg.subkeyNames handle.loc).get? i).getD "")
      (t.reg.subkeyNames handle.loc).length ERROR_NO_MORE_ITEMS := by
  constructor
  · intro i b hi
    obtain ⟨n, hn⟩ : ∃ n, (t.reg.subkeyNames handle.loc).get? i = some n :=
      ⟨_, List.get?_eq_get hi⟩
    refine ⟨overlay b (n.data ++ [NUL]), n.length, ?_, ?_⟩
    · unfold RegEnumKeyEx
      simp only [hk, if_true]
      rw [enumAt_fits _ i b _ n hn (hfit n (List.get?_mem hn))]
    · rw [take_overlay]
      show n = (Option.getD (List.get? _ i) "")
      rw [hn]
      rfl
  · intro b
    refine ⟨b, cap, ?_⟩
    unfold RegEnumKeyEx
    simp only [hk, if_true]
    unfold enumAt
    rw [List.get?_eq_none.2 (le_refl _)]

/-- On a live handle whose buffer holds every name, the store's enumeration of
entries yields the entry names in order and then "no more items". -/
theorem store_values_answersUntil (handle : HKEY) (cap : Nat) (t : Sys)
    (hk : t.reg.hasKey handle.loc = true)
    (hfit : ∀ n ∈ t.reg.valueNames handle.loc, n.length < cap) :
    answersUntil RegEnumValue handle cap t
      (fun i => ((t.reg.valueNames handle.loc).get? i).getD "")
      (t.reg.valueNames handle.loc).length ERROR_NO_MORE_ITEMS := by
  constructor
  · intro i b hi
    obtain ⟨n, hn⟩ : ∃ n, (t.reg.valueNames handle.loc).get? i = some n :=
      ⟨_, List.get?_eq_get hi⟩
    refine ⟨overlay b (n.data ++ [NUL]), n.length, ?_, ?_⟩
    · unfold RegEnumValue
      simp only [hk, if_true]
      rw [enumAt_fits _ i b _ n hn (hfit n (List.get?_mem hn))]
    · rw [take_overlay]
      show n = (Option.getD (List.get? _ i) "")
      rw [hn]
      rfl
  · intro b
    refine ⟨b, cap, ?_⟩
    unfold RegEnumValue
    simp only [hk, if_true]
    unfold enumAt
    rw [List.get?_eq_none.2 (le_refl _)]

/-- An enumeration made to answer `c` at the index `j` yields below `j` what the
underlying enumeration yields there, and `c` at `j`. -/
theorem failsAt_answersUntil
    (native_enum : HKEY → Nat → List Char → Nat → M (Nat × List Char × Nat))
    (handle : HKEY) (cap : Nat) (t : Sys) (names : Nat → String) (n j c c0 : Nat)
    (hj : j ≤ n) (ha : answersUntil native_enum handle cap t names n c0) :
    answersUntil (failsAt native_enum j c) handle cap t names j c := by
  constructor
  · intro i b hi
    obtain ⟨b1, rd, hr, hn⟩ := ha.1 i b (by omega)
    refine ⟨b1, rd, ?_, hn⟩
    unfold failsAt
    rw [if_neg (by omega)]
    exact hr
  · intro b
    refine ⟨b, cap, ?_⟩
    unfold failsAt
    rw [if_pos rfl]

/-- The names an enumeration yields below the number of names of a list, when
it yields that list in order, are the list. -/
theorem range_map_get (names : List String) :
    (List.range names.length).map (fun i => (names.get? i).getD "") = names := by
  apply List.ext_getElem
  · simp
  · intro i h1 h2
    simp [List.getElem?_eq_getElem h2]

/-! ## Enumerating (C20) -/

/-- C20: on an existing node whose names fit the 32-bit length field,
`query::keys` returns, leaving the state as it was, exactly the names the
store yields at the enumeration indices 0 to N-1, complete and in that order,
where N is the child count `key_info` reports; the store answers "no more
items" at index N and nothing is appended for it.  On any handle and any
store the handle overload either returns that complete list or raises the
`runtime_error` of the non-success code met.  `query::value_names` does the
same over the entries of the node.

The same holds against any answers of the native API, taken as parameters:
when the count query reports N and the enumeration answers success with a
name at every index below some j up to N and a code c other than success at j,
the handle overload returns exactly the names below j if c is "no more
items", and raises the `runtime_error` of c for every other c; a count query
answered with a code other than success raises the `runtime_error` of that
code.  The path overload gives the result of the handle overload on the
handle it opens and closes that handle; the store's own enumeration is one
such answer, ending with "no more items" at index N; and at the store's
native calls the parametrised functions are `query::keys` and
`query::value_names`. -/
theorem enumeration_complete (machine : HKEY) (key : String) (s : Sys)
    (h : s.reg.hasKey (machine.sub (c_str key)) = true)
    (hk : maxLen (s.reg.subkeyNames (machine.sub (c_str key))) + 1 < DWORD_MOD)
    (hv : maxLen (s.reg.valueNames (machine.sub (c_str key))) + 1 < DWORD_MOD) :
    query.keys machine key s
      = (Except.ok (s.reg.subkeyNames (machine.sub (c_str key))), s) ∧
    query.value_names machine key s
      = (Except.ok (s.reg.valueNames (machine.sub (c_str key))), s) ∧
    query.key_info machine key s =
      (Except.ok ((s.reg.subkeyNames (machine.sub (c_str key))).length,
        maxLen (s.reg.subkeyNames (machine.sub (c_str key))) + 1,
        (s.reg.valueNames (machine.sub (c_str key))).length,
        maxLen (s.reg.valueNames (machine.sub (c_str key))) + 1), s) ∧
    (∀ (i : Nat) (buffer : List Char),
      i < (s.reg.subkeyNames (machine.sub (c_str key))).length →
      ∃ n, (s.reg.subkeyNames (machine.sub (c_str key))).get? i = some n ∧
        RegEnumKeyEx (machine.openedAt (c_str key) KEY_ENUMERATE_SUB_KEYS) i buffer
            (maxLen (s.reg.subkeyNames (machine.sub (c_str key))) + 1) s
          = (Except.ok (ERROR_SUCCESS, overlay buffer (n.data ++ [NUL]), n.length), s)) ∧
    (∀ buffer : List Char,
      RegEnumKeyEx (machine.openedAt (c_str key) KEY_ENUMERATE_SUB_KEYS)
          (s.reg.subkeyNames (machine.sub (c_str key))).length buffer
          (maxLen (s.reg.subkeyNames (machine.sub (c_str key))) + 1) s
        = (Except.ok (ERROR_NO_MORE_ITEMS, buffer,
            maxLen (s.reg.subkeyNames (machine.sub (c_str key))) + 1), s)) ∧
    (∀ (i : Nat) (buffer : List Char),
      i < (s.reg.valueNames (machine.sub (c_str key))).length →
      ∃ n, (s.reg.valueNames (machine.sub (c_str key))).get? i = some n ∧
        RegEnumValue (machine.openedAt (c_str key) KEY_QUERY_VALUE) i buffer
            (maxLen (s.reg.valueNames (machine.sub (c_str key))) + 1) s
          = (Except.ok (ERROR_SUCCESS, overlay buffer (n.data ++ [NUL]), n.length), s)) ∧
    (∀ buffer : List Char,
      RegEnumValue (machine.openedAt (c_str key) KEY_QUERY_VALUE)
          (s.reg.valueNames (machine.sub (c_str key))).length buffer
          (maxLen (s.reg.valueNames (machine.sub (c_str key))) + 1) s
        = (Except.ok (ERROR_NO_MORE_ITEMS, buffer,
            maxLen (s.reg.valueNames (machine.sub (c_str key))) + 1), s)) ∧
    (∀ (handle : HKEY) (t : Sys),
      (query.keys_h handle t = (Except.ok (t.reg.subkeyNames handle.loc), t) ∨
        query.keys_h handle t = (Except.error (Exception.runtime_error ERROR_MORE_DATA), t) ∨
        query.keys_h handle t
          = (Except.error (Exception.runtime_error ERROR_FILE_NOT_FOUND), t)) ∧
      (query.value_names_h handle t = (Except.ok (t.reg.valueNames handle.loc), t) ∨
        query.value_names_h handle t
          = (Except.error (Exception.runtime_error ERROR_MORE_DATA), t) ∨
        query.value_names_h handle t
          = (Except.error (Exception.runtime_error ERROR_FILE_NOT_FOUND), t))) ∧
    (∀ (native_info : HKEY → M (Nat × Nat × Nat × Nat × Nat))
      (native_enum : HKEY → Nat → List Char → Nat → M (Nat × List Char × Nat))
      (handle : HKEY) (t : Sys) (N mk V mv : Nat) (names : Nat → String) (j c : Nat),
      native_info handle t = (Except.ok (ERROR_SUCCESS, N, mk, V, mv), t) →
      j ≤ N → c ≠ ERROR_SUCCESS →
      answersUntil native_enum handle ((mk + 1) % DWORD_MOD) t names j c →
      (c = ERROR_NO_MORE_ITEMS →
        query.keys_h_with native_info native_enum handle t
          = (Except.ok ((List.range j).map names), t)) ∧
      (c ≠ ERROR_NO_MORE_ITEMS →
        query.keys_h_with native_info native_enum handle t
          = (Except.error (Exception.runtime_error c), t))) ∧
    (∀ (native_info : HKEY → M (Nat × Nat × Nat × Nat × Nat))
      (native_enum : HKEY → Nat → List Char → Nat → M (Nat × List Char × Nat))
      (handle : HKEY) (t : Sys) (N mk V mv : Nat) (names : Nat → String) (j c : Nat),
      native_info handle t = (Except.ok (ERROR_SUCCESS, N, mk, V, mv), t) →
      j ≤ V → c ≠ ERROR_SUCCESS →
      answersUntil native_enum handle ((mv + 1) % DWORD_MOD) t names j c →
      (c = ERROR_NO_MORE_ITEMS →
        query.value_names_h_with native_info native_enum handle t
          = (Except.ok ((List.range j).map names), t)) ∧
      (c ≠ ERROR_NO_MORE_ITEMS →
        query.value_names_h_with native_info native_enum handle t
          = (Except.error (Exception.runtime_error c), t))) ∧
    (∀ (native_info : HKEY → M (Nat × Nat × Nat × Nat × Nat))
      (native_enum : HKEY → Nat → List Char → Nat → M (Nat × List Char × Nat))
      (handle : HKEY) (t : Sys) (c N mk V mv : Nat),
      c ≠ ERROR_SUCCESS →
      native_info handle t = (Except.ok (c, N, mk, V, mv), t) →
      query.keys_h_with native_info native_enum handle t
        = (Except.error (Exception.runtime_error c), t) ∧
      query.value_names_h_with native_info native_enum handle t
        = (Except.error (Exception.runtime_error c), t)) ∧
    (∀ (native_info : HKEY → M (Nat × Nat × Nat × Nat × Nat))
      (native_enum : HKEY → Nat → List Char → Nat → M (Nat × List Char × Nat))
      (r : Except Exception (List String)),
      query.keys_h_with native_info native_enum
          (machine.openedAt (c_str key) (KEY_QUERY_VALUE ||| KEY_ENUMERATE_SUB_KEYS))
          { s with handles :=
              (machine.openedAt (c_str key) (KEY_QUERY_VALUE ||| KEY_ENUMERATE_SUB_KEYS)
                :: s.handles) }
        = (r, { s with handles :=
              (machine.openedAt (c_str key) (KEY_QUERY_VALUE ||| KEY_ENUMERATE_SUB_KEYS)
                :: s.handles) }) →
      query.keys_with native_info native_enum machine key s = (r, s)) ∧
    (∀ (native_info : HKEY → M (Nat × Nat × Nat × Nat × Nat))
      (native_enum : HKEY → Nat → List Char → Nat → M (Nat × List Char × Nat))
      (r : Except Exception (List String)),
      query.value_names_h_with native_info native_enum
          (machine.openedAt (c_str key) KEY_QUERY_VALUE)
          { s with handles := (machine.openedAt (c_str key) KEY_QUERY_VALUE :: s.handles) }
        = (r, { s with handles :=
              (machine.openedAt (c_str key) KEY_QUERY_VALUE :: s.handles) }) →
      query.value_names_with native_info native_enum machine key s = (r, s)) ∧
    answersUntil RegEnumKeyEx
      (machine.openedAt (c_str key) (KEY_QUERY_VALUE ||| KEY_ENUMERATE_SUB_KEYS))
      ((maxLen (s.reg.subkeyNames (machine.sub (c_str key))) + 1) % DWORD_MOD)
      { s with handles :=
          (machine.openedAt (c_str key) (KEY_QUERY_VALUE ||| KEY_ENUMERATE_SUB_KEYS)
            :: s.handles) }
      (fun i => ((s.reg.subkeyNames (machine.sub (c_str key))).get? i).getD "")
      (s.reg.subkeyNames (machine.sub (c_str key))).length ERROR_NO_MORE_ITEMS ∧
    answersUntil RegEnumValue (machine.openedAt (c_str key) KEY_QUERY_VALUE)
      ((maxLen (s.reg.valueNames (machine.sub (c_str key))) + 1) % DWORD_MOD)
      { s with handles := (machine.openedAt (c_str key) KEY_QUERY_VALUE :: s.handles) }
      (fun i => ((s.reg.valueNames (machine.sub (c_str key))).get? i).getD "")
      (s.reg.valueNames (machine.sub (c_str key))).length ERROR_NO_MORE_ITEMS ∧
    query.keys_with RegQueryInfoKey RegEnumKeyEx machine key = query.keys machine key ∧
    query.value_names_with RegQueryInfoKey RegEnumValue machine key
      = query.value_names machine key ∧
    (∀ handle : HKEY,
      query.keys_h_with RegQueryInfoKey RegEnumKeyEx handle = query.keys_h handle ∧
      query.value_names_h_with RegQueryInfoKey RegEnumValue handle
        = query.value_names_h handle) := by
  have hinfo := key_info_run machine key s h
  rw [Nat.mod_eq_of_lt hk, Nat.mod_eq_of_lt hv] at hinfo
  refine ⟨keys_run machine key s h hk, value_names_run machine key s h hv, hinfo, ?_, ?_, ?_, ?_,
    fun handle t => ⟨keys_h_cases handle t, value_names_h_cases handle t⟩,
    keys_h_with_run, value_names_h_with_run, ?_,
    fun ni ne r hr => keys_with_run ni ne machine key s r h hr,
    fun ni ne r hr => value_names_with_run ni ne machine key s r h hr, ?_, ?_,
    keys_with_native machine key, value_names_with_native machine key,
    fun handle => ⟨keys_h_with_native handle, value_names_h_with_native handle⟩⟩
  · intro i buffer hi
    obtain ⟨n, hn⟩ : ∃ n, (s.reg.subkeyNames (machine.sub (c_str key))).get? i = some n :=
      ⟨_, List.get?_eq_get hi⟩
    refine ⟨n, hn, ?_⟩
    unfold RegEnumKeyEx
    simp only [loc_openedAt, h, if_true]
    rw [enumAt_fits _ i buffer _ n hn (Nat.lt_succ_of_le (le_maxLen _ n (List.get?_mem hn)))]
  · intro buffer
    unfold RegEnumKeyEx
    simp only [loc_openedAt, h, if_true]
    unfold enumAt
    rw [List.get?_eq_none.2 (le_refl _)]
  · intro i buffer hi
    obtain ⟨n, hn⟩ : ∃ n, (s.reg.valueNames (machine.sub (c_str key))).get? i = some n :=
      ⟨_, List.get?_eq_get hi⟩
    refine ⟨n, hn, ?_⟩
    unfold RegEnumValue
    simp only [loc_openedAt, h, if_true]
    rw [enumAt_fits _ i buffer _ n hn (Nat.lt_succ_of_le (le_maxLen _ n (List.get?_mem hn)))]
  · intro buffer
    unfold RegEnumValue
    simp only [loc_openedAt, h, if_true]
    unfold enumAt
    rw [List.get?_eq_none.2 (le_refl _)]
  · intro ni ne handle t c N mk V mv hc hinfo
    exact names_h_with_refused_info ni ne handle t c N mk V mv hc hinfo
  · refine store_keys_answersUntil _ _ _ (by simpa [loc_openedAt] using h) ?_
    intro n hn
    rw [Nat.mod_eq_of_lt hk]
    exact Nat.lt_succ_of_le (le_maxLen _ n hn)
  · refine store_values_answersUntil _ _ _ (by simpa [loc_openedAt] using h) ?_
    intro n hn
    rw [Nat.mod_eq_of_lt hv]
    exact Nat.lt_succ_of_le (le_maxLen _ n hn)

/-- Witness for C20: the three children and the five entries of `Info`, in
enumeration order; an enumeration refused at index 1 and a refused count
query make the calls fail with the code of the refusal. -/
theorem enumeration_complete_witness :
    query.keys HKEY_CURRENT_USER "Info" infoStore
      = (Except.ok ["Key0", "Key1", "Key2"], infoStore) ∧
    query.value_names HKEY_CURRENT_USER "Info" infoStore
      = (Except.ok ["Value0", "Value1", "Value2", "Value3", ""], infoStore) ∧
    query.keys_with RegQueryInfoKey (failsAt RegEnumKeyEx 1 ERROR_ACCESS_DENIED)
        HKEY_CURRENT_USER "Info" infoStore
      = (Except.error (Exception.runtime_error ERROR_ACCESS_DENIED), infoStore) ∧
    query.value_names_with RegQueryInfoKey (failsAt RegEnumValue 5 ERROR_ACCESS_DENIED)
        HKEY_CURRENT_USER "Info" infoStore
      = (Except.error (Exception.runtime_error ERROR_ACCESS_DENIED), infoStore) ∧
    query.keys_with deniedInfo RegEnumKeyEx HKEY_CURRENT_USER "Info" infoStore
      = (Except.error (Exception.runtime_error ERROR_ACCESS_DENIED), infoStore) := by
  have T := enumeration_complete HKEY_CURRENT_USER "Info" infoStore
    (by decide) (by decide) (by decide)
  obtain ⟨h1, h2, _, _, _, _, _, _, hkeys, hvalues, hinfo, hkp, hvp, hsk, hsv, _⟩ := T
  refine ⟨h1, h2, ?_, ?_, ?_⟩
  · refine hkp RegQueryInfoKey _ _ ?_
    exact (hkeys RegQueryInfoKey _ _ _ 3 4 5 6 _ 1 ERROR_ACCESS_DENIED (by decide) (by decide)
      (by decide)
      (failsAt_answersUntil RegEnumKeyEx _ _ _ _ 3 1 ERROR_ACCESS_DENIED _ (by decide)
        hsk)).2 (by decide)
  · refine hvp RegQueryInfoKey _ _ ?_
    exact (hvalues RegQueryInfoKey _ _ _ 3 4 5 6 _ 5 ERROR_ACCESS_DENIED (by decide)
      (by decide) (by decide)
      (failsAt_answersUntil RegEnumValue _ _ _ _ 5 5 ERROR_ACCESS_DENIED _ (by decide)
        hsv)).2 (by decide)
  · refine hkp deniedInfo RegEnumKeyEx _ ?_
    exact (hinfo deniedInfo RegEnumKeyEx _ _ ERROR_ACCESS_DENIED 0 0 0 0 (by decide) rfl).1

end reg
